import Mathlib

/-!
# ProjectorRays wasm boundary layer

A shallow embedding of `src/cpp/main.cpp` and `src/wasm.cpp` (the C entry points exported
to the host) together with the byte-order helpers of
`src/cpp/emscripten/boost/endian/conversion.hpp` and the formatter of
`src/cpp/emscripten/boost/format.hpp`.

Conventions of the embedding:

* a `std::string` is a `List Char` (one `Char` per `char`), a byte vector is a `List Nat`;
* machine integers are `Nat`/`Int`; a conversion to `uint32_t` is an explicit `% 2 ^ 32`;
* a call into a collaborator that may throw returns a `Call` value;
* a pointer is an `Option`: `none` is the null pointer.
-/

namespace ProjectorRays

/-! ## Escape normalizer (`standardizeJsonEscapes`, main.cpp 37-71) -/

/-- The lambda `isHex` of `standardizeJsonEscapes`. -/
def isHex (c : Char) : Bool :=
  (decide ('0' ≤ c) && decide (c ≤ '9')) || (decide ('a' ≤ c) && decide (c ≤ 'f')) ||
    (decide ('A' ≤ c) && decide (c ≤ 'F'))

/-- One iteration of the `for` loop of `standardizeJsonEscapes` at index `i`, where
`ch = input[i]` and `rest` is `input[i+1 ..]`.  The result is the text appended to `out`
and the extra amount added to `i` inside the body (`++i`, `i += 3`), on top of the
loop's own `++i`. -/
def escapeStep (ch : Char) (rest : List Char) : List Char × Nat :=
  if ch ≠ '\\' ∨ rest.length = 0 then
    ([ch], 0)
  else
    match rest with
    | [] => ([ch], 0)
    | next :: tail =>
      if next = 'v' then
        (['\\', 'u', '0', '0', '0', 'b'], 1)
      else
        match decide (next = 'x'), tail with
        | true, h1 :: h2 :: _ =>
          if isHex h1 && isHex h2 then
            (['\\', 'u', '0', '0'] ++ [h1] ++ [h2], 3)
          else
            ([ch], 0)
        | _, _ => ([ch], 0)

/-- The `for` loop of `standardizeJsonEscapes`: the first argument is the input from the
current position on, `skip` counts characters already consumed by an earlier iteration. -/
def escapeLoop : List Char → Nat → List Char
  | [], _ => []
  | ch :: rest, skip =>
    match skip with
    | k + 1 => escapeLoop rest k
    | 0 => (escapeStep ch rest).1 ++ escapeLoop rest (escapeStep ch rest).2

/-- The function `standardizeJsonEscapes` of main.cpp. -/
def standardizeJsonEscapes (input : List Char) : List Char :=
  escapeLoop input 0

/-! ## Little-endian helpers -/

/-- The lambda `appendUint32` of `projectorrays_implemented_dump_chunks`: the four bytes
pushed onto `output` for a `uint32_t` value. -/
def appendUint32 (value : Nat) : List Nat :=
  [value &&& 0xff, (value >>> 8) &&& 0xff, (value >>> 16) &&& 0xff, (value >>> 24) &&& 0xff]

/-- The function `load_little_u32` of conversion.hpp, reading `p[0..3]`; a missing byte
reads as 0 (the source requires four readable bytes). -/
def load_little_u32 (p : List Nat) : Nat :=
  (p.getD 0 0 ||| (p.getD 1 0 <<< 8) ||| (p.getD 2 0 <<< 16) ||| (p.getD 3 0 <<< 24)) % 2 ^ 32

/-- Little-endian 32-bit layout in the words of the specification: four bytes, least
significant first. -/
def le32 (n : Nat) : List Nat :=
  [n % 256, n / 256 % 256, n / 65536 % 256, n / 16777216 % 256]

/-! ## Byte-order shim (emscripten/boost/endian/conversion.hpp)

A load reads the bytes `p[0]`, `p[1]`, ... from a list (a missing byte reads as 0; the
source requires the bytes to be readable); a store returns the bytes written to `p[0]`,
`p[1]`, ... in this order. -/

/-- The function `load_little_u16` of conversion.hpp. -/
def load_little_u16 (p : List Nat) : Nat :=
  ((p.getD 0 0) % 2 ^ 16 ||| ((p.getD 1 0) <<< 8) % 2 ^ 16) % 2 ^ 16

/-- The function `load_big_u16` of conversion.hpp. -/
def load_big_u16 (p : List Nat) : Nat :=
  (((p.getD 0 0) <<< 8) % 2 ^ 16 ||| (p.getD 1 0) % 2 ^ 16) % 2 ^ 16

/-- The function `load_big_u32` of conversion.hpp. -/
def load_big_u32 (p : List Nat) : Nat :=
  ((p.getD 0 0 <<< 24) ||| (p.getD 1 0 <<< 16) ||| (p.getD 2 0 <<< 8) ||| p.getD 3 0) % 2 ^ 32

/-- The function `load_little_u64` of conversion.hpp. -/
def load_little_u64 (p : List Nat) : Nat :=
  (p.getD 0 0 ||| (p.getD 1 0 <<< 8) ||| (p.getD 2 0 <<< 16) ||| (p.getD 3 0 <<< 24)
    ||| (p.getD 4 0 <<< 32) ||| (p.getD 5 0 <<< 40) ||| (p.getD 6 0 <<< 48)
    ||| (p.getD 7 0 <<< 56)) % 2 ^ 64

/-- The function `load_big_u64` of conversion.hpp. -/
def load_big_u64 (p : List Nat) : Nat :=
  ((p.getD 0 0 <<< 56) ||| (p.getD 1 0 <<< 48) ||| (p.getD 2 0 <<< 40) ||| (p.getD 3 0 <<< 32)
    ||| (p.getD 4 0 <<< 24) ||| (p.getD 5 0 <<< 16) ||| (p.getD 6 0 <<< 8)
    ||| p.getD 7 0) % 2 ^ 64

/-- The function `store_little_u16` of conversion.hpp. -/
def store_little_u16 (value : Nat) : List Nat :=
  [value &&& 0xff, (value >>> 8) &&& 0xff]

/-- The function `store_big_u16` of conversion.hpp. -/
def store_big_u16 (value : Nat) : List Nat :=
  [(value >>> 8) &&& 0xff, value &&& 0xff]

/-- The function `store_little_u32` of conversion.hpp. -/
def store_little_u32 (value : Nat) : List Nat :=
  [value &&& 0xff, (value >>> 8) &&& 0xff, (value >>> 16) &&& 0xff, (value >>> 24) &&& 0xff]

/-- The function `store_big_u32` of conversion.hpp. -/
def store_big_u32 (value : Nat) : List Nat :=
  [(value >>> 24) &&& 0xff, (value >>> 16) &&& 0xff, (value >>> 8) &&& 0xff, value &&& 0xff]

/-- The function `store_little_u64` of conversion.hpp. -/
def store_little_u64 (value : Nat) : List Nat :=
  [value &&& 0xff, (value >>> 8) &&& 0xff, (value >>> 16) &&& 0xff, (value >>> 24) &&& 0xff,
    (value >>> 32) &&& 0xff, (value >>> 40) &&& 0xff, (value >>> 48) &&& 0xff,
    (value >>> 56) &&& 0xff]

/-- The function `store_big_u64` of conversion.hpp. -/
def store_big_u64 (value : Nat) : List Nat :=
  [(value >>> 56) &&& 0xff, (value >>> 48) &&& 0xff, (value >>> 40) &&& 0xff,
    (value >>> 32) &&& 0xff, (value >>> 24) &&& 0xff, (value >>> 16) &&& 0xff,
    (value >>> 8) &&& 0xff, value &&& 0xff]

/-! ## Format shim (emscripten/boost/format.hpp, `boost::format::str`)

The arguments supplied with `operator%` are the strings pushed onto `_args`, in supply
order. -/

/-- The test `_fmt[j] >= '0' && _fmt[j] <= '9'` of `str`. -/
def isDigitChar (c : Char) : Bool :=
  decide ('0' ≤ c) && decide (c ≤ '9')

/-- The test `(spec >= 'A' && spec <= 'Z') || (spec >= 'a' && spec <= 'z')` of `str`. -/
def isLetterChar (c : Char) : Bool :=
  (decide ('A' ≤ c) && decide (c ≤ 'Z')) || (decide ('a' ≤ c) && decide (c ≤ 'z'))

/-- The loop `while (j < _fmt.size() && digit(_fmt[j])) ++j`: the amount added to `j`. -/
def skipDigits : List Char → Nat
  | [] => 0
  | c :: rest => if isDigitChar c then skipDigits rest + 1 else 0

/-- The loop `while (j < _fmt.size()) { if letter(_fmt[j]) break; ++j; }`: the amount added
to `j`. -/
def skipToLetter : List Char → Nat
  | [] => 0
  | c :: rest => if isLetterChar c then 0 else skipToLetter rest + 1

/-- The statement `if (argIndex < _args.size()) out.append(_args[argIndex++])`: the text
appended and the new value of `argIndex`. -/
def takeArg (args : List (List Char)) (argIndex : Nat) : List Char × Nat :=
  if argIndex < args.length then (args.getD argIndex [], argIndex + 1) else ([], argIndex)

/-- One iteration of the `for` loop of `str` at index `i`, where `c = _fmt[i]` and `rest`
is `_fmt[i+1 ..]`.  The result is the text appended to `out`, the amount added to `i`
inside the body (on top of the loop's own `++i`), and the new value of `argIndex`.  The
local `j` is kept as the offset `j - (i + 1)` into `rest`. -/
def formatStep (c : Char) (rest : List Char) (args : List (List Char)) (argIndex : Nat) :
    List Char × Nat × Nat :=
  if c ≠ '%' then
    ([c], 0, argIndex)
  else if rest.head? = some '%' then
    (['%'], 1, argIndex)
  else
    let j := 0
    if (rest.head?.map isDigitChar) = some true then
      let j := j + skipDigits rest
      if rest.get? j = some '%' then
        ((takeArg args argIndex).1, j + 1, (takeArg args argIndex).2)
      else
        let j := j + skipToLetter (rest.drop j)
        ((takeArg args argIndex).1, j + 1, (takeArg args argIndex).2)
    else
      let j := j + skipToLetter (rest.drop j)
      ((takeArg args argIndex).1, j + 1, (takeArg args argIndex).2)

/-- The `for` loop of `str`: the first argument after `args` is the format from the current
position on, `skip` counts characters already consumed by an earlier iteration. -/
def formatLoop (args : List (List Char)) : List Char → Nat → Nat → List Char
  | [], _, _ => []
  | c :: rest, skip, argIndex =>
    match skip with
    | k + 1 => formatLoop args rest k argIndex
    | 0 =>
      (formatStep c rest args argIndex).1
        ++ formatLoop args rest (formatStep c rest args argIndex).2.1
            (formatStep c rest args argIndex).2.2

/-- The member function `boost::format::str` for the format `_fmt` and the arguments
`_args`. -/
def format_str (_fmt : List Char) (_args : List (List Char)) : List Char :=
  formatLoop _args _fmt 0 0

/-! ## Collaborators -/

/-- Outcome of a call that may throw a C++ exception. -/
inductive Call (α : Type) where
  | returned (value : α)
  | threw
  deriving DecidableEq, Repr

/-- The fields of `Director::ChunkInfo` read by the boundary layer. -/
structure ChunkInfo where
  fourCC : Nat
  id : Int
  deriving DecidableEq, Repr

/-- Outcome of `dir.write(stream)` on a `Common::WriteStream` over a given buffer:
it completes with `stream.pos()` and the buffer as written, throws something derived
from `std::exception`, or throws something else. -/
inductive WriteOutcome where
  | wrote (pos : Nat) (buffer : List Nat)
  | stdException
  | otherFault
  deriving DecidableEq, Repr

/-- A deserialized chunk as returned by `getChunk`.  `writeJSON` is the value of
`json.str()` after `chunk->writeJSON(json)` on a fresh `Common::JSONWriter json("\n")`, or a
throw of `writeJSON`. -/
structure Chunk where
  writeJSON : Call (List Char)

/-- The enum `Director::ScriptType` (director/castmember.h): the three values named by the
`switch` of the script entry points, and any other value. -/
inductive ScriptType where
  | kScoreScript
  | kMovieScript
  | kParentScript
  | unlisted (value : Nat)
  deriving DecidableEq, Repr

/-- The enum `Director::MemberType`: the value `kScriptMember`, and any other value. -/
inductive MemberType where
  | kScriptMember
  | unlisted (value : Nat)
  deriving DecidableEq, Repr

/-- The fields of `Director::CastMemberChunk` read by the script entry points.
`scriptType` is `static_cast<ScriptMember *>(member->member.get())->scriptType`, which the
code reads only when `type` is `kScriptMember`; `getName` is the value of
`member->getName()`. -/
structure CastMemberChunk where
  type : MemberType
  scriptType : ScriptType
  id : Int
  getName : List Char

/-- A script of a cast's script table (`Director::Script`, viewed as `ScriptChunk`):
its owning member, which may be null, and the two decompiling calls
`scriptText(lineEnding, dotSyntax)` and `bytecodeText(lineEnding, dotSyntax)`. -/
structure Script where
  member : Option CastMemberChunk
  scriptText : List Char → Bool → Call (List Char)
  bytecodeText : List Char → Bool → Call (List Char)

/-- A cast of the container: its name and `lctx->scripts`, the resolved script table in
iteration order (`none` when `lctx` is null). -/
structure CastChunk where
  name : List Char
  lctx : Option (List (Int × Script))

/-- The calls the entry points make on a `Common::JSONWriter`. -/
inductive JsonOp where
  | startObject
  | endObject
  | startArray
  | endArray
  | writeKey (key : String)
  | writeVal (value : List Char)
  | writeFieldInt (key : String) (value : Int)
  | writeFieldStr (key : String) (value : List Char)
  deriving DecidableEq, Repr

/-- The helpers of namespace `Common` (common/json.h), taken as parameters:
`fourCCToString`, `escapeString`, and `jsonStr`, the value of `str()` of a
`JSONWriter json("\n")` after the given sequence of calls. -/
structure CommonLib where
  fourCCToString : Nat → List Char
  escapeString : List Char → List Char
  jsonStr : List JsonOp → List Char

/-- The part of `Director::DirectorFile` the boundary layer uses.  The class is declared in
director/dirfile.h; its members are taken as parameters.

* `chunkInfo`: the chunk directory in iteration order, as pairs `(entry.first, entry.second)`;
* `getChunkData fourCC id`: the payload view, or a throw when the chunk is absent;
* `size`: the value of `dir.size()` after `generateInitialMap(); generateMemoryMap()`;
* `write buffer`: serialization into a write stream over `buffer`;
* `writeToBuffer`: the result of `unprotect(); parseScripts(); restoreScriptText();
  writeToBuffer()` as called by `projectorrays_decompile`;
* `getChunk fourCC id`: the deserialized chunk, a null pointer, or a throw;
* `chunkExists`, `isCast`: the boolean queries, which may throw;
* `sizeQuery`: the call `dir->size()` made by `projectorrays_size`;
* `version`, `dotSyntax`: the members of these names;
* `parseScripts`: the member `casts` after `config->unprotect(); parseScripts()`, or a
  throw of one of the two calls. -/
structure DirectorFile where
  chunkInfo : List (Int × ChunkInfo)
  getChunkData : Nat → Int → Call (List Nat)
  size : Nat
  write : List Nat → WriteOutcome
  writeToBuffer : Call (List Nat)
  getChunk : Nat → Int → Call (Option Chunk)
  chunkExists : Nat → Int → Call Bool
  isCast : Call Bool
  sizeQuery : Call Nat
  version : Nat
  dotSyntax : Bool
  parseScripts : Call (List CastChunk)

/-- The struct `ProjectorRaysHandle`; `dir` is the `unique_ptr`, which may be null. -/
structure ProjectorRaysHandle where
  dir : Option DirectorFile

/-- The execution environment: the width of `size_t` in bits, whether `std::malloc` of a
given size succeeds, and whether a `std::vector<uint8_t>` obtains storage for `n` bytes
(when it does not, the member function that asked, `assign` or a growing `resize`, throws
`std::length_error` or `std::bad_alloc`). -/
structure Runtime where
  sizeBits : Nat
  malloc : Nat → Bool
  vectorAlloc : Nat → Bool

/-- What the caller observes after a buffer-returning entry point: the returned pointer
(`none` for `nullptr`, otherwise the first `*outputSize` bytes of the buffer) and the cell
`outputSize` points to (`none` when that pointer is null). -/
structure BufferResult where
  ret : Option (List Nat)
  outputSize : Option Nat
  deriving DecidableEq, Repr

/-! ## Buffer growth writer (`writeDirectorToBuffer`, main.cpp 73-103) -/

/-- The call `std::vector<uint8_t>::resize(n)`. -/
def resize (v : List Nat) (n : Nat) : List Nat :=
  v.take n ++ List.replicate (n - v.length) 0

/-- The `for (attempt = 0; attempt < 3; ++attempt)` loop of `writeDirectorToBuffer`;
`remaining` is `3 - attempt`.  The result is the pair `(output, actualSize)` at loop exit,
or `threw` when an exception leaves the loop: `output.assign(bufferSize, 0)` stands before
the `try` block, so a throw of it is not caught, and `dir.write` may throw something the
`catch` clause does not handle. -/
def writeAttempts (rt : Runtime) (dir : DirectorFile) (estimatedSize : Nat) :
    Nat → Nat → List Nat → Nat → Call (List Nat × Nat)
  | 0, _, output, actualSize => .returned (output, actualSize)
  | remaining + 1, attempt, _, _ =>
    let bufferSize := (estimatedSize <<< attempt) % 2 ^ rt.sizeBits
    if !rt.vectorAlloc bufferSize then .threw
    else
      let output := List.replicate bufferSize 0
      match dir.write output with
      | .wrote pos buffer => .returned (buffer, pos)
      | .stdException => writeAttempts rt dir estimatedSize remaining (attempt + 1) output 0
      | .otherFault => .threw

/-- The function `writeDirectorToBuffer`: the returned `bool` and the final contents of
the reference parameter `output`, or `threw` when the call is left by an exception: one
that left the loop, or the one of `output.resize(actualSize)` when the vector has to grow
and obtains no storage. -/
def writeDirectorToBuffer (rt : Runtime) (dir : DirectorFile) (output : List Nat) :
    Call (Bool × List Nat) :=
  let estimatedSize := dir.size
  if estimatedSize = 0 then
    .returned (false, output)
  else
    match writeAttempts rt dir estimatedSize 3 0 output 0 with
    | .threw => .threw
    | .returned (output, actualSize) =>
      if actualSize = 0 then
        .returned (false, [])
      else if output.length < actualSize ∧ rt.vectorAlloc actualSize = false then
        .threw
      else
        .returned (true, resize output actualSize)

/-! ## Entry points -/

/-- The entry point `projectorrays_get_chunk` (main.cpp 179-211). -/
def projectorrays_get_chunk (rt : Runtime) (handle : Option ProjectorRaysHandle)
    (fourCC : Nat) (id : Int) (outputSize : Option Nat) : BufferResult :=
  match handle, outputSize with
  | none, _ => ⟨none, outputSize⟩
  | some _, none => ⟨none, none⟩
  | some ptr, some _ =>
    match ptr.dir with
    | none => ⟨none, some 0⟩
    | some dir =>
      match dir.getChunkData fourCC id with
      | .threw => ⟨none, some 0⟩
      | .returned chunkView =>
        let size := chunkView.length
        let allocSize := if size > 0 then size else 1
        if !rt.malloc allocSize then
          ⟨none, some 0⟩
        else
          ⟨some (if size > 0 then chunkView else []), some size⟩

/-- The first loop of `projectorrays_implemented_dump_chunks`, counting into a
`uint32_t`. -/
def countLoop : List (Int × ChunkInfo) → Nat → Nat
  | [], count => count
  | entry :: rest, count =>
    if entry.1 = 0 then countLoop rest count
    else countLoop rest ((count + 1) % 2 ^ 32)

/-- The second loop of `projectorrays_implemented_dump_chunks`, appending one record per
entry to `output`. -/
def dumpLoop (dir : DirectorFile) : List (Int × ChunkInfo) → List Nat → Call (List Nat)
  | [], output => .returned output
  | entry :: rest, output =>
    let info := entry.2
    let idValue := entry.1
    if idValue = 0 then dumpLoop dir rest output
    else
      match dir.getChunkData info.fourCC idValue with
      | .threw => .threw
      | .returned chunkView =>
        let output := output ++ appendUint32 info.fourCC
        let output := output ++ appendUint32 (idValue % 2 ^ 32).toNat
        let output := output ++ appendUint32 (chunkView.length % 2 ^ 32)
        let output := if chunkView.length > 0 then output ++ chunkView else output
        dumpLoop dir rest output

/-- The entry point `projectorrays_implemented_dump_chunks` (main.cpp 371-432). -/
def projectorrays_implemented_dump_chunks (rt : Runtime)
    (handle : Option ProjectorRaysHandle) (outputSize : Option Nat) : BufferResult :=
  match handle, outputSize with
  | none, _ => ⟨none, outputSize⟩
  | some _, none => ⟨none, none⟩
  | some ptr, some _ =>
    match ptr.dir with
    | none => ⟨none, some 0⟩
    | some dir =>
      let output := appendUint32 (countLoop dir.chunkInfo 0)
      match dumpLoop dir dir.chunkInfo output with
      | .threw => ⟨none, some 0⟩
      | .returned output =>
        if output.isEmpty then
          ⟨none, some 0⟩
        else if !rt.malloc output.length then
          ⟨none, some 0⟩
        else
          ⟨some output, some output.length⟩

/-- The entry point `projectorrays_decompile` (wasm.cpp 25-62).  `read` is the parser
`DirectorFile::read` on a stream over the first `inputSize` bytes of `input`: it returns
the parsed container, returns `false` (`none`), or throws. -/
def projectorrays_decompile (rt : Runtime)
    (read : List Nat → Call (Option DirectorFile))
    (input : Option (List Nat)) (inputSize : Nat) (outputSize : Option Nat) : BufferResult :=
  match input, outputSize with
  | none, _ => ⟨none, outputSize⟩
  | some _, none => ⟨none, none⟩
  | some bytes, some prior =>
    if inputSize = 0 then
      ⟨none, some prior⟩
    else
      match read (bytes.take inputSize) with
      | .threw => ⟨none, some 0⟩
      | .returned none => ⟨none, some 0⟩
      | .returned (some dir) =>
        match dir.writeToBuffer with
        | .threw => ⟨none, some 0⟩
        | .returned output =>
          if output.isEmpty then
            ⟨none, some 0⟩
          else if !rt.malloc output.length then
            ⟨none, some 0⟩
          else
            ⟨some output, some output.length⟩

/-! ## Queries, structured export and script entry points -/

/-- The bytes copied by `std::memcpy(out, str.data(), str.size())`: one byte per `char`. -/
def bytesOf (s : List Char) : List Nat :=
  s.map Char.toNat

/-- The conversion `static_cast<int>(n)` of an unsigned value. -/
def toInt32 (n : Nat) : Int :=
  if n % 2 ^ 32 < 2 ^ 31 then (n % 2 ^ 32 : Nat) else (n % 2 ^ 32 : Nat) - 2 ^ 32

/-- The call `std::to_string(i)` on an `int32_t`. -/
def to_string (i : Int) : List Char :=
  (toString i).toList

/-- The entry point `projectorrays_read` (main.cpp 106-124).  `read` stands for the body
of the `try` block up to the test of `dir->read(stream)` on a stream over the first
`inputSize` bytes of `input`: the parsed container when `read` returns true, `none` when it
returns false, a throw when anything in the block throws.  The result is the handle,
`none` for 0. -/
def projectorrays_read (read : List Nat → Call (Option DirectorFile))
    (input : Option (List Nat)) (inputSize : Nat) : Option ProjectorRaysHandle :=
  match input with
  | none => none
  | some bytes =>
    if inputSize = 0 then
      none
    else
      match read (bytes.take inputSize) with
      | .threw => none
      | .returned none => none
      | .returned (some dir) => some ⟨some dir⟩

/-- The entry point `projectorrays_chunk_exists` (main.cpp 131-145). -/
def projectorrays_chunk_exists (handle : Option ProjectorRaysHandle) (fourCC : Nat)
    (id : Int) : Int :=
  match handle with
  | none => 0
  | some ptr =>
    match ptr.dir with
    | none => 0
    | some dir =>
      match dir.chunkExists fourCC id with
      | .threw => 0
      | .returned b => if b then 1 else 0

/-- The entry point `projectorrays_is_cast` (main.cpp 147-161). -/
def projectorrays_is_cast (handle : Option ProjectorRaysHandle) : Int :=
  match handle with
  | none => 0
  | some ptr =>
    match ptr.dir with
    | none => 0
    | some dir =>
      match dir.isCast with
      | .threw => 0
      | .returned b => if b then 1 else 0

/-- The entry point `projectorrays_size` (main.cpp 163-177). -/
def projectorrays_size (handle : Option ProjectorRaysHandle) : Int :=
  match handle with
  | none => 0
  | some ptr =>
    match ptr.dir with
    | none => 0
    | some dir =>
      match dir.sizeQuery with
      | .threw => 0
      | .returned n => toInt32 n

/-- The classification of `projectorrays_get_script` (main.cpp 247-266). -/
def getScriptType (dir : DirectorFile) (member : CastMemberChunk) : List Char :=
  match member.type with
  | .kScriptMember =>
    match member.scriptType with
    | .kScoreScript =>
      if dir.version ≥ 600 then "BehaviorScript".toList else "ScoreScript".toList
    | .kMovieScript => "MovieScript".toList
    | .kParentScript => "ParentScript".toList
    | .unlisted _ => "UnknownScript".toList
  | .unlisted _ => "CastScript".toList

/-- The calls `projectorrays_get_script` makes on its `JSONWriter` for a script found in
`cast` (main.cpp 268-279); a throw of `scriptText` or `bytecodeText` leaves the function
through the outer `catch`. -/
def getScriptJson (dir : DirectorFile) (id : Int) (cast : CastChunk) (script : Script)
    (member : CastMemberChunk) : Call (List JsonOp) :=
  let scriptType := getScriptType dir member
  match script.scriptText ['\n'] dir.dotSyntax with
  | .threw => .threw
  | .returned lingo =>
    match script.bytecodeText ['\n'] dir.dotSyntax with
    | .threw => .threw
    | .returned bytecode =>
      .returned [.startObject, .writeFieldInt "scriptId" id, .writeFieldInt "memberId" member.id,
        .writeFieldStr "memberName" member.getName, .writeFieldStr "scriptType" scriptType,
        .writeFieldStr "castName" cast.name, .writeKey "lingo", .writeVal lingo,
        .writeKey "bytecode", .writeVal bytecode, .endObject]

/-- The loop over `ptr->dir->casts` of `projectorrays_get_script` (main.cpp 231-295), with
the `return`s inside it and the `return nullptr` after it. -/
def getScriptLoop (rt : Runtime) (lib : CommonLib) (dir : DirectorFile) (id : Int) :
    List CastChunk → BufferResult
  | [] => ⟨none, some 0⟩
  | cast :: rest =>
    match cast.lctx with
    | none => getScriptLoop rt lib dir id rest
    | some scripts =>
      match scripts.lookup id with
      | none => getScriptLoop rt lib dir id rest
      | some script =>
        match script.member with
        | none => getScriptLoop rt lib dir id rest
        | some member =>
          match getScriptJson dir id cast script member with
          | .threw => ⟨none, some 0⟩
          | .returned json =>
            let outputStr := standardizeJsonEscapes (lib.jsonStr json)
            if outputStr.isEmpty then
              ⟨none, some 0⟩
            else if !rt.malloc outputStr.length then
              ⟨none, some 0⟩
            else
              ⟨some (bytesOf outputStr), some outputStr.length⟩

/-- The entry point `projectorrays_get_script` (main.cpp 213-299). -/
def projectorrays_get_script (rt : Runtime) (lib : CommonLib)
    (handle : Option ProjectorRaysHandle) (id : Int) (outputSize : Option Nat) :
    BufferResult :=
  match handle, outputSize with
  | none, _ => ⟨none, outputSize⟩
  | some _, none => ⟨none, none⟩
  | some ptr, some _ =>
    match ptr.dir with
    | none => ⟨none, some 0⟩
    | some dir =>
      match dir.parseScripts with
      | .threw => ⟨none, some 0⟩
      | .returned casts => getScriptLoop rt lib dir id casts

/-- The loop over `ptr->dir->chunkInfo` of `projectorrays_implemented_dump_json`
(main.cpp 318-351): the values of `output` and `first` are threaded through; a throw
inside the inner `try` is caught and the entry skipped. -/
def dumpJsonLoop (lib : CommonLib) (dir : DirectorFile) :
    List (Int × ChunkInfo) → List Char → Bool → List Char
  | [], output, _ => output
  | entry :: rest, output, first =>
    let info := entry.2
    if info.id = 0 then dumpJsonLoop lib dir rest output first
    else
      match dir.getChunk info.fourCC info.id with
      | .threw => dumpJsonLoop lib dir rest output first
      | .returned none => dumpJsonLoop lib dir rest output first
      | .returned (some chunk) =>
        match chunk.writeJSON with
        | .threw => dumpJsonLoop lib dir rest output first
        | .returned text =>
          let chunkJson := standardizeJsonEscapes text
          if chunkJson.isEmpty then dumpJsonLoop lib dir rest output first
          else
            let output := if !first then output ++ ",".toList else output
            let output := output ++ "\x7b\"fourCC\":\"".toList
            let output := output ++ lib.escapeString (lib.fourCCToString info.fourCC)
            let output := output ++ "\",\"id\":".toList
            let output := output ++ to_string info.id
            let output := output ++ ",\"data\":".toList
            let output := output ++ chunkJson
            let output := output ++ "\x7d".toList
            dumpJsonLoop lib dir rest output false

/-- The entry point `projectorrays_implemented_dump_json` (main.cpp 301-369). -/
def projectorrays_implemented_dump_json (rt : Runtime) (lib : CommonLib)
    (handle : Option ProjectorRaysHandle) (outputSize : Option Nat) : BufferResult :=
  match handle, outputSize with
  | none, _ => ⟨none, outputSize⟩
  | some _, none => ⟨none, none⟩
  | some ptr, some _ =>
    match ptr.dir with
    | none => ⟨none, some 0⟩
    | some dir =>
      let output := dumpJsonLoop lib dir dir.chunkInfo "[".toList true
      let output := output ++ "]".toList
      let output := standardizeJsonEscapes output
      if output.isEmpty then
        ⟨none, some 0⟩
      else if !rt.malloc output.length then
        ⟨none, some 0⟩
      else
        ⟨some (bytesOf output), some output.length⟩

/-- The classification of `projectorrays_implemented_dump_scripts` (main.cpp 507-526). -/
def dumpScriptsType (dir : DirectorFile) (member : CastMemberChunk) : List Char :=
  match member.type with
  | .kScriptMember =>
    match member.scriptType with
    | .kScoreScript =>
      if dir.version ≥ 600 then "BehaviorScript".toList else "ScoreScript".toList
    | .kMovieScript => "MovieScript".toList
    | .kParentScript => "ParentScript".toList
    | .unlisted _ => "UnknownScript".toList
  | .unlisted _ => "CastScript".toList

/-- The calls `projectorrays_implemented_dump_scripts` makes on its `JSONWriter` for one
script with a member (main.cpp 528-537). -/
def dumpScriptsJson (dir : DirectorFile) (entry : Int × Script) (member : CastMemberChunk) :
    Call (List JsonOp) :=
  let script := entry.2
  let scriptType := dumpScriptsType dir member
  match script.scriptText ['\n'] dir.dotSyntax with
  | .threw => .threw
  | .returned lingo =>
    match script.bytecodeText ['\n'] dir.dotSyntax with
    | .threw => .threw
    | .returned bytecode =>
      .returned [.startObject, .writeFieldInt "scriptId" entry.1,
        .writeFieldInt "memberId" member.id, .writeFieldStr "memberName" member.getName,
        .writeFieldStr "scriptType" scriptType, .writeKey "lingo", .writeVal lingo,
        .writeKey "bytecode", .writeVal bytecode, .endObject]

/-- The loop over `cast->lctx->scripts` of `projectorrays_implemented_dump_scripts`
(main.cpp 499-538); `json` is the sequence of calls made on the writer so far. -/
def dumpScriptsEntries (dir : DirectorFile) :
    List (Int × Script) → List JsonOp → Call (List JsonOp)
  | [], json => .returned json
  | entry :: rest, json =>
    match entry.2.member with
    | none => dumpScriptsEntries dir rest json
    | some member =>
      match dumpScriptsJson dir entry member with
      | .threw => .threw
      | .returned record => dumpScriptsEntries dir rest (json ++ record)

/-- The loop over `ptr->dir->casts` of `projectorrays_implemented_dump_scripts`
(main.cpp 491-541). -/
def dumpScriptsCasts (dir : DirectorFile) : List CastChunk → List JsonOp → Call (List JsonOp)
  | [], json => .returned json
  | cast :: rest, json =>
    match cast.lctx with
    | none => dumpScriptsCasts dir rest json
    | some scripts =>
      let json := json ++ [.startObject, .writeFieldStr "name" cast.name, .writeKey "scripts",
        .startArray]
      match dumpScriptsEntries dir scripts json with
      | .threw => .threw
      | .returned json => dumpScriptsCasts dir rest (json ++ [.endArray, .endObject])

/-- The entry point `projectorrays_implemented_dump_scripts` (main.cpp 468-560). -/
def projectorrays_implemented_dump_scripts (rt : Runtime) (lib : CommonLib)
    (handle : Option ProjectorRaysHandle) (outputSize : Option Nat) : BufferResult :=
  match handle, outputSize with
  | none, _ => ⟨none, outputSize⟩
  | some _, none => ⟨none, none⟩
  | some ptr, some _ =>
    match ptr.dir with
    | none => ⟨none, some 0⟩
    | some dir =>
      match dir.parseScripts with
      | .threw => ⟨none, some 0⟩
      | .returned casts =>
        match dir.isCast with
        | .threw => ⟨none, some 0⟩
        | .returned isCast =>
          let json := [.startObject, .writeFieldInt "isCast" (if isCast then 1 else 0),
            .writeFieldInt "version" (toInt32 dir.version), .writeKey "casts", .startArray]
          match dumpScriptsCasts dir casts json with
          | .threw => ⟨none, some 0⟩
          | .returned json =>
            let json := json ++ [.endArray, .endObject]
            let outputStr := standardizeJsonEscapes (lib.jsonStr json)
            if outputStr.isEmpty then
              ⟨none, some 0⟩
            else if !rt.malloc outputStr.length then
              ⟨none, some 0⟩
            else
              ⟨some (bytesOf outputStr), some outputStr.length⟩

/-! ## Definitions used to state the claims -/

/-- Hexadecimal digit in the words of the specification: one of 0-9, a-f, A-F. -/
def HexDigit (c : Char) : Prop :=
  c ∈ "0123456789abcdefABCDEF".toList

instance (c : Char) : Decidable (HexDigit c) := by
  unfold HexDigit; infer_instance

/-- The eligible entries of a chunk directory: those whose id is not the sentinel 0, in
directory order. -/
def eligible (m : List (Int × ChunkInfo)) : List (Int × ChunkInfo) :=
  m.filter (fun e => decide (e.1 ≠ 0))

/-- One record of the compact layout in the words of the specification: tag, id as the
bit pattern of the signed value, payload length, each as four little-endian bytes, then
the payload. -/
def encodeRecord (e : Int × ChunkInfo) (payload : List Nat) : List Nat :=
  le32 e.2.fourCC ++ le32 (e.1 % 2 ^ 32).toNat ++ le32 payload.length ++ payload

/-- Modelled from the spec: the type of the chunk directory `DirectorFile::chunkInfo`,
declared in director/dirfile.h, which is not among the sources.  The specification
identifies a chunk by its signed 32-bit id, and the loops iterate pairs `(entry.first,
entry.second)` and read `entry.first` into an `int32_t`, as for a map keyed by the id:
keys are 32-bit signed values and no key occurs twice. -/
def Int32Keyed (m : List (Int × ChunkInfo)) : Prop :=
  (m.map Prod.fst).Nodup ∧ ∀ e ∈ m, -2 ^ 31 ≤ e.1 ∧ e.1 < 2 ^ 31

instance (m : List (Int × ChunkInfo)) : Decidable (Int32Keyed m) := by
  unfold Int32Keyed; infer_instance

/-- The first attempt that does not end in a `std::exception`, in the words of the
specification: buffers of sizes E, 2E and 4E, all zero, are tried in this order. -/
def firstCompleted (dir : DirectorFile) (estimate : Nat) : Option WriteOutcome :=
  ([estimate, 2 * estimate, 4 * estimate].map
    (fun capacity => dir.write (List.replicate capacity 0))).find?
      (fun o => decide (o ≠ WriteOutcome.stdException))

/-- A text on which a pass of the normalizer rewrites at the first character: it starts
with backslash v, or with backslash x and two characters accepted by `isHex`. -/
def Rewritable (t : List Char) : Prop :=
  (∃ q, t = '\\' :: 'v' :: q) ∨
  (∃ h1 h2 q, t = '\\' :: 'x' :: h1 :: h2 :: q ∧ isHex h1 = true ∧ isHex h2 = true)

/-- The zeroed buffer of attempt `k` of `writeDirectorToBuffer`: `output.assign(bufferSize, 0)`
with `bufferSize = estimatedSize << k` computed in `size_t`. -/
def attemptBuffer (rt : Runtime) (dir : DirectorFile) (k : Nat) : List Nat :=
  List.replicate ((dir.size <<< k) % 2 ^ rt.sizeBits) 0

/-- Whether rendering an entry faults: the chunk lookup throws, or `writeJSON` of the
chunk found throws. -/
def renderFaults (dir : DirectorFile) (e : Int × ChunkInfo) : Bool :=
  match dir.getChunk e.2.fourCC e.2.id with
  | .threw => true
  | .returned none => false
  | .returned (some chunk) =>
    match chunk.writeJSON with
    | .threw => true
    | .returned _ => false

/-- The text the export loop appends to `output` for a directory entry, before the final
normalizer pass: an object with the tag, the id and the normalized rendering of the chunk;
`none` for an entry that is skipped (id 0, rendering fault, null chunk or empty
rendering). -/
def structuredRecord (lib : CommonLib) (dir : DirectorFile) (e : Int × ChunkInfo) :
    Option (List Char) :=
  if e.2.id = 0 then none
  else
    match dir.getChunk e.2.fourCC e.2.id with
    | .returned (some chunk) =>
      match chunk.writeJSON with
      | .returned text =>
        if standardizeJsonEscapes text = [] then none
        else
          some ("\x7b\"fourCC\":\"".toList ++ lib.escapeString (lib.fourCCToString e.2.fourCC)
            ++ "\",\"id\":".toList ++ to_string e.2.id ++ ",\"data\":".toList
            ++ standardizeJsonEscapes text ++ "\x7d".toList)
      | .threw => none
    | _ => none

/-- The directory without the eligible entries whose rendering faults. -/
def withoutFaulting (dir : DirectorFile) : DirectorFile :=
  { dir with
    chunkInfo := dir.chunkInfo.filter (fun e => !(decide (e.2.id ≠ 0) && renderFaults dir e)) }

/-- The value of `output` after the final normalizer pass, given the texts appended by the
loop: the opening bracket, the texts separated by commas, the closing bracket, normalized
as a whole. -/
def structuredEnvelope (records : List (List Char)) : List Char :=
  standardizeJsonEscapes ("[".toList ++ List.intercalate ",".toList records ++ "]".toList)

/-- A character at which the scan of the normalizer always resumes: it is not a backslash
and cannot be part of a recognized escape (not v, not x, not a hex digit). -/
def Barrier (c : Char) : Prop :=
  c ≠ '\\' ∧ c ≠ 'v' ∧ c ≠ 'x' ∧ isHex c = false

instance (c : Char) : Decidable (Barrier c) := by
  unfold Barrier; infer_instance

/-- The record of a directory entry as it stands in the output of the structured export:
an object with the tag, the id and the normalized rendering of the chunk, each passed
through the normalizer; `none` for an entry that is not exported (id 0, rendering fault,
null chunk or empty rendering). -/
def exportedRecord (lib : CommonLib) (dir : DirectorFile) (e : Int × ChunkInfo) :
    Option (List Char) :=
  if e.2.id = 0 then none
  else
    match dir.getChunk e.2.fourCC e.2.id with
    | .returned (some chunk) =>
      match chunk.writeJSON with
      | .returned text =>
        if standardizeJsonEscapes text = [] then none
        else
          some ("\x7b\"fourCC\":\"".toList
            ++ standardizeJsonEscapes (lib.escapeString (lib.fourCCToString e.2.fourCC))
            ++ "\",\"id\":".toList ++ standardizeJsonEscapes (to_string e.2.id)
            ++ ",\"data\":".toList ++ standardizeJsonEscapes text ++ "\x7d".toList)
      | .threw => none
    | _ => none

/-- The member kinds of the classification table of the specification. -/
inductive MemberKind where
  | scoreBehavior
  | movie
  | parent
  | otherScript
  | nonScript
  deriving DecidableEq, Repr

/-- The row of the classification table a member falls in. -/
def kindOf (member : CastMemberChunk) : MemberKind :=
  if member.type = MemberType.kScriptMember then
    if member.scriptType = ScriptType.kScoreScript then MemberKind.scoreBehavior
    else if member.scriptType = ScriptType.kMovieScript then MemberKind.movie
    else if member.scriptType = ScriptType.kParentScript then MemberKind.parent
    else MemberKind.otherScript
  else MemberKind.nonScript

/-- The classification table of the specification. -/
def classification : MemberKind → Nat → String
  | .scoreBehavior, version => if 600 ≤ version then "BehaviorScript" else "ScoreScript"
  | .movie, _ => "MovieScript"
  | .parent, _ => "ParentScript"
  | .otherScript, _ => "UnknownScript"
  | .nonScript, _ => "CastScript"

/-- Whether the script table of a cast contains the id. -/
def tableContains (cast : CastChunk) (id : Int) : Bool :=
  match cast.lctx with
  | none => false
  | some scripts => (scripts.lookup id).isSome

/-- Whether the script table of a cast contains the id with a script that has an owning
member. -/
def ownsScript (cast : CastChunk) (id : Int) : Bool :=
  match cast.lctx with
  | none => false
  | some scripts =>
    match scripts.lookup id with
    | none => false
    | some script => script.member.isSome

/-- The single-script record of the specification: script id, owning member id and display
name, classification, owning cast name, and the two decompiled texts. -/
def scriptRecord (id : Int) (member : CastMemberChunk) (version : Nat) (castName : List Char)
    (lingo bytecode : List Char) : List JsonOp :=
  [.startObject, .writeFieldInt "scriptId" id, .writeFieldInt "memberId" member.id,
    .writeFieldStr "memberName" member.getName,
    .writeFieldStr "scriptType" (classification (kindOf member) version).toList,
    .writeFieldStr "castName" castName, .writeKey "lingo", .writeVal lingo,
    .writeKey "bytecode", .writeVal bytecode, .endObject]

/-- The rest of the format behind a positional directive, when the text after the percent
sign is one or more digits followed by a percent sign. -/
def positionalRest (rest : List Char) : Option (List Char) :=
  if rest.takeWhile isDigitChar ≠ [] ∧ (rest.dropWhile isDigitChar).head? = some '%' then
    some (rest.dropWhile isDigitChar).tail
  else none

/-- The rest of the format behind a printf-style directive: what follows the first letter
after the percent sign, and nothing when no letter follows. -/
def printfRest (rest : List Char) : List Char :=
  (rest.dropWhile (fun c => !isLetterChar c)).tail

/-- The substitution described for `str`, reading the format from left to right with the
arguments not yet used; `fuel` bounds the number of steps. -/
def substitute : Nat → List Char → List (List Char) → List Char
  | 0, _, _ => []
  | _ + 1, [], _ => []
  | fuel + 1, c :: rest, args =>
    if c ≠ '%' then c :: substitute fuel rest args
    else if rest.head? = some '%' then '%' :: substitute fuel rest.tail args
    else
      match positionalRest rest with
      | some rest1 => args.headD [] ++ substitute fuel rest1 args.tail
      | none => args.headD [] ++ substitute fuel (printfRest rest) args.tail

/-- The result `str` is described to have for a format and its arguments. -/
def substituted (fmt : List Char) (args : List (List Char)) : List Char :=
  substitute fmt.length fmt args

/-! ## Sample data used to instantiate the theorems -/

/-- A runtime with a 32-bit `size_t` in which `std::malloc` always succeeds and a vector
obtains storage for every size below 2^31. -/
def sampleRuntime : Runtime := ⟨32, fun _ => true, fun n => decide (n < 2 ^ 31)⟩

/-- A member that is a score script, with id 7 and the name `go`. -/
def sampleMember : CastMemberChunk :=
  ⟨.kScriptMember, .kScoreScript, 7, "go".toList⟩

/-- A script owned by `sampleMember` whose two texts decompile. -/
def sampleScript : Script where
  member := some sampleMember
  scriptText := fun _ _ => .returned "on go".toList
  bytecodeText := fun _ _ => .returned "ret".toList

/-- A script without an owning member. -/
def orphanScript : Script where
  member := none
  scriptText := fun _ _ => .returned "on x".toList
  bytecodeText := fun _ _ => .returned "ret".toList

/-- A script owned by `sampleMember` whose source text fails to decompile. -/
def faultyScript : Script where
  member := some sampleMember
  scriptText := fun _ _ => .threw
  bytecodeText := fun _ _ => .returned "ret".toList

/-- Three casts in container order: `A` holds script 5 without an owning member, `B` has
no script table, `C` holds script 5 owned by `sampleMember`. -/
def sampleCasts : List CastChunk :=
  [⟨"A".toList, some [(5, orphanScript)]⟩, ⟨"B".toList, none⟩,
    ⟨"C".toList, some [(5, sampleScript)]⟩]

/-- A compact JSON writer standing in for `Common::JSONWriter`; `comma` tells whether a
separator is due before the next item. -/
def sampleJsonStr : List JsonOp → Bool → List Char
  | [], _ => []
  | .startObject :: rest, comma =>
    (if comma then [','] else []) ++ '{' :: sampleJsonStr rest false
  | .endObject :: rest, _ => '}' :: sampleJsonStr rest true
  | .startArray :: rest, comma =>
    (if comma then [','] else []) ++ '[' :: sampleJsonStr rest false
  | .endArray :: rest, _ => ']' :: sampleJsonStr rest true
  | .writeKey key :: rest, comma =>
    (if comma then [','] else []) ++ '"' :: key.toList ++ '"' :: ':' :: sampleJsonStr rest false
  | .writeVal value :: rest, comma =>
    (if comma then [','] else []) ++ '"' :: value ++ '"' :: sampleJsonStr rest true
  | .writeFieldInt key value :: rest, comma =>
    (if comma then [','] else []) ++ '"' :: key.toList ++ '"' :: ':' :: to_string value
      ++ sampleJsonStr rest true
  | .writeFieldStr key value :: rest, comma =>
    (if comma then [','] else []) ++ '"' :: key.toList ++ '"' :: ':' :: '"' :: value
      ++ '"' :: sampleJsonStr rest true

/-- Sample helpers: the tag as its four characters, most significant byte first, no
escaping, and the compact writer. -/
def sampleLib : CommonLib where
  fourCCToString := fun t =>
    [Char.ofNat (t / 16777216 % 256), Char.ofNat (t / 65536 % 256), Char.ofNat (t / 256 % 256),
      Char.ofNat (t % 256)]
  escapeString := fun s => s
  jsonStr := fun ops => sampleJsonStr ops false

/-- A container with two eligible chunks; the payload of chunk 1 is 7 8 9 and the payload
lookup of chunk 2 throws. -/
def oneBadChunkDir : DirectorFile where
  chunkInfo := [(1, ⟨0x696d6170, 1⟩), (2, ⟨0x6d6d6170, 2⟩)]
  getChunkData := fun _ id => if id = 1 then .returned [7, 8, 9] else .threw
  size := 0
  write := fun _ => .stdException
  writeToBuffer := .threw
  getChunk := fun _ _ => .threw
  chunkExists := fun _ id => .returned (decide (id = 1))
  isCast := .returned false
  sizeQuery := .returned 0
  version := 600
  dotSyntax := true
  parseScripts := .returned []

/-- A container with one cast holding two scripts; script 5 decompiles and the source text
of script 6 fails to decompile. -/
def oneBadScriptDir : DirectorFile where
  chunkInfo := []
  getChunkData := fun _ _ => .threw
  size := 0
  write := fun _ => .stdException
  writeToBuffer := .threw
  getChunk := fun _ _ => .threw
  chunkExists := fun _ _ => .returned false
  isCast := .returned false
  sizeQuery := .returned 0
  version := 600
  dotSyntax := true
  parseScripts := .returned [⟨"C".toList, some [(5, sampleScript), (6, faultyScript)]⟩]

/-- A container with a directory of three entries (ids -2, 0 and 1) in key order; chunk 1
has the payload 7 8 9, chunk -2 is present with an empty payload, every other lookup
throws.  The estimate is 4 bytes and the serialized form has 6 bytes. -/
def sampleDir : DirectorFile where
  chunkInfo := [(-2, ⟨0x43415374, -2⟩), (0, ⟨0x52494658, 0⟩), (1, ⟨0x696d6170, 1⟩)]
  getChunkData := fun _ id =>
    if id = 1 then .returned [7, 8, 9] else if id = -2 then .returned [] else .threw
  size := 4
  write := fun buffer =>
    if 6 ≤ buffer.length then .wrote 6 ([1, 2, 3, 4, 5, 6] ++ buffer.drop 6) else .stdException
  writeToBuffer := .returned [1, 2, 3, 4, 5, 6]
  getChunk := fun _ id =>
    if id = 1 then .returned (some ⟨.returned "\x7b\"n\":\"a\\vb\"\x7d".toList⟩)
    else if id = -2 then .returned (some ⟨.threw⟩) else .threw
  chunkExists := fun _ id => .returned (decide (id = 1 ∨ id = -2))
  isCast := .returned false
  sizeQuery := .returned 4
  version := 600
  dotSyntax := true
  parseScripts := .returned sampleCasts

/-- A container whose directory holds only the id-0 sentinel. -/
def sentinelOnlyDir : DirectorFile where
  chunkInfo := [(0, ⟨0x52494658, 0⟩)]
  getChunkData := fun _ _ => .threw
  size := 0
  write := fun _ => .stdException
  writeToBuffer := .threw
  getChunk := fun _ _ => .threw
  chunkExists := fun _ _ => .threw
  isCast := .threw
  sizeQuery := .threw
  version := 0
  dotSyntax := false
  parseScripts := .returned []

/-- The payloads of `sampleDir` as a function of the directory entry. -/
def samplePayload (e : Int × ChunkInfo) : List Nat :=
  if e.1 = 1 then [7, 8, 9] else []

/-- A container with estimate 1 whose serialized form has 5 bytes: writing succeeds
exactly into buffers of at least 5 bytes. -/
def underestimatedDir : DirectorFile where
  chunkInfo := []
  getChunkData := fun _ _ => .threw
  size := 1
  write := fun buffer =>
    if 5 ≤ buffer.length then .wrote 5 ([1, 2, 3, 4, 5] ++ buffer.drop 5) else .stdException
  writeToBuffer := .threw
  getChunk := fun _ _ => .threw
  chunkExists := fun _ _ => .threw
  isCast := .threw
  sizeQuery := .threw
  version := 0
  dotSyntax := false
  parseScripts := .returned []

/-- A container with estimate 4 whose serialization completes without a fault and leaves
the stream position at 0. -/
def zeroWriteDir : DirectorFile where
  chunkInfo := []
  getChunkData := fun _ _ => .threw
  size := 4
  write := fun buffer => .wrote 0 buffer
  writeToBuffer := .threw
  getChunk := fun _ _ => .threw
  chunkExists := fun _ _ => .threw
  isCast := .threw
  sizeQuery := .threw
  version := 0
  dotSyntax := false
  parseScripts := .returned []

/-- A container with estimate 2 whose serialization completes and leaves the stream
position at 4 whatever the size of the buffer it was given. -/
def overshootDir : DirectorFile where
  chunkInfo := []
  getChunkData := fun _ _ => .threw
  size := 2
  write := fun buffer => .wrote 4 ([5, 6] ++ buffer.drop 2)
  writeToBuffer := .threw
  getChunk := fun _ _ => .threw
  chunkExists := fun _ _ => .threw
  isCast := .threw
  sizeQuery := .threw
  version := 0
  dotSyntax := false
  parseScripts := .returned []

/-- A runtime with a 32-bit `size_t` in which a vector obtains storage for at most 4
bytes. -/
def smallHeapRuntime : Runtime := ⟨32, fun _ => true, fun n => decide (n ≤ 4)⟩

/-! ## Compact binary export: lemmas -/

theorem appendUint32_eq_le32 (v : Nat) : appendUint32 v = le32 v := by
  have h : ∀ x : Nat, x &&& 0xff = x % 256 := fun x => Nat.and_pow_two_sub_one_eq_mod x 8
  simp only [appendUint32, le32, h, Nat.shiftRight_eq_div_pow]

theorem le32_mod (v : Nat) : le32 (v % 2 ^ 32) = le32 v := by
  simp only [le32]
  have e : v % 2 ^ 32 = v % 4294967296 := by norm_num
  rw [e]
  congr 1
  · omega
  congr 1
  · omega
  congr 1
  · omega
  congr 1
  omega

theorem le32_length (v : Nat) : (le32 v).length = 4 := rfl

theorem or_bytes (a b c d : Nat) (ha : a < 256) (hb : b < 256) (hc : c < 256) :
    (a ||| (b <<< 8) ||| (c <<< 16) ||| (d <<< 24))
      = a + b * 256 + c * 65536 + d * 16777216 := by
  have e1 : a ||| (b <<< 8) = 2 ^ 8 * b + a := by
    rw [Nat.shiftLeft_eq, Nat.or_comm, Nat.mul_comm, ← Nat.mul_add_lt_is_or (by omega)]
  have e2 : (2 ^ 8 * b + a) ||| (c <<< 16) = 2 ^ 16 * c + (2 ^ 8 * b + a) := by
    rw [Nat.shiftLeft_eq, Nat.or_comm, Nat.mul_comm, ← Nat.mul_add_lt_is_or (by omega)]
  have e3 : (2 ^ 16 * c + (2 ^ 8 * b + a)) ||| (d <<< 24)
      = 2 ^ 24 * d + (2 ^ 16 * c + (2 ^ 8 * b + a)) := by
    rw [Nat.shiftLeft_eq, Nat.or_comm, Nat.mul_comm, ← Nat.mul_add_lt_is_or (by omega)]
  rw [e1, e2, e3]
  omega

theorem load_little_u32_le32 (n : Nat) (h : n < 2 ^ 32) : load_little_u32 (le32 n) = n := by
  simp only [load_little_u32, le32, List.getD_cons_zero, List.getD_cons_succ]
  rw [or_bytes _ _ _ _ (Nat.mod_lt _ (by norm_num)) (Nat.mod_lt _ (by norm_num))
    (Nat.mod_lt _ (by norm_num))]
  omega

theorem take_four_le32_append (n : Nat) (l : List Nat) : (le32 n ++ l).take 4 = le32 n := by
  simp [le32]

theorem eligible_cons (e : Int × ChunkInfo) (m : List (Int × ChunkInfo)) :
    eligible (e :: m) = if e.1 = 0 then eligible m else e :: eligible m := by
  by_cases h : e.1 = 0 <;> simp [eligible, List.filter_cons, h]

theorem countLoop_eq (m : List (Int × ChunkInfo)) (c : Nat) :
    countLoop m c % 2 ^ 32 = (c + (eligible m).length) % 2 ^ 32 := by
  induction m generalizing c with
  | nil => simp [countLoop, eligible]
  | cons e m ih =>
    rw [countLoop, eligible_cons]
    by_cases h : e.1 = 0
    · simp only [h, if_true]; exact ih c
    · simp only [h, if_false]
      rw [ih, List.length_cons]
      omega

theorem countLoop_lt (m : List (Int × ChunkInfo)) (c : Nat) (hc : c < 2 ^ 32) :
    countLoop m c < 2 ^ 32 := by
  induction m generalizing c with
  | nil => simpa [countLoop] using hc
  | cons e m ih =>
    rw [countLoop]
    by_cases h : e.1 = 0
    · simp only [h, if_true]; exact ih c hc
    · simp only [h, if_false]; exact ih _ (Nat.mod_lt _ (by norm_num))

theorem countLoop_zero (m : List (Int × ChunkInfo)) (h : (eligible m).length < 2 ^ 32) :
    countLoop m 0 = (eligible m).length := by
  have h1 := countLoop_eq m 0
  have h2 := countLoop_lt m 0 (by norm_num)
  rw [Nat.mod_eq_of_lt h2, Nat.zero_add, Nat.mod_eq_of_lt h] at h1
  exact h1

/-- A map keyed by 32-bit signed ids has fewer than 2^32 entries with a non-zero id. -/
theorem eligible_length_lt (m : List (Int × ChunkInfo)) (hm : Int32Keyed m) :
    (eligible m).length < 2 ^ 32 := by
  obtain ⟨hnd, hrange⟩ := hm
  have hsub : ((eligible m).map Prod.fst).Sublist (m.map Prod.fst) :=
    List.Sublist.map _ (List.filter_sublist m)
  have hnd2 : ((eligible m).map Prod.fst).Nodup := List.Nodup.sublist hsub hnd
  have hcard := List.toFinset_card_of_nodup hnd2
  have hss : ((eligible m).map Prod.fst).toFinset
      ⊆ (Finset.Ico (-2 ^ 31 : Int) (2 ^ 31)).erase 0 := by
    intro k hk
    rw [List.mem_toFinset, List.mem_map] at hk
    obtain ⟨e, he, rfl⟩ := hk
    have hmem : e ∈ m ∧ decide (e.1 ≠ 0) = true := by
      simpa [eligible, List.mem_filter] using he
    have hr := hrange e hmem.1
    rw [Finset.mem_erase, Finset.mem_Ico]
    exact ⟨by simpa using hmem.2, hr⟩
  have hle := Finset.card_le_card hss
  have h0 : (0 : Int) ∈ Finset.Ico (-2 ^ 31 : Int) (2 ^ 31) := by
    rw [Finset.mem_Ico]; norm_num
  rw [Finset.card_erase_of_mem h0, Int.card_Ico, hcard, List.length_map] at hle
  have e : ((2 : Int) ^ 31 - -2 ^ 31).toNat = 4294967296 := by
    norm_num
    rfl
  rw [e] at hle
  have : (2 : Nat) ^ 32 = 4294967296 := by norm_num
  omega

theorem dumpLoop_returned (dir : DirectorFile) (m : List (Int × ChunkInfo))
    (out out2 : List Nat) (h : dumpLoop dir m out = .returned out2) :
    ∃ payloads : List (List Nat), payloads.length = (eligible m).length ∧
      out2 = out ++ (List.zipWith encodeRecord (eligible m) payloads).flatten := by
  induction m generalizing out with
  | nil =>
    simp only [dumpLoop, Call.returned.injEq] at h
    exact ⟨[], by simp [eligible, h]⟩
  | cons e m ih =>
    rw [dumpLoop] at h
    rw [eligible_cons]
    by_cases h0 : e.1 = 0
    · simp only [h0, if_true] at h ⊢
      exact ih out h
    · simp only [h0, if_false] at h ⊢
      cases hg : dir.getChunkData e.2.fourCC e.1 with
      | threw => simp [hg] at h
      | returned view =>
        simp only [hg] at h
        obtain ⟨ps, hlen, hout⟩ := ih _ h
        refine ⟨view :: ps, by simp [hlen], ?_⟩
        rw [hout]
        simp only [appendUint32_eq_le32, le32_mod, List.zipWith_cons_cons, List.flatten_cons,
          encodeRecord]
        by_cases hv : view.length > 0
        · simp [hv, List.append_assoc]
        · have : view = [] := List.length_eq_zero.1 (by omega)
          subst this
          simp [List.append_assoc]

theorem dumpLoop_all_fetched (dir : DirectorFile) (payload : Int × ChunkInfo → List Nat)
    (m : List (Int × ChunkInfo)) (out : List Nat)
    (hfetch : ∀ e ∈ m, e.1 ≠ 0 → dir.getChunkData e.2.fourCC e.1 = .returned (payload e)) :
    dumpLoop dir m out
      = .returned (out ++ ((eligible m).map (fun e => encodeRecord e (payload e))).flatten) := by
  induction m generalizing out with
  | nil => simp [dumpLoop, eligible]
  | cons e m ih =>
    have hm : ∀ e2 ∈ m, e2.1 ≠ 0 → dir.getChunkData e2.2.fourCC e2.1 = .returned (payload e2) :=
      fun e2 he2 => hfetch e2 (List.mem_cons_of_mem _ he2)
    rw [dumpLoop, eligible_cons]
    by_cases h0 : e.1 = 0
    · simp only [h0, if_true]
      exact ih out hm
    · simp only [h0, if_false]
      rw [hfetch e (List.mem_cons_self _ _) h0]
      simp only
      rw [ih _ hm]
      simp only [appendUint32_eq_le32, le32_mod, List.map_cons, List.flatten_cons, encodeRecord]
      by_cases hv : (payload e).length > 0
      · simp [hv, List.append_assoc]
      · have : payload e = [] := List.length_eq_zero.1 (by omega)
        simp [this, List.append_assoc]

theorem flatten_records_length (payload : Int × ChunkInfo → List Nat)
    (m : List (Int × ChunkInfo)) :
    ((m.map (fun e => encodeRecord e (payload e))).flatten).length
      = (m.map (fun e => 12 + (payload e).length)).sum := by
  induction m with
  | nil => rfl
  | cons e m ih =>
    simp only [List.map_cons, List.flatten_cons, List.length_append, List.sum_cons]
    rw [ih]
    simp only [encodeRecord, List.length_append, le32_length]

/-! ## Compact binary export: claims -/

/-- C1: for every chunk directory, whenever compactDump returns a buffer its first four
bytes decode little-endian to the number n of directory entries with id other than 0, and
the rest of the buffer is exactly n records, one per such entry; with n = 0 (empty
directory or only the id-0 sentinel) the result is the non-null four-byte buffer
00 00 00 00 with reported length 4. -/
theorem C1_header_count_equals_records (rt : Runtime) (dir : DirectorFile) (prior : Nat)
    (hmap : Int32Keyed dir.chunkInfo) :
    (∀ buf,
      (projectorrays_implemented_dump_chunks rt (some ⟨some dir⟩) (some prior)).ret = some buf →
      load_little_u32 (buf.take 4) = (eligible dir.chunkInfo).length ∧
      ∃ payloads : List (List Nat), payloads.length = (eligible dir.chunkInfo).length ∧
        buf = le32 (eligible dir.chunkInfo).length
          ++ (List.zipWith encodeRecord (eligible dir.chunkInfo) payloads).flatten) ∧
    ((eligible dir.chunkInfo).length = 0 → rt.malloc 4 = true →
      projectorrays_implemented_dump_chunks rt (some ⟨some dir⟩) (some prior)
        = ⟨some [0, 0, 0, 0], some 4⟩) := by
  have hlt := eligible_length_lt _ hmap
  have hcount := countLoop_zero _ hlt
  constructor
  · intro buf hbuf
    simp only [projectorrays_implemented_dump_chunks, hcount, appendUint32_eq_le32] at hbuf
    cases hd : dumpLoop dir dir.chunkInfo (le32 (eligible dir.chunkInfo).length) with
    | threw => simp [hd] at hbuf
    | returned out =>
      obtain ⟨ps, hlen, hout⟩ := dumpLoop_returned dir _ _ _ hd
      simp only [hd] at hbuf
      split at hbuf
      · simp at hbuf
      · split at hbuf
        · simp at hbuf
        · simp only [Option.some.injEq] at hbuf
          subst hbuf
          refine ⟨?_, ps, hlen, hout⟩
          rw [hout, take_four_le32_append, load_little_u32_le32 _ hlt]
  · intro hzero hmalloc
    have hnil : eligible dir.chunkInfo = [] := List.length_eq_zero.1 hzero
    have hd := dumpLoop_all_fetched dir (fun _ => []) dir.chunkInfo
      (le32 (eligible dir.chunkInfo).length) (by
        intro e he h0
        have : e ∈ eligible dir.chunkInfo := by
          simp [eligible, List.mem_filter, he, h0]
        rw [hnil] at this
        exact absurd this (List.not_mem_nil _))
    simp only [projectorrays_implemented_dump_chunks, hcount, appendUint32_eq_le32, hd]
    simp [hnil, le32, hmalloc]

/-- Witness for C1: the directory holding only the id-0 sentinel gives the four zero
bytes, and in the three-entry sample directory the returned header decodes to 2. -/
theorem C1_header_count_equals_records_witness :
    Int32Keyed sentinelOnlyDir.chunkInfo ∧
    projectorrays_implemented_dump_chunks sampleRuntime (some ⟨some sentinelOnlyDir⟩) (some 77)
      = ⟨some [0, 0, 0, 0], some 4⟩ ∧
    load_little_u32 (List.take 4
      [2, 0, 0, 0, 116, 83, 65, 67, 254, 255, 255, 255, 0, 0, 0, 0,
        112, 97, 109, 105, 1, 0, 0, 0, 3, 0, 0, 0, 7, 8, 9]) = 2 :=
  ⟨by decide,
    (C1_header_count_equals_records sampleRuntime sentinelOnlyDir 77 (by decide)).2 rfl rfl,
    ((C1_header_count_equals_records sampleRuntime sampleDir 77 (by decide)).1 _ rfl).1⟩

/-- C2: on a container where every payload fetch succeeds, compactDump returns exactly
LE32(n) followed, for each entry with id other than 0 in directory order, by LE32(tag),
LE32(id mod 2^32), LE32(payload length) and the payload, with nothing in between; the
reported length is 4 plus the sum of 12 + L over the records; for a single chunk with
payload length L the length is 4 + (4+4+4+L) and the header decodes to 1. -/
theorem C2_compact_layout_exact (rt : Runtime) (dir : DirectorFile) (prior : Nat)
    (payload : Int × ChunkInfo → List Nat)
    (hmap : Int32Keyed dir.chunkInfo) (hmem : ∀ n, rt.malloc n = true)
    (hfetch : ∀ e ∈ dir.chunkInfo, e.1 ≠ 0 →
      dir.getChunkData e.2.fourCC e.1 = .returned (payload e)) :
    projectorrays_implemented_dump_chunks rt (some ⟨some dir⟩) (some prior)
      = ⟨some (le32 (eligible dir.chunkInfo).length
            ++ ((eligible dir.chunkInfo).map (fun e => encodeRecord e (payload e))).flatten),
          some (4 + ((eligible dir.chunkInfo).map (fun e => 12 + (payload e).length)).sum)⟩ ∧
    (∀ e, dir.chunkInfo = [e] → e.1 ≠ 0 →
      ∃ buf, (projectorrays_implemented_dump_chunks rt (some ⟨some dir⟩) (some prior)).ret
          = some buf ∧
        (projectorrays_implemented_dump_chunks rt (some ⟨some dir⟩) (some prior)).outputSize
          = some (4 + (4 + 4 + 4 + (payload e).length)) ∧
        buf.length = 4 + (4 + 4 + 4 + (payload e).length) ∧
        load_little_u32 (buf.take 4) = 1) := by
  have hlt := eligible_length_lt _ hmap
  have hcount := countLoop_zero _ hlt
  have hd := dumpLoop_all_fetched dir payload dir.chunkInfo
    (le32 (eligible dir.chunkInfo).length) hfetch
  have hmain : projectorrays_implemented_dump_chunks rt (some ⟨some dir⟩) (some prior)
      = ⟨some (le32 (eligible dir.chunkInfo).length
            ++ ((eligible dir.chunkInfo).map (fun e => encodeRecord e (payload e))).flatten),
          some (4 + ((eligible dir.chunkInfo).map (fun e => 12 + (payload e).length)).sum)⟩ := by
    simp only [projectorrays_implemented_dump_chunks, hcount, appendUint32_eq_le32, hd]
    have hne : (le32 (eligible dir.chunkInfo).length
        ++ ((eligible dir.chunkInfo).map (fun e => encodeRecord e (payload e))).flatten).isEmpty
          = false := by
      simp [le32]
    simp only [hne, hmem, List.length_append, le32_length, flatten_records_length]
    simp
  refine ⟨hmain, ?_⟩
  intro e hsingle he
  have hel : eligible dir.chunkInfo = [e] := by
    rw [hsingle, eligible_cons]
    simp [he, eligible]
  rw [hmain, hel]
  refine ⟨_, rfl, by simp, ?_, ?_⟩
  · simp [encodeRecord, le32_length]
    omega
  · rw [take_four_le32_append]
    exact load_little_u32_le32 1 (by norm_num)

/-- Witness for C2: the three-entry sample directory; its two eligible chunks are
emitted in directory order after the header 02 00 00 00. -/
theorem C2_compact_layout_exact_witness :
    projectorrays_implemented_dump_chunks sampleRuntime (some ⟨some sampleDir⟩) (some 77)
      = ⟨some [2, 0, 0, 0, 116, 83, 65, 67, 254, 255, 255, 255, 0, 0, 0, 0,
          112, 97, 109, 105, 1, 0, 0, 0, 3, 0, 0, 0, 7, 8, 9], some 31⟩ :=
  (C2_compact_layout_exact sampleRuntime sampleDir 77 samplePayload (by decide)
    (fun _ => rfl) (by decide)).1

/-! ## Escape normalizer: lemmas -/

theorem char_eq_of_toNat_eq {c d : Char} (h : c.toNat = d.toNat) : c = d := by
  apply Char.ext
  apply UInt32.ext
  simpa [Char.toNat, UInt32.toNat] using h

theorem isHex_iff_hexDigit (c : Char) : isHex c = true ↔ HexDigit c := by
  constructor
  · intro h
    have hc : (48 ≤ c.toNat ∧ c.toNat ≤ 57) ∨ (97 ≤ c.toNat ∧ c.toNat ≤ 102) ∨
        (65 ≤ c.toNat ∧ c.toNat ≤ 70) := by
      simp only [isHex, Bool.or_eq_true, Bool.and_eq_true, decide_eq_true_eq] at h
      simp only [Char.le_def, Char.lt_def, UInt32.le_def, Fin.le_def] at h
      rcases h with (h | h) | h
      · left; exact h
      · right; left; exact h
      · right; right; exact h
    generalize hn : c.toNat = n at hc
    have key : ∀ d : Char, d.toNat = n → c = d := fun d hd => char_eq_of_toNat_eq (hn.trans hd.symm)
    rcases hc with ⟨h1, h2⟩ | ⟨h1, h2⟩ | ⟨h1, h2⟩ <;> interval_cases n
    all_goals first
      | (rw [key '0' rfl]; decide) | (rw [key '1' rfl]; decide) | (rw [key '2' rfl]; decide)
      | (rw [key '3' rfl]; decide) | (rw [key '4' rfl]; decide) | (rw [key '5' rfl]; decide)
      | (rw [key '6' rfl]; decide) | (rw [key '7' rfl]; decide) | (rw [key '8' rfl]; decide)
      | (rw [key '9' rfl]; decide) | (rw [key 'a' rfl]; decide) | (rw [key 'b' rfl]; decide)
      | (rw [key 'c' rfl]; decide) | (rw [key 'd' rfl]; decide) | (rw [key 'e' rfl]; decide)
      | (rw [key 'f' rfl]; decide) | (rw [key 'A' rfl]; decide) | (rw [key 'B' rfl]; decide)
      | (rw [key 'C' rfl]; decide) | (rw [key 'D' rfl]; decide) | (rw [key 'E' rfl]; decide)
      | (rw [key 'F' rfl]; decide)
  · intro h
    unfold HexDigit at h
    simp only [String.toList, List.mem_cons, List.mem_singleton, List.not_mem_nil,
      or_false] at h
    rcases h with h | h | h | h | h | h | h | h | h | h | h | h | h | h | h | h | h | h | h | h | h | h <;>
      subst h <;> decide

theorem escapeLoop_skip (k : Nat) (l : List Char) :
    escapeLoop l k = escapeLoop (l.drop k) 0 := by
  induction k generalizing l with
  | zero => rfl
  | succ k ih =>
    cases l with
    | nil => rfl
    | cons c l => rw [escapeLoop, ih]; rfl

theorem escapes_cons_plain (c : Char) (l : List Char) (h : c ≠ '\\') :
    standardizeJsonEscapes (c :: l) = c :: standardizeJsonEscapes l := by
  simp [standardizeJsonEscapes, escapeLoop, escapeStep, h]

theorem escapes_plain_append (p s : List Char) (hp : '\\' ∉ p) :
    standardizeJsonEscapes (p ++ s) = p ++ standardizeJsonEscapes s := by
  induction p with
  | nil => rfl
  | cons c p ih =>
    have hc : c ≠ '\\' := fun h => hp (by simp [h])
    have hp2 : '\\' ∉ p := fun h => hp (by simp [h])
    rw [List.cons_append, escapes_cons_plain _ _ hc, ih hp2, List.cons_append]

theorem escapes_plain (t : List Char) (ht : '\\' ∉ t) : standardizeJsonEscapes t = t := by
  have h := escapes_plain_append t [] ht
  simpa [standardizeJsonEscapes, escapeLoop] using h

theorem escapes_vtab (q : List Char) :
    standardizeJsonEscapes ('\\' :: 'v' :: q)
      = ['\\', 'u', '0', '0', '0', 'b'] ++ standardizeJsonEscapes q := by
  simp [standardizeJsonEscapes, escapeLoop, escapeStep, escapeLoop_skip]

theorem escapes_hex (h1 h2 : Char) (q : List Char) (hh1 : isHex h1 = true)
    (hh2 : isHex h2 = true) :
    standardizeJsonEscapes ('\\' :: 'x' :: h1 :: h2 :: q)
      = ['\\', 'u', '0', '0', h1, h2] ++ standardizeJsonEscapes q := by
  simp [standardizeJsonEscapes, escapeLoop, escapeStep, escapeLoop_skip, hh1, hh2]

theorem escapes_x_short (t : List Char) (ht : t.length < 2) :
    standardizeJsonEscapes ('\\' :: 'x' :: t) = '\\' :: standardizeJsonEscapes ('x' :: t) := by
  match t, ht with
  | [], _ => simp [standardizeJsonEscapes, escapeLoop, escapeStep]
  | [a], _ => simp [standardizeJsonEscapes, escapeLoop, escapeStep]

theorem escapes_x_nonhex (a b : Char) (r : List Char) (h : ¬ (isHex a = true ∧ isHex b = true)) :
    standardizeJsonEscapes ('\\' :: 'x' :: a :: b :: r)
      = '\\' :: standardizeJsonEscapes ('x' :: a :: b :: r) := by
  have h2 : (isHex a && isHex b) = false := by
    cases ha : isHex a <;> cases hb : isHex b <;> simp_all
  simp [standardizeJsonEscapes, escapeLoop, escapeStep, h2]

/-! ## Escape normalizer: claims -/

/-- C3: for every backslash-free prefix p, hex digits h1 h2 and rest q (possibly empty),
the normalizer maps p, backslash, x, h1, h2, q to p, backslash, u, 0, 0, h1, h2 followed by
the normalized q, the digits copied verbatim; in particular backslash x 1 A gives
backslash u 0 0 1 A. -/
theorem C3_hex_escape_rewritten (p q : List Char) (h1 h2 : Char)
    (hp : '\\' ∉ p) (hh1 : HexDigit h1) (hh2 : HexDigit h2) :
    standardizeJsonEscapes (p ++ ['\\', 'x'] ++ [h1, h2] ++ q)
      = p ++ ['\\', 'u', '0', '0'] ++ [h1, h2] ++ standardizeJsonEscapes q ∧
    standardizeJsonEscapes ['\\', 'x', '1', 'A'] = ['\\', 'u', '0', '0', '1', 'A'] := by
  refine ⟨?_, by decide⟩
  have e := escapes_hex h1 h2 q ((isHex_iff_hexDigit h1).2 hh1) ((isHex_iff_hexDigit h2).2 hh2)
  have := escapes_plain_append p ('\\' :: 'x' :: h1 :: h2 :: q) hp
  simpa [e] using this

/-- Witness for C3: a lower-case escape at the very end of the input, after the prefix
a b. -/
theorem C3_hex_escape_rewritten_witness :
    standardizeJsonEscapes (['a', 'b'] ++ ['\\', 'x'] ++ ['e', '9'] ++ [])
      = ['a', 'b'] ++ ['\\', 'u', '0', '0'] ++ ['e', '9'] ++ standardizeJsonEscapes [] ∧
    standardizeJsonEscapes ['\\', 'x', '1', 'A'] = ['\\', 'u', '0', '0', '1', 'A'] :=
  C3_hex_escape_rewritten ['a', 'b'] [] 'e' '9' (by decide) (by decide) (by decide)

/-- C4: for every backslash-free prefix p and rest q, the normalizer maps p, backslash, v,
q to p, backslash, u, 0, 0, 0, b followed by the normalized q; in particular the
two-character input backslash v gives the six characters backslash u 0 0 0 b. -/
theorem C4_vertical_tab_rewritten (p q : List Char) (hp : '\\' ∉ p) :
    standardizeJsonEscapes (p ++ ['\\', 'v'] ++ q)
        = p ++ ['\\', 'u', '0', '0', '0', 'b'] ++ standardizeJsonEscapes q ∧
    standardizeJsonEscapes ['\\', 'v'] = ['\\', 'u', '0', '0', '0', 'b'] := by
  refine ⟨?_, by decide⟩
  have := escapes_plain_append p ('\\' :: 'v' :: q) hp
  simpa [escapes_vtab] using this

/-- Witness for C4: the prefix a, the escape, and the rest b. -/
theorem C4_vertical_tab_rewritten_witness :
    standardizeJsonEscapes (['a'] ++ ['\\', 'v'] ++ ['b'])
        = ['a'] ++ ['\\', 'u', '0', '0', '0', 'b'] ++ standardizeJsonEscapes ['b'] ∧
    standardizeJsonEscapes ['\\', 'v'] = ['\\', 'u', '0', '0', '0', 'b'] :=
  C4_vertical_tab_rewritten ['a'] ['b'] (by decide)

/-- C5 (code evaluated at the failing inputs): the escaped-backslash pair is not skipped as
a unit, so backslash backslash v becomes backslash backslash u 0 0 0 b and backslash
backslash x 4 1 becomes backslash backslash u 0 0 4 1 instead of being returned unchanged. -/
theorem C5_escaped_backslash_not_passed_through :
    standardizeJsonEscapes ['\\', '\\', 'v'] = ['\\', '\\', 'u', '0', '0', '0', 'b'] ∧
    standardizeJsonEscapes ['\\', '\\', 'v'] ≠ ['\\', '\\', 'v'] ∧
    standardizeJsonEscapes ['\\', '\\', 'x', '4', '1'] = ['\\', '\\', 'u', '0', '0', '4', '1'] ∧
    standardizeJsonEscapes ['\\', '\\', 'x', '4', '1'] ≠ ['\\', '\\', 'x', '4', '1'] := by
  decide

/-- C6: for every backslash-free p and backslash-free t such that t has fewer than two
characters or its first two characters are not both hex digits, the input p, backslash, x,
t is returned unmodified; in particular backslash x G G, backslash x 1 G, backslash x 1
and backslash x are returned unchanged. -/
theorem C6_invalid_hex_escape_unmodified (p t : List Char)
    (hp : '\\' ∉ p) (ht : '\\' ∉ t)
    (hbad : t.length < 2 ∨ ∃ a b r, t = a :: b :: r ∧ ¬ (HexDigit a ∧ HexDigit b)) :
    standardizeJsonEscapes (p ++ ['\\', 'x'] ++ t) = p ++ ['\\', 'x'] ++ t ∧
    standardizeJsonEscapes ['\\', 'x', 'G', 'G'] = ['\\', 'x', 'G', 'G'] ∧
    standardizeJsonEscapes ['\\', 'x', '1', 'G'] = ['\\', 'x', '1', 'G'] ∧
    standardizeJsonEscapes ['\\', 'x', '1'] = ['\\', 'x', '1'] ∧
    standardizeJsonEscapes ['\\', 'x'] = ['\\', 'x'] := by
  refine ⟨?_, by decide, by decide, by decide, by decide⟩
  have hxt : '\\' ∉ 'x' :: t := by
    intro h
    rcases List.mem_cons.1 h with h | h
    · exact absurd h (by decide)
    · exact ht h
  have hstep : standardizeJsonEscapes ('\\' :: 'x' :: t)
      = '\\' :: standardizeJsonEscapes ('x' :: t) := by
    rcases hbad with hlen | ⟨a, b, r, rfl, hab⟩
    · exact escapes_x_short t hlen
    · apply escapes_x_nonhex
      rw [isHex_iff_hexDigit, isHex_iff_hexDigit]
      exact hab
  have := escapes_plain_append p ('\\' :: 'x' :: t) hp
  rw [hstep, escapes_plain _ hxt] at this
  simpa using this

/-- Witness for C6: after the prefix a, the escape backslash x f g, whose second digit is
not hexadecimal, followed by more text. -/
theorem C6_invalid_hex_escape_unmodified_witness :
    standardizeJsonEscapes (['a'] ++ ['\\', 'x'] ++ ['f', 'g', 'h'])
      = ['a'] ++ ['\\', 'x'] ++ ['f', 'g', 'h'] :=
  (C6_invalid_hex_escape_unmodified ['a'] ['f', 'g', 'h'] (by decide) (by decide)
    (Or.inr ⟨'f', 'g', ['h'], rfl, by decide⟩)).1

/-! ## Buffer growth writer: lemmas -/

theorem resize_length (v : List Nat) (n : Nat) : (resize v n).length = n := by
  simp only [resize, List.length_append, List.length_take, List.length_replicate]
  omega

theorem bufferSize_zero (w e : Nat) (h : 4 * e < 2 ^ w) : (e <<< 0) % 2 ^ w = e := by
  have e0 : e <<< 0 = e := by simp
  rw [e0]
  exact Nat.mod_eq_of_lt (by omega)

theorem bufferSize_one (w e : Nat) (h : 4 * e < 2 ^ w) : (e <<< 1) % 2 ^ w = 2 * e := by
  have e1 : e <<< 1 = 2 * e := by rw [Nat.shiftLeft_eq]; omega
  rw [e1]
  exact Nat.mod_eq_of_lt (by omega)

theorem bufferSize_two (w e : Nat) (h : 4 * e < 2 ^ w) : (e <<< 2) % 2 ^ w = 4 * e := by
  have e2 : e <<< 2 = 4 * e := by rw [Nat.shiftLeft_eq]; omega
  rw [e2]
  exact Nat.mod_eq_of_lt (by omega)

/-- Cutting a buffer that starts with the written bytes to their number leaves exactly
the written bytes. -/
theorem resize_written (content rest : List Nat) (n : Nat) (h : content.length = n) :
    resize (content ++ rest) n = content := by
  subst h
  simp [resize]

/-- The three iterations of the retry loop, written out on the three allocations and the
three write outcomes. -/
theorem writeAttempts_unrolled (rt : Runtime) (dir : DirectorFile) (output : List Nat)
    (hfit : 4 * dir.size < 2 ^ rt.sizeBits) :
    writeAttempts rt dir dir.size 3 0 output 0 =
      if rt.vectorAlloc dir.size = false then .threw
      else
        match dir.write (List.replicate dir.size 0) with
        | .wrote p b => .returned (b, p)
        | .otherFault => .threw
        | .stdException =>
          if rt.vectorAlloc (2 * dir.size) = false then .threw
          else
            match dir.write (List.replicate (2 * dir.size) 0) with
            | .wrote p b => .returned (b, p)
            | .otherFault => .threw
            | .stdException =>
              if rt.vectorAlloc (4 * dir.size) = false then .threw
              else
                match dir.write (List.replicate (4 * dir.size) 0) with
                | .wrote p b => .returned (b, p)
                | .otherFault => .threw
                | .stdException => .returned (List.replicate (4 * dir.size) 0, 0) := by
  simp only [writeAttempts, bufferSize_zero _ _ hfit, bufferSize_one _ _ hfit,
    bufferSize_two _ _ hfit]
  cases rt.vectorAlloc dir.size with
  | false => simp
  | true =>
    simp only [Bool.not_true, Bool.false_eq_true, if_false, Bool.true_eq_false]
    cases dir.write (List.replicate dir.size 0) with
    | wrote p b => rfl
    | otherFault => rfl
    | stdException =>
      simp only
      cases rt.vectorAlloc (2 * dir.size) with
      | false => simp
      | true =>
        simp only [Bool.not_true, Bool.false_eq_true, if_false, Bool.true_eq_false]
        cases dir.write (List.replicate (2 * dir.size) 0) with
        | wrote p b => rfl
        | otherFault => rfl
        | stdException =>
          simp only
          cases rt.vectorAlloc (4 * dir.size) with
          | false => simp
          | true =>
            simp only [Bool.not_true, Bool.false_eq_true, if_false, Bool.true_eq_false]
            cases dir.write (List.replicate (4 * dir.size) 0) <;> rfl

/-- The writer in terms of the first attempt that does not end in a `std::exception`, when
the three buffers can be allocated. -/
theorem writeDirectorToBuffer_eq (rt : Runtime) (dir : DirectorFile) (output : List Nat)
    (hE : 0 < dir.size) (hfit : 4 * dir.size < 2 ^ rt.sizeBits)
    (halloc : ∀ k, k < 3 → rt.vectorAlloc (2 ^ k * dir.size) = true) :
    writeDirectorToBuffer rt dir output =
      match firstCompleted dir dir.size with
      | none => .returned (false, [])
      | some (.wrote p b) =>
        if p = 0 then .returned (false, [])
        else if b.length < p ∧ rt.vectorAlloc p = false then .threw
        else .returned (true, resize b p)
      | some _ => .threw := by
  have hne : dir.size ≠ 0 := by omega
  have a0 : rt.vectorAlloc dir.size = true := by
    have := halloc 0 (by omega)
    rwa [pow_zero, one_mul] at this
  have a1 : rt.vectorAlloc (2 * dir.size) = true := by
    have := halloc 1 (by omega)
    rwa [pow_one] at this
  have a2 : rt.vectorAlloc (4 * dir.size) = true := halloc 2 (by omega)
  simp only [writeDirectorToBuffer, hne, if_false, writeAttempts_unrolled rt dir output hfit,
    firstCompleted, List.map_cons, List.map_nil, a0, a1, a2, Bool.true_eq_false]
  cases h0 : dir.write (List.replicate dir.size 0) <;>
    simp only [List.find?_cons, ne_eq, not_true_eq_false, not_false_eq_true, decide_True,
      decide_False, reduceCtorEq]
  cases h1 : dir.write (List.replicate (2 * dir.size) 0) <;>
    simp only [List.find?_cons, ne_eq, not_true_eq_false, not_false_eq_true, decide_True,
      decide_False, reduceCtorEq]
  cases h2 : dir.write (List.replicate (4 * dir.size) 0) <;>
    simp only [List.find?_cons, List.find?_nil, ne_eq, not_true_eq_false, not_false_eq_true,
      decide_True, decide_False, reduceCtorEq, if_true]

/-- When the first buffer cannot be allocated the call is left by the exception of
`output.assign`, whatever serialization would do. -/
theorem writeDirectorToBuffer_assign_fault (rt : Runtime) (dir : DirectorFile)
    (output : List Nat) (hE : 0 < dir.size)
    (hfail : rt.vectorAlloc (dir.size % 2 ^ rt.sizeBits) = false) :
    writeDirectorToBuffer rt dir output = .threw := by
  have hne : dir.size ≠ 0 := by omega
  simp [writeDirectorToBuffer, hne, writeAttempts, hfail]

/-- In a runtime whose vectors hold at most 4 bytes the sample container (estimate 4, six
bytes to write) makes the writer throw: attempt 0 faults and the buffer of attempt 1
cannot be allocated. -/
theorem writeDirectorToBuffer_smallHeap :
    writeDirectorToBuffer smallHeapRuntime sampleDir [] = .threw := by
  decide

/-! ## Buffer growth writer: claims -/

/-- C7 (counterexample): with estimate 1 and true size 5 the buffers tried have sizes 1, 2
and 4, every attempt faults, and the writer reports failure with an empty output. -/
theorem C7_counterexample_growth_exhausted :
    0 < underestimatedDir.size ∧ underestimatedDir.size < 5 ∧
    (∀ buffer, underestimatedDir.write buffer
      = if 5 ≤ buffer.length then .wrote 5 ([1, 2, 3, 4, 5] ++ buffer.drop 5)
        else .stdException) ∧
    writeDirectorToBuffer sampleRuntime underestimatedDir [] = .returned (false, []) :=
  ⟨by decide, by decide, fun _ => rfl, by decide⟩

/-- C7 (amended): when the estimate E > 0 is smaller than the true serialized size T and
T is at most 4E (4E fitting in `size_t`), where serialization into capacity c writes its T
bytes at the start of the buffer exactly when c is at least T and otherwise throws a
`std::exception`, and every buffer the loop requests can be allocated (E bytes, 2E bytes,
and 4E bytes when T is larger than 2E), attempt 0 faults and the writer succeeds on
attempt k = 1 or 2 with the larger buffer of size 2^k E; the returned buffer consists of
the T bytes written, so its length is T and not the capacity. -/
theorem C7_growth_reaches_true_size (rt : Runtime) (dir : DirectorFile) (T : Nat)
    (content output : List Nat)
    (hE : 0 < dir.size) (hlt : dir.size < T) (hle : T ≤ 4 * dir.size)
    (hfit : 4 * dir.size < 2 ^ rt.sizeBits)
    (halloc0 : rt.vectorAlloc dir.size = true)
    (halloc1 : rt.vectorAlloc (2 * dir.size) = true)
    (halloc2 : 2 * dir.size < T → rt.vectorAlloc (4 * dir.size) = true)
    (hcontent : content.length = T)
    (hwrite : ∀ buffer, dir.write buffer
      = if T ≤ buffer.length then .wrote T (content ++ buffer.drop T) else .stdException) :
    ∃ k, (k = 1 ∨ k = 2) ∧
      dir.write (List.replicate dir.size 0) = .stdException ∧
      dir.size < 2 ^ k * dir.size ∧
      dir.write (List.replicate (2 ^ k * dir.size) 0)
        = .wrote T (content ++ List.replicate (2 ^ k * dir.size - T) 0) ∧
      writeDirectorToBuffer rt dir output = .returned (true, content) ∧
      content.length = T := by
  have hT : T ≠ 0 := by omega
  have hne : dir.size ≠ 0 := by omega
  have h0 : dir.write (List.replicate dir.size 0) = .stdException := by
    rw [hwrite, List.length_replicate, if_neg (by omega)]
  by_cases h2 : T ≤ 2 * dir.size
  · have h1 : dir.write (List.replicate (2 * dir.size) 0)
        = .wrote T (content ++ List.replicate (2 * dir.size - T) 0) := by
      rw [hwrite, List.length_replicate, if_pos h2, List.drop_replicate]
    refine ⟨1, Or.inl rfl, h0, by omega, by rw [pow_one]; exact h1, ?_, hcontent⟩
    have hnot : ¬ (content ++ List.replicate (2 * dir.size - T) 0).length < T := by
      rw [List.length_append, hcontent]; omega
    simp only [writeDirectorToBuffer, hne, if_false, writeAttempts_unrolled rt dir output hfit,
      halloc0, halloc1, h0, h1, hT, Bool.true_eq_false, hnot, false_and]
    rw [resize_written _ _ _ hcontent]
  · have h1 : dir.write (List.replicate (2 * dir.size) 0) = .stdException := by
      rw [hwrite, List.length_replicate, if_neg h2]
    have h4 : dir.write (List.replicate (4 * dir.size) 0)
        = .wrote T (content ++ List.replicate (4 * dir.size - T) 0) := by
      rw [hwrite, List.length_replicate, if_pos hle, List.drop_replicate]
    refine ⟨2, Or.inr rfl, h0, by omega, h4, ?_, hcontent⟩
    have hnot : ¬ (content ++ List.replicate (4 * dir.size - T) 0).length < T := by
      rw [List.length_append, hcontent]; omega
    simp only [writeDirectorToBuffer, hne, if_false, writeAttempts_unrolled rt dir output hfit,
      halloc0, halloc1, halloc2 (by omega), h0, h1, h4, hT, Bool.true_eq_false, hnot,
      false_and]
    rw [resize_written _ _ _ hcontent]

/-- Witness for C7 (amended): estimate 4, true size 6; attempt 0 with 4 bytes faults,
attempt 1 with 8 bytes succeeds and the six written bytes are returned. -/
theorem C7_growth_reaches_true_size_witness :
    ∃ k, (k = 1 ∨ k = 2) ∧
      sampleDir.write (List.replicate sampleDir.size 0) = .stdException ∧
      sampleDir.size < 2 ^ k * sampleDir.size ∧
      sampleDir.write (List.replicate (2 ^ k * sampleDir.size) 0)
        = .wrote 6 ([1, 2, 3, 4, 5, 6] ++ List.replicate (2 ^ k * sampleDir.size - 6) 0) ∧
      writeDirectorToBuffer sampleRuntime sampleDir [] = .returned (true, [1, 2, 3, 4, 5, 6]) ∧
      [1, 2, 3, 4, 5, 6].length = 6 :=
  C7_growth_reaches_true_size sampleRuntime sampleDir 6 [1, 2, 3, 4, 5, 6] []
    (by decide) (by decide) (by decide) (by decide) (by decide) (by decide)
    (fun _ => by decide) rfl (fun _ => rfl)

/-- C8 (counterexample): a serialization that completes without any fault on the first
attempt but leaves the stream position at 0 makes the writer report failure, although
no attempt faulted. -/
theorem C8_counterexample_zero_bytes_written :
    0 < zeroWriteDir.size ∧
    zeroWriteDir.write (List.replicate zeroWriteDir.size 0) = .wrote 0 [0, 0, 0, 0] ∧
    writeDirectorToBuffer sampleRuntime zeroWriteDir [] = .returned (false, []) :=
  ⟨by decide, by decide, by decide⟩

/-- C8 (amended): with estimate E > 0 (4E fitting in `size_t`), buffers of E, 2E and 4E
bytes that can each be allocated, and every serialization fault a `std::exception`, the
writer tries zeroed buffers of sizes E, 2E, 4E in this order and stops at the first
attempt that does not fault.  If that attempt wrote p > 0 bytes into buffer b, with p
within b (or the vector able to grow to p bytes), the writer returns true with b cut to
length p; it reports failure exactly when all three attempts fault or the first attempt
that does not fault wrote 0 bytes. -/
theorem C8_retry_rule (rt : Runtime) (dir : DirectorFile) (output : List Nat)
    (hE : 0 < dir.size) (hfit : 4 * dir.size < 2 ^ rt.sizeBits)
    (halloc : ∀ k, k < 3 → rt.vectorAlloc (2 ^ k * dir.size) = true)
    (hstd : ∀ buffer, dir.write buffer ≠ .otherFault) :
    (firstCompleted dir dir.size = none ↔
      (dir.write (List.replicate dir.size 0) = .stdException ∧
       dir.write (List.replicate (2 * dir.size) 0) = .stdException ∧
       dir.write (List.replicate (4 * dir.size) 0) = .stdException)) ∧
    (∀ p b, firstCompleted dir dir.size = some (.wrote p b) → p ≠ 0 →
      (b.length < p → rt.vectorAlloc p = true) →
      writeDirectorToBuffer rt dir output = .returned (true, resize b p) ∧
      (resize b p).length = p ∧ (p ≤ b.length → resize b p = b.take p)) ∧
    ((∃ out, writeDirectorToBuffer rt dir output = .returned (false, out)) ↔
      (firstCompleted dir dir.size = none ∨
        ∃ b, firstCompleted dir dir.size = some (.wrote 0 b))) := by
  have heq := writeDirectorToBuffer_eq rt dir output hE hfit halloc
  refine ⟨?_, ?_, ?_⟩
  · simp only [firstCompleted, List.map_cons, List.map_nil]
    cases h0 : dir.write (List.replicate dir.size 0) <;>
      cases h1 : dir.write (List.replicate (2 * dir.size) 0) <;>
      cases h2 : dir.write (List.replicate (4 * dir.size) 0) <;>
      simp [List.find?_cons]
  · intro p b hfc hp hgrow
    rw [heq, hfc]
    refine ⟨?_, resize_length _ _, ?_⟩
    · have hnot : ¬ (b.length < p ∧ rt.vectorAlloc p = false) := by
        rintro ⟨hlt, hf⟩
        rw [hgrow hlt] at hf
        exact absurd hf (by simp)
      simp only [hp, if_false, hnot]
    · intro hpb
      simp [resize, Nat.sub_eq_zero_of_le hpb]
  · rw [heq]
    have hno : firstCompleted dir dir.size ≠ some .otherFault := by
      intro hfc
      have hmem := List.mem_of_find?_eq_some hfc
      simp only [List.map_cons, List.map_nil, List.mem_cons, List.mem_singleton,
        List.not_mem_nil, or_false] at hmem
      rcases hmem with h | h | h <;> exact hstd _ h.symm
    have hns : firstCompleted dir dir.size ≠ some .stdException := by
      intro hfc
      have := List.find?_some hfc
      simp at this
    cases hfc : firstCompleted dir dir.size with
    | none => simp
    | some o =>
      cases o with
      | otherFault => exact absurd hfc hno
      | stdException => exact absurd hfc hns
      | wrote p b =>
        by_cases hp : p = 0
        · subst hp; simp
        · simp only [hp, if_false]
          constructor
          · rintro ⟨out, hout⟩
            split at hout
            · exact absurd hout (by simp)
            · simp at hout
          · rintro (h | ⟨b2, h⟩)
            · exact absurd h (by simp)
            · simp only [Option.some.injEq, WriteOutcome.wrote.injEq] at h
              exact absurd h.1 hp

/-- Witness for C8 (amended): estimate 4 and a serialized form of 6 bytes; the attempt
with 4 bytes faults, the attempt with 8 bytes writes 6 bytes, which are returned. -/
theorem C8_retry_rule_witness :
    writeDirectorToBuffer sampleRuntime sampleDir [] = .returned (true, [1, 2, 3, 4, 5, 6]) :=
  ((C8_retry_rule sampleRuntime sampleDir [] (by decide) (by decide)
    (by intro k hk; interval_cases k <;> decide)
    (by intro buffer; simp only [sampleDir]; split <;> simp)).2.1
      6 [1, 2, 3, 4, 5, 6, 0, 0] rfl (by decide) (fun _ => rfl)).1

/-! ## Entry points: lemmas -/

/-- With a non-zero handle `projectorrays_get_chunk` reports length 0 whenever it returns
null. -/
theorem get_chunk_null_reports_zero (rt : Runtime) (ptr : ProjectorRaysHandle) (fourCC : Nat)
    (id : Int) (prior : Nat)
    (h : (projectorrays_get_chunk rt (some ptr) fourCC id (some prior)).ret = none) :
    (projectorrays_get_chunk rt (some ptr) fourCC id (some prior)).outputSize = some 0 := by
  unfold projectorrays_get_chunk at h ⊢
  simp only at h ⊢
  repeat' split
  all_goals simp_all

/-- With a non-zero handle `projectorrays_implemented_dump_chunks` reports length 0
whenever it returns null. -/
theorem dump_chunks_null_reports_zero (rt : Runtime) (ptr : ProjectorRaysHandle) (prior : Nat)
    (h : (projectorrays_implemented_dump_chunks rt (some ptr) (some prior)).ret = none) :
    (projectorrays_implemented_dump_chunks rt (some ptr) (some prior)).outputSize = some 0 := by
  unfold projectorrays_implemented_dump_chunks at h ⊢
  simp only at h ⊢
  repeat' split
  all_goals simp_all

/-- With a non-null, non-empty input `projectorrays_decompile` reports length 0 whenever it
returns null. -/
theorem decompile_null_reports_zero (rt : Runtime)
    (read : List Nat → Call (Option DirectorFile)) (bytes : List Nat) (inputSize prior : Nat)
    (hsize : inputSize ≠ 0)
    (h : (projectorrays_decompile rt read (some bytes) inputSize (some prior)).ret = none) :
    (projectorrays_decompile rt read (some bytes) inputSize (some prior)).outputSize
      = some 0 := by
  unfold projectorrays_decompile at h ⊢
  simp only [hsize, if_false] at h ⊢
  repeat' split
  all_goals simp_all

/-! ## Entry points: claims -/

/-- C9 (code evaluated at the failing inputs): when the handle is 0, or the input pointer
is null or the input size is 0, the entry points return null before the length is
zeroed, so the caller's length cell keeps its prior value. -/
theorem C9_null_result_keeps_prior_length (rt : Runtime) (fourCC : Nat) (id : Int)
    (read : List Nat → Call (Option DirectorFile)) (bytes : List Nat) (inputSize prior : Nat) :
    projectorrays_get_chunk rt none fourCC id (some prior) = ⟨none, some prior⟩ ∧
    projectorrays_implemented_dump_chunks rt none (some prior) = ⟨none, some prior⟩ ∧
    projectorrays_decompile rt read none inputSize (some prior) = ⟨none, some prior⟩ ∧
    projectorrays_decompile rt read (some bytes) 0 (some prior) = ⟨none, some prior⟩ :=
  ⟨rfl, rfl, rfl, rfl⟩

/-- C10: for a valid handle (allocation succeeding): a present chunk with a zero-length
payload gives a non-null buffer with reported length 0; an absent chunk, whose lookup
throws, gives a null buffer with reported length 0; a payload of length L > 0 gives a
non-null buffer of length L holding the payload bytes. -/
theorem C10_chunk_payload_cases (rt : Runtime) (dir : DirectorFile) (fourCC : Nat) (id : Int)
    (prior : Nat) (hmem : ∀ n, rt.malloc n = true) :
    (∀ view, dir.getChunkData fourCC id = .returned view → view.length = 0 →
      projectorrays_get_chunk rt (some ⟨some dir⟩) fourCC id (some prior)
        = ⟨some [], some 0⟩) ∧
    (dir.getChunkData fourCC id = .threw →
      projectorrays_get_chunk rt (some ⟨some dir⟩) fourCC id (some prior)
        = ⟨none, some 0⟩) ∧
    (∀ view, dir.getChunkData fourCC id = .returned view → 0 < view.length →
      projectorrays_get_chunk rt (some ⟨some dir⟩) fourCC id (some prior)
        = ⟨some view, some view.length⟩) := by
  refine ⟨?_, ?_, ?_⟩
  · intro view hv hlen
    simp [projectorrays_get_chunk, hv, hlen, hmem]
  · intro hv
    simp [projectorrays_get_chunk, hv]
  · intro view hv hlen
    simp [projectorrays_get_chunk, hv, hlen, hmem]

/-- Witness for C10: in the sample container chunk -2 is present and empty, chunk 5 is
absent, and chunk 1 has the payload 7 8 9. -/
theorem C10_chunk_payload_cases_witness :
    projectorrays_get_chunk sampleRuntime (some ⟨some sampleDir⟩) 0x43415374 (-2) (some 77)
      = ⟨some [], some 0⟩ ∧
    projectorrays_get_chunk sampleRuntime (some ⟨some sampleDir⟩) 0x43415374 5 (some 77)
      = ⟨none, some 0⟩ ∧
    projectorrays_get_chunk sampleRuntime (some ⟨some sampleDir⟩) 0x696d6170 1 (some 77)
      = ⟨some [7, 8, 9], some 3⟩ :=
  ⟨(C10_chunk_payload_cases sampleRuntime sampleDir 0x43415374 (-2) 77 (fun _ => rfl)).1
      [] rfl rfl,
    (C10_chunk_payload_cases sampleRuntime sampleDir 0x43415374 5 77 (fun _ => rfl)).2.1 rfl,
    (C10_chunk_payload_cases sampleRuntime sampleDir 0x696d6170 1 77 (fun _ => rfl)).2.2
      [7, 8, 9] rfl (by decide)⟩

/-! ## Escape normalizer: idempotence -/

theorem isHex_ne_backslash (c : Char) (h : isHex c = true) : c ≠ '\\' := by
  intro hc
  subst hc
  exact absurd h (by decide)

theorem not_rewritable_nil : ¬ Rewritable [] := by
  simp [Rewritable]

theorem not_rewritable_cons_plain (c : Char) (r : List Char) (h : c ≠ '\\') :
    ¬ Rewritable (c :: r) := by
  intro hr
  rcases hr with ⟨q, hq⟩ | ⟨h1, h2, q, hq, _, _⟩
  · exact h (List.cons.inj hq).1
  · exact h (List.cons.inj hq).1

theorem escapes_backslash_last : standardizeJsonEscapes ['\\'] = ['\\'] := by decide

theorem escapes_backslash_other (c : Char) (r : List Char) (hv : c ≠ 'v') (hx : c ≠ 'x') :
    standardizeJsonEscapes ('\\' :: c :: r) = '\\' :: standardizeJsonEscapes (c :: r) := by
  simp [standardizeJsonEscapes, escapeLoop, escapeStep, hv, hx]

/-- A backslash that starts no recognized escape is copied and the scan resumes at the
next character. -/
theorem escapes_not_rewritable (r : List Char) (h : ¬ Rewritable ('\\' :: r)) :
    standardizeJsonEscapes ('\\' :: r) = '\\' :: standardizeJsonEscapes r := by
  cases r with
  | nil => decide
  | cons c r1 =>
    by_cases hv : c = 'v'
    · subst hv
      exact absurd (Or.inl ⟨r1, rfl⟩) h
    by_cases hx : c = 'x'
    · subst hx
      match r1, h with
      | [], _ => exact escapes_x_short [] (by simp)
      | [a], _ => exact escapes_x_short [a] (by simp)
      | a :: b :: q, h =>
        apply escapes_x_nonhex
        intro hab
        exact h (Or.inr ⟨a, b, q, rfl, hab.1, hab.2⟩)
    · exact escapes_backslash_other c r1 hv hx

/-- The three ways the scan proceeds at a backslash. -/
theorem escapes_backslash_cases (r : List Char) :
    (∃ q, r = 'v' :: q ∧ standardizeJsonEscapes ('\\' :: r)
      = ['\\', 'u', '0', '0', '0', 'b'] ++ standardizeJsonEscapes q) ∨
    (∃ h1 h2 q, r = 'x' :: h1 :: h2 :: q ∧ isHex h1 = true ∧ isHex h2 = true ∧
      standardizeJsonEscapes ('\\' :: r)
        = ['\\', 'u', '0', '0', h1, h2] ++ standardizeJsonEscapes q) ∨
    (¬ Rewritable ('\\' :: r) ∧
      standardizeJsonEscapes ('\\' :: r) = '\\' :: standardizeJsonEscapes r) := by
  by_cases h : Rewritable ('\\' :: r)
  · rcases h with ⟨q, hq⟩ | ⟨h1, h2, q, hq, hh1, hh2⟩
    · left
      have hr : r = 'v' :: q := (List.cons.inj hq).2
      exact ⟨q, hr, by rw [hr]; exact escapes_vtab q⟩
    · right; left
      have hr : r = 'x' :: h1 :: h2 :: q := (List.cons.inj hq).2
      exact ⟨h1, h2, q, hr, hh1, hh2, by rw [hr]; exact escapes_hex h1 h2 q hh1 hh2⟩
  · right; right
    exact ⟨h, escapes_not_rewritable r h⟩

/-- Induction along the scan of the normalizer. -/
theorem escapes_induction {motive : List Char → Prop}
    (hnil : motive [])
    (hplain : ∀ c r, c ≠ '\\' → motive r → motive (c :: r))
    (hvtab : ∀ q, motive q → motive ('\\' :: 'v' :: q))
    (hhex : ∀ h1 h2 q, isHex h1 = true → isHex h2 = true → motive q →
      motive ('\\' :: 'x' :: h1 :: h2 :: q))
    (hother : ∀ r, ¬ Rewritable ('\\' :: r) → motive r → motive ('\\' :: r)) :
    ∀ s, motive s := by
  have key : ∀ n (s : List Char), s.length ≤ n → motive s := by
    intro n
    induction n with
    | zero =>
      intro s hs
      have : s = [] := List.length_eq_zero.1 (by omega)
      rw [this]; exact hnil
    | succ n ih =>
      intro s hs
      cases s with
      | nil => exact hnil
      | cons c r =>
        have hr : r.length ≤ n := by simp at hs; omega
        by_cases hc : c = '\\'
        · subst hc
          rcases escapes_backslash_cases r with ⟨q, hq, _⟩ | ⟨h1, h2, q, hq, hh1, hh2, _⟩ | ⟨hn, _⟩
          · subst hq
            exact hvtab q (ih q (by simp at hr; omega))
          · subst hq
            exact hhex h1 h2 q hh1 hh2 (ih q (by simp at hr; omega))
          · exact hother r hn (ih r hr)
        · exact hplain c r hc (ih r hr)
  intro s
  exact key s.length s (Nat.le_refl _)

/-- If the output starts with a plain character, so does the input, and the rest of the
output is the output of the rest. -/
theorem escapes_head_plain (c : Char) (r q : List Char) (hc : c ≠ '\\')
    (h : standardizeJsonEscapes r = c :: q) :
    ∃ r1, r = c :: r1 ∧ standardizeJsonEscapes r1 = q := by
  cases r with
  | nil => simp [standardizeJsonEscapes, escapeLoop] at h
  | cons d r1 =>
    by_cases hd : d = '\\'
    · subst hd
      exfalso
      rcases escapes_backslash_cases r1 with ⟨_, _, e⟩ | ⟨_, _, _, _, _, _, e⟩ | ⟨_, e⟩ <;>
        · rw [e] at h
          exact hc (List.cons.inj h).1.symm
    · rw [escapes_cons_plain d r1 hd] at h
      obtain ⟨h1, h2⟩ := List.cons.inj h
      exact ⟨r1, by rw [h1], h2⟩

/-- A backslash followed by the output of the normalizer is rewritable only if the
backslash followed by the input was. -/
theorem rewritable_of_output (r : List Char)
    (h : Rewritable ('\\' :: standardizeJsonEscapes r)) : Rewritable ('\\' :: r) := by
  rcases h with ⟨q, hq⟩ | ⟨h1, h2, q, hq, hh1, hh2⟩
  · obtain ⟨r1, hr1, _⟩ := escapes_head_plain 'v' r q (by decide) (List.cons.inj hq).2
    exact Or.inl ⟨r1, by rw [hr1]⟩
  · obtain ⟨r1, hr1, e1⟩ := escapes_head_plain 'x' r (h1 :: h2 :: q) (by decide)
      (List.cons.inj hq).2
    obtain ⟨r2, hr2, e2⟩ := escapes_head_plain h1 r1 (h2 :: q) (isHex_ne_backslash h1 hh1) e1
    obtain ⟨r3, hr3, _⟩ := escapes_head_plain h2 r2 q (isHex_ne_backslash h2 hh2) e2
    exact Or.inr ⟨h1, h2, r3, by rw [hr1, hr2, hr3], hh1, hh2⟩

/-- No suffix of an output of the normalizer is rewritable. -/
theorem escapes_output_clean (s t : List Char) (ht : t <:+ standardizeJsonEscapes s) :
    ¬ Rewritable t := by
  revert t
  refine escapes_induction (motive := fun s => ∀ t, t <:+ standardizeJsonEscapes s →
    ¬ Rewritable t) ?_ ?_ ?_ ?_ ?_ s
  · intro t ht
    have : t = [] := List.suffix_nil.1 ht
    rw [this]; exact not_rewritable_nil
  · intro c r hc ih t ht
    rw [escapes_cons_plain c r hc, List.suffix_cons_iff] at ht
    rcases ht with rfl | ht
    · exact not_rewritable_cons_plain c _ hc
    · exact ih t ht
  · intro q ih t ht
    rw [escapes_vtab] at ht
    simp only [List.cons_append, List.nil_append, List.suffix_cons_iff] at ht
    rcases ht with rfl | rfl | rfl | rfl | rfl | rfl | ht
    · simp [Rewritable]
    · exact not_rewritable_cons_plain _ _ (by decide)
    · exact not_rewritable_cons_plain _ _ (by decide)
    · exact not_rewritable_cons_plain _ _ (by decide)
    · exact not_rewritable_cons_plain _ _ (by decide)
    · exact not_rewritable_cons_plain _ _ (by decide)
    · exact ih t ht
  · intro h1 h2 q hh1 hh2 ih t ht
    rw [escapes_hex h1 h2 q hh1 hh2] at ht
    simp only [List.cons_append, List.nil_append, List.suffix_cons_iff] at ht
    rcases ht with rfl | rfl | rfl | rfl | rfl | rfl | ht
    · simp [Rewritable]
    · exact not_rewritable_cons_plain _ _ (by decide)
    · exact not_rewritable_cons_plain _ _ (by decide)
    · exact not_rewritable_cons_plain _ _ (by decide)
    · exact not_rewritable_cons_plain _ _ (isHex_ne_backslash h1 hh1)
    · exact not_rewritable_cons_plain _ _ (isHex_ne_backslash h2 hh2)
    · exact ih t ht
  · intro r hn ih t ht
    rw [escapes_not_rewritable r hn, List.suffix_cons_iff] at ht
    rcases ht with rfl | ht
    · exact fun h => hn (rewritable_of_output r h)
    · exact ih t ht

/-- A text none of whose suffixes is rewritable is left unchanged by the normalizer. -/
theorem escapes_fixed_of_clean (u : List Char) (h : ∀ t, t <:+ u → ¬ Rewritable t) :
    standardizeJsonEscapes u = u := by
  induction u with
  | nil => rfl
  | cons c r ih =>
    have hr : ∀ t, t <:+ r → ¬ Rewritable t :=
      fun t ht => h t (List.suffix_cons_iff.2 (Or.inr ht))
    by_cases hc : c = '\\'
    · subst hc
      rw [escapes_not_rewritable r (h _ (List.suffix_refl _)), ih hr]
    · rw [escapes_cons_plain c r hc, ih hr]

/-- C19: the normalizer is idempotent, and no output of the normalizer contains, at any
position, a backslash followed by v or a backslash followed by x and two hex digits, so a
second pass finds nothing to rewrite. -/
theorem C19_normalizer_idempotent :
    (∀ s : List Char,
      standardizeJsonEscapes (standardizeJsonEscapes s) = standardizeJsonEscapes s) ∧
    (∀ s pre q : List Char, standardizeJsonEscapes s ≠ pre ++ '\\' :: 'v' :: q) ∧
    (∀ (s pre q : List Char) (h1 h2 : Char), HexDigit h1 → HexDigit h2 →
      standardizeJsonEscapes s ≠ pre ++ '\\' :: 'x' :: h1 :: h2 :: q) := by
  refine ⟨?_, ?_, ?_⟩
  · intro s
    exact escapes_fixed_of_clean _ (fun t ht => escapes_output_clean s t ht)
  · intro s pre q h
    exact escapes_output_clean s ('\\' :: 'v' :: q) ⟨pre, h.symm⟩ (Or.inl ⟨q, rfl⟩)
  · intro s pre q h1 h2 hh1 hh2 h
    exact escapes_output_clean s ('\\' :: 'x' :: h1 :: h2 :: q) ⟨pre, h.symm⟩
      (Or.inr ⟨h1, h2, q, rfl, (isHex_iff_hexDigit h1).2 hh1, (isHex_iff_hexDigit h2).2 hh2⟩)

/-! ## Buffer growth writer: result invariant -/

/-- The retry loop written out on the three allocations and the outcomes of the three
attempts, with the buffer sizes as computed in `size_t`. -/
theorem writeAttempts_outcomes (rt : Runtime) (dir : DirectorFile) (output : List Nat) :
    writeAttempts rt dir dir.size 3 0 output 0 =
      if rt.vectorAlloc (attemptBuffer rt dir 0).length = false then .threw
      else
        match dir.write (attemptBuffer rt dir 0) with
        | .wrote p b => .returned (b, p)
        | .otherFault => .threw
        | .stdException =>
          if rt.vectorAlloc (attemptBuffer rt dir 1).length = false then .threw
          else
            match dir.write (attemptBuffer rt dir 1) with
            | .wrote p b => .returned (b, p)
            | .otherFault => .threw
            | .stdException =>
              if rt.vectorAlloc (attemptBuffer rt dir 2).length = false then .threw
              else
                match dir.write (attemptBuffer rt dir 2) with
                | .wrote p b => .returned (b, p)
                | .otherFault => .threw
                | .stdException => .returned (attemptBuffer rt dir 2, 0) := by
  simp only [writeAttempts, attemptBuffer, List.length_replicate]
  cases rt.vectorAlloc ((dir.size <<< 0) % 2 ^ rt.sizeBits) with
  | false => simp
  | true =>
    simp only [Bool.not_true, Bool.false_eq_true, if_false, Bool.true_eq_false]
    cases dir.write (List.replicate ((dir.size <<< 0) % 2 ^ rt.sizeBits) 0) with
    | wrote p b => rfl
    | otherFault => rfl
    | stdException =>
      simp only
      cases rt.vectorAlloc ((dir.size <<< (0 + 1)) % 2 ^ rt.sizeBits) with
      | false => simp
      | true =>
        simp only [Bool.not_true, Bool.false_eq_true, if_false, Bool.true_eq_false]
        cases dir.write (List.replicate ((dir.size <<< (0 + 1)) % 2 ^ rt.sizeBits) 0) with
        | wrote p b => rfl
        | otherFault => rfl
        | stdException =>
          simp only
          cases rt.vectorAlloc ((dir.size <<< (0 + 1 + 1)) % 2 ^ rt.sizeBits) with
          | false => simp
          | true =>
            simp only [Bool.not_true, Bool.false_eq_true, if_false, Bool.true_eq_false]
            cases dir.write (List.replicate ((dir.size <<< (0 + 1 + 1)) % 2 ^ rt.sizeBits) 0)
              <;> rfl

/-- How a call of the writer with a non-zero estimate ends: some attempt `k` completes
after its buffer and the earlier ones were allocated and the earlier attempts ended in a
`std::exception`; or some attempt throws something else; or all three attempts end in a
`std::exception`; or the buffer of some attempt cannot be allocated. -/
theorem writeDirectorToBuffer_cases (rt : Runtime) (dir : DirectorFile) (output : List Nat)
    (hE : 0 < dir.size) :
    (∃ k p b, k < 3 ∧
      (∀ j, j ≤ k → rt.vectorAlloc (attemptBuffer rt dir j).length = true) ∧
      (∀ j, j < k → dir.write (attemptBuffer rt dir j) = .stdException) ∧
      dir.write (attemptBuffer rt dir k) = .wrote p b ∧
      writeDirectorToBuffer rt dir output
        = if p = 0 then .returned (false, [])
          else if b.length < p ∧ rt.vectorAlloc p = false then .threw
          else .returned (true, resize b p)) ∨
    (∃ k, k < 3 ∧ (∀ j, j < k → dir.write (attemptBuffer rt dir j) = .stdException) ∧
      dir.write (attemptBuffer rt dir k) = .otherFault ∧
      writeDirectorToBuffer rt dir output = .threw) ∨
    ((∀ j, j < 3 → dir.write (attemptBuffer rt dir j) = .stdException) ∧
      writeDirectorToBuffer rt dir output = .returned (false, [])) ∨
    (∃ k, k < 3 ∧ (∀ j, j < k → dir.write (attemptBuffer rt dir j) = .stdException) ∧
      rt.vectorAlloc (attemptBuffer rt dir k).length = false ∧
      writeDirectorToBuffer rt dir output = .threw) := by
  have hne : dir.size ≠ 0 := by omega
  simp only [writeDirectorToBuffer, hne, if_false, writeAttempts_outcomes]
  cases a0 : rt.vectorAlloc (attemptBuffer rt dir 0).length with
  | false =>
    right; right; right
    exact ⟨0, by omega, fun j hj => absurd hj (by omega), a0, by simp⟩
  | true =>
    have g0 : ∀ j, j ≤ 0 → rt.vectorAlloc (attemptBuffer rt dir j).length = true := by
      intro j hj
      have : j = 0 := by omega
      rw [this]; exact a0
    simp only [Bool.true_eq_false, if_false]
    cases h0 : dir.write (attemptBuffer rt dir 0) with
    | wrote p b =>
      left
      refine ⟨0, p, b, by omega, g0, fun j hj => absurd hj (by omega), h0, ?_⟩
      by_cases hp : p = 0 <;> simp [hp]
    | otherFault =>
      right; left
      exact ⟨0, by omega, fun j hj => absurd hj (by omega), h0, rfl⟩
    | stdException =>
      have e0 : ∀ j, j < 1 → dir.write (attemptBuffer rt dir j) = .stdException := by
        intro j hj
        have : j = 0 := by omega
        rw [this]; exact h0
      simp only
      cases a1 : rt.vectorAlloc (attemptBuffer rt dir 1).length with
      | false =>
        right; right; right
        exact ⟨1, by omega, e0, a1, by simp⟩
      | true =>
        have g1 : ∀ j, j ≤ 1 → rt.vectorAlloc (attemptBuffer rt dir j).length = true := by
          intro j hj
          have : j = 0 ∨ j = 1 := by omega
          rcases this with rfl | rfl
          · exact a0
          · exact a1
        simp only [Bool.true_eq_false, if_false]
        cases h1 : dir.write (attemptBuffer rt dir 1) with
        | wrote p b =>
          left
          refine ⟨1, p, b, by omega, g1, e0, h1, ?_⟩
          by_cases hp : p = 0 <;> simp [hp]
        | otherFault =>
          right; left
          exact ⟨1, by omega, e0, h1, rfl⟩
        | stdException =>
          have e1 : ∀ j, j < 2 → dir.write (attemptBuffer rt dir j) = .stdException := by
            intro j hj
            have : j = 0 ∨ j = 1 := by omega
            rcases this with rfl | rfl
            · exact h0
            · exact h1
          simp only
          cases a2 : rt.vectorAlloc (attemptBuffer rt dir 2).length with
          | false =>
            right; right; right
            exact ⟨2, by omega, e1, a2, by simp⟩
          | true =>
            have g2 : ∀ j, j ≤ 2 →
                rt.vectorAlloc (attemptBuffer rt dir j).length = true := by
              intro j hj
              have : j = 0 ∨ j = 1 ∨ j = 2 := by omega
              rcases this with rfl | rfl | rfl
              · exact a0
              · exact a1
              · exact a2
            simp only [Bool.true_eq_false, if_false]
            cases h2 : dir.write (attemptBuffer rt dir 2) with
            | wrote p b =>
              left
              refine ⟨2, p, b, by omega, g2, e1, h2, ?_⟩
              by_cases hp : p = 0 <;> simp [hp]
            | otherFault =>
              right; left
              exact ⟨2, by omega, e1, h2, rfl⟩
            | stdException =>
              right; right; left
              refine ⟨?_, by simp⟩
              intro j hj
              have : j = 0 ∨ j = 1 ∨ j = 2 := by omega
              rcases this with rfl | rfl | rfl
              · exact h0
              · exact h1
              · exact h2

/-- The attempt that completes is determined: two attempts that both complete after all
earlier ones ended in a `std::exception` are the same attempt. -/
theorem completed_attempt_unique (rt : Runtime) (dir : DirectorFile) (k1 k2 p1 p2 : Nat)
    (b1 b2 : List Nat)
    (h1 : ∀ j, j < k1 → dir.write (attemptBuffer rt dir j) = .stdException)
    (w1 : dir.write (attemptBuffer rt dir k1) = .wrote p1 b1)
    (h2 : ∀ j, j < k2 → dir.write (attemptBuffer rt dir j) = .stdException)
    (w2 : dir.write (attemptBuffer rt dir k2) = .wrote p2 b2) :
    k1 = k2 ∧ p1 = p2 ∧ b1 = b2 := by
  have hk : k1 = k2 := by
    rcases Nat.lt_trichotomy k1 k2 with h | h | h
    · have := h2 k1 h
      rw [w1] at this
      exact absurd this (by simp)
    · exact h
    · have := h1 k2 h
      rw [w2] at this
      exact absurd this (by simp)
  subst hk
  rw [w1] at w2
  simp only [WriteOutcome.wrote.injEq] at w2
  exact ⟨rfl, w2.1, w2.2⟩

theorem attemptBuffer_length_le (rt : Runtime) (dir : DirectorFile) (k : Nat) :
    (attemptBuffer rt dir k).length ≤ dir.size * 2 ^ k := by
  simp only [attemptBuffer, List.length_replicate, Nat.shiftLeft_eq]
  exact Nat.mod_le _ _

/-- C20 (counterexample): a serialization that completes on attempt 0, whose buffer has
the 2 bytes of the estimate, and leaves the stream position at 4 makes the writer return
true with an output of 4 bytes: the writer resizes to the reported position without
comparing it with the capacity, so the output is longer than the capacity of the attempt
that completed, and no attempt has a capacity bound the output meets. -/
theorem C20_counterexample_position_beyond_capacity :
    writeDirectorToBuffer sampleRuntime overshootDir [] = .returned (true, [5, 6, 0, 0]) ∧
    overshootDir.write (attemptBuffer sampleRuntime overshootDir 0) = .wrote 4 [5, 6] ∧
    ¬ ∃ k, k < 3 ∧
      (∀ j, j < k →
        overshootDir.write (attemptBuffer sampleRuntime overshootDir j) = .stdException) ∧
      [5, 6, 0, 0].length ≤ overshootDir.size * 2 ^ k := by
  refine ⟨by decide, by decide, ?_⟩
  rintro ⟨k, _, hearlier, hle⟩
  cases k with
  | zero => exact absurd hle (by decide)
  | succ n => exact absurd (hearlier 0 (by omega)) (by decide)

/-- C20 (amended): for a call started with an empty output vector, the writer returns
true only with a non-empty output whose length is the byte count written by the attempt k
that completed, after its buffer and the earlier ones were allocated and the earlier
attempts ended in a `std::exception`; the output is the buffer of that attempt resized to
that length, which is at most E * 2^k whenever the reported position lies within the
buffer of that attempt.  When it returns false the output is
empty.  An attempt that is reached (its buffer and the earlier ones allocated, the earlier
attempts ended in a `std::exception`) and completes without fault but reports 0 bytes ends
the loop and is reported as failure.  An estimate of 0 fails whatever allocation and
serialization would do, so without any attempt. -/
theorem C20_writer_result_invariant (rt : Runtime) (dir : DirectorFile) :
    (∀ out, writeDirectorToBuffer rt dir [] = .returned (true, out) →
      out ≠ [] ∧ ∃ k b, k < 3 ∧
        (∀ j, j ≤ k → rt.vectorAlloc (attemptBuffer rt dir j).length = true) ∧
        (∀ j, j < k → dir.write (attemptBuffer rt dir j) = .stdException) ∧
        dir.write (attemptBuffer rt dir k) = .wrote out.length b ∧
        out = resize b out.length ∧
        (out.length ≤ (attemptBuffer rt dir k).length → out.length ≤ dir.size * 2 ^ k)) ∧
    (∀ out, writeDirectorToBuffer rt dir [] = .returned (false, out) → out = []) ∧
    (∀ k b, 0 < dir.size → k < 3 →
      (∀ j, j ≤ k → rt.vectorAlloc (attemptBuffer rt dir j).length = true) →
      (∀ j, j < k → dir.write (attemptBuffer rt dir j) = .stdException) →
      dir.write (attemptBuffer rt dir k) = .wrote 0 b →
      writeDirectorToBuffer rt dir [] = .returned (false, [])) ∧
    (dir.size = 0 → ∀ (write : List Nat → WriteOutcome) (assign : Nat → Bool),
      writeDirectorToBuffer { rt with vectorAlloc := assign } { dir with write := write } []
        = .returned (false, [])) := by
  refine ⟨?_, ?_, ?_, ?_⟩
  · intro out hout
    have hE : 0 < dir.size := by
      rcases Nat.eq_zero_or_pos dir.size with h | h
      · simp [writeDirectorToBuffer, h] at hout
      · exact h
    rcases writeDirectorToBuffer_cases rt dir [] hE with
      ⟨k, p, b, hk, halloc, hearlier, hw, hres⟩ | ⟨k, _, _, _, hres⟩ | ⟨_, hres⟩ |
      ⟨k, _, _, _, hres⟩
    · rw [hres] at hout
      by_cases hp : p = 0
      · simp [hp] at hout
      · simp only [hp, if_false] at hout
        split at hout
        · exact absurd hout (by simp)
        simp only [Call.returned.injEq, Prod.mk.injEq, true_and] at hout
        have hlen : out.length = p := by rw [← hout]; exact resize_length b p
        refine ⟨?_, k, b, hk, halloc, hearlier, by rw [hlen]; exact hw,
          by rw [hlen]; exact hout.symm, ?_⟩
        · intro hnil
          rw [hnil] at hlen
          exact hp hlen.symm
        · intro hcap
          exact Nat.le_trans hcap (attemptBuffer_length_le rt dir k)
    · rw [hres] at hout
      exact absurd hout (by simp)
    · rw [hres] at hout
      simp at hout
    · rw [hres] at hout
      exact absurd hout (by simp)
  · intro out hout
    rcases Nat.eq_zero_or_pos dir.size with h | hE
    · simp [writeDirectorToBuffer, h] at hout
      exact hout
    · rcases writeDirectorToBuffer_cases rt dir [] hE with
        ⟨k, p, b, _, _, _, _, hres⟩ | ⟨k, _, _, _, hres⟩ | ⟨_, hres⟩ | ⟨k, _, _, _, hres⟩
      · rw [hres] at hout
        by_cases hp : p = 0
        · simp [hp] at hout
          exact hout
        · simp only [hp, if_false] at hout
          split at hout
          · exact absurd hout (by simp)
          · simp at hout
      · rw [hres] at hout
        exact absurd hout (by simp)
      · rw [hres] at hout
        simp at hout
        exact hout
      · rw [hres] at hout
        exact absurd hout (by simp)
  · intro k b hE hk halloc hearlier hw
    rcases writeDirectorToBuffer_cases rt dir [] hE with
      ⟨k2, p, b2, _, _, hearlier2, hw2, hres⟩ | ⟨k2, _, hearlier2, hw2, _⟩ | ⟨hall, hres⟩ |
      ⟨k2, _, hearlier2, ha2, _⟩
    · obtain ⟨_, hp, _⟩ := completed_attempt_unique rt dir k k2 0 p b b2 hearlier hw hearlier2 hw2
      rw [hres, ← hp]
      simp
    · exfalso
      rcases Nat.lt_trichotomy k k2 with h | h | h
      · have := hearlier2 k h
        rw [hw] at this
        exact absurd this (by simp)
      · rw [h, hw2] at hw
        exact absurd hw (by simp)
      · have := hearlier k2 h
        rw [hw2] at this
        exact absurd this (by simp)
    · exfalso
      have := hall k hk
      rw [hw] at this
      exact absurd this (by simp)
    · exfalso
      rcases Nat.lt_or_ge k k2 with h | h
      · have := hearlier2 k h
        rw [hw] at this
        exact absurd this (by simp)
      · have := halloc k2 h
        rw [ha2] at this
        exact absurd this (by simp)
  · intro h write assign
    simp [writeDirectorToBuffer, h]

/-- Witness for C20 (amended): in the sample container (estimate 4, six bytes to write)
the call returns true with the six written bytes, within the 8 bytes of attempt 1. -/
theorem C20_writer_result_invariant_witness :
    [1, 2, 3, 4, 5, 6] ≠ ([] : List Nat) ∧ ∃ k b, k < 3 ∧
      (∀ j, j ≤ k →
        sampleRuntime.vectorAlloc (attemptBuffer sampleRuntime sampleDir j).length = true) ∧
      (∀ j, j < k → sampleDir.write (attemptBuffer sampleRuntime sampleDir j) = .stdException) ∧
      sampleDir.write (attemptBuffer sampleRuntime sampleDir k)
        = .wrote (List.length [1, 2, 3, 4, 5, 6]) b ∧
      [1, 2, 3, 4, 5, 6] = resize b (List.length [1, 2, 3, 4, 5, 6]) ∧
      (List.length [1, 2, 3, 4, 5, 6] ≤ (attemptBuffer sampleRuntime sampleDir k).length →
        List.length [1, 2, 3, 4, 5, 6] ≤ sampleDir.size * 2 ^ k) :=
  (C20_writer_result_invariant sampleRuntime sampleDir).1 [1, 2, 3, 4, 5, 6] (by decide)

/-! ## Structured export: lemmas -/

theorem intercalate_cons_eq (sep r : List Char) (rs : List (List Char)) :
    List.intercalate sep (r :: rs) = r ++ (rs.map (fun x => sep ++ x)).flatten := by
  induction rs generalizing r with
  | nil => simp [List.intercalate]
  | cons a rs ih =>
    have h := ih a
    simp only [List.intercalate, List.intersperse, List.flatten_cons, List.map_cons] at h ⊢
    rw [h]
    simp [List.append_assoc]

/-- The output of the export loop: the records of the entries, the first one preceded by
a comma exactly when `first` is false. -/
theorem dumpJsonLoop_eq (lib : CommonLib) (dir : DirectorFile) (m : List (Int × ChunkInfo))
    (output : List Char) (first : Bool) :
    dumpJsonLoop lib dir m output first
      = output ++ (if first then List.intercalate ",".toList (m.filterMap (structuredRecord lib dir))
          else ((m.filterMap (structuredRecord lib dir)).map
            (fun x => ",".toList ++ x)).flatten) := by
  induction m generalizing output first with
  | nil => cases first <;> simp [dumpJsonLoop, List.intercalate]
  | cons e m ih =>
    rw [dumpJsonLoop]
    by_cases h0 : e.2.id = 0
    · simp only [h0, if_true]
      rw [ih, List.filterMap_cons]
      simp [structuredRecord, h0]
    · simp only [h0, if_false]
      cases hg : dir.getChunk e.2.fourCC e.2.id with
      | threw =>
        rw [ih, List.filterMap_cons]
        simp [structuredRecord, h0, hg]
      | returned oc =>
        cases oc with
        | none =>
          rw [ih, List.filterMap_cons]
          simp [structuredRecord, h0, hg]
        | some chunk =>
          simp only
          cases hw : chunk.writeJSON with
          | threw =>
            simp only
            rw [ih, List.filterMap_cons]
            simp [structuredRecord, h0, hg, hw]
          | returned text =>
            simp only
            by_cases hempty : standardizeJsonEscapes text = []
            · simp only [hempty, List.isEmpty_nil, if_true]
              rw [ih, List.filterMap_cons]
              simp [structuredRecord, h0, hg, hw, hempty]
            · have hne : (standardizeJsonEscapes text).isEmpty = false := by
                cases hst : standardizeJsonEscapes text with
                | nil => exact absurd hst hempty
                | cons a l => rfl
              simp only [hne, Bool.false_eq_true, if_false]
              rw [ih, List.filterMap_cons]
              simp only [structuredRecord, h0, hg, hw, hempty, if_false]
              cases first
              · simp [List.append_assoc]
              · simp [intercalate_cons_eq, List.append_assoc]

theorem filterMap_filter_of_none {α β : Type} (f : α → Option β) (p : α → Bool)
    (l : List α) (h : ∀ a ∈ l, p a = false → f a = none) :
    (l.filter p).filterMap f = l.filterMap f := by
  induction l with
  | nil => rfl
  | cons a l ih =>
    have hl : ∀ b ∈ l, p b = false → f b = none :=
      fun b hb => h b (List.mem_cons_of_mem _ hb)
    by_cases hp : p a = true
    · rw [List.filter_cons_of_pos hp, List.filterMap_cons, List.filterMap_cons, ih hl]
    · have hp2 : p a = false := by simpa using hp
      rw [List.filter_cons_of_neg hp, List.filterMap_cons, h a (List.mem_cons_self _ _) hp2]
      exact ih hl

theorem structuredRecord_none_of_faults (lib : CommonLib) (dir : DirectorFile)
    (e : Int × ChunkInfo) (h : renderFaults dir e = true) : structuredRecord lib dir e = none := by
  unfold renderFaults at h
  unfold structuredRecord
  by_cases h0 : e.2.id = 0
  · simp [h0]
  · simp only [h0, if_false]
    cases hg : dir.getChunk e.2.fourCC e.2.id with
    | threw => rfl
    | returned oc =>
      cases oc with
      | none => rfl
      | some chunk =>
        rw [hg] at h
        cases hw : chunk.writeJSON with
        | threw => simp [hw]
        | returned text => simp [hw] at h

theorem structuredEnvelope_ne_nil (records : List (List Char)) :
    structuredEnvelope records ≠ [] := by
  unfold structuredEnvelope
  have : "[".toList ++ List.intercalate ",".toList records ++ "]".toList
      = '[' :: (List.intercalate ",".toList records ++ "]".toList) := rfl
  rw [this, escapes_cons_plain _ _ (by decide)]
  exact List.cons_ne_nil _ _

/-- The result of the structured export on a valid handle. -/
theorem dump_json_eq (rt : Runtime) (lib : CommonLib) (dir : DirectorFile) (prior : Nat)
    (hmem : ∀ n, rt.malloc n = true) :
    projectorrays_implemented_dump_json rt lib (some ⟨some dir⟩) (some prior)
      = ⟨some (bytesOf (structuredEnvelope (dir.chunkInfo.filterMap (structuredRecord lib dir)))),
          some (structuredEnvelope
            (dir.chunkInfo.filterMap (structuredRecord lib dir))).length⟩ := by
  have hne := structuredEnvelope_ne_nil (dir.chunkInfo.filterMap (structuredRecord lib dir))
  have hemp : (structuredEnvelope
      (dir.chunkInfo.filterMap (structuredRecord lib dir))).isEmpty = false := by
    cases hs : structuredEnvelope (dir.chunkInfo.filterMap (structuredRecord lib dir)) with
    | nil => exact absurd hs hne
    | cons a l => rfl
  simp only [projectorrays_implemented_dump_json, dumpJsonLoop_eq, if_true]
  unfold structuredEnvelope at hemp ⊢
  simp only [hemp, hmem, Bool.false_eq_true, if_false, Bool.not_true]


/-! ## Structured export: the final normalizer pass -/

theorem not_rewritable_append_barrier (r t : List Char) (c : Char) (hc : Barrier c)
    (h : ¬ Rewritable ('\\' :: r)) : ¬ Rewritable ('\\' :: (r ++ c :: t)) := by
  obtain ⟨_, hv, hx, hhex⟩ := hc
  intro hr
  rcases hr with ⟨q, hq⟩ | ⟨h1, h2, q, hq, hh1, hh2⟩
  · have e := (List.cons.inj hq).2
    cases r with
    | nil => exact hv (List.cons.inj e).1
    | cons a r1 =>
      have ha : a = 'v' := (List.cons.inj e).1
      exact h (Or.inl ⟨r1, by rw [ha]⟩)
  · have e := (List.cons.inj hq).2
    match r, h, e with
    | [], _, e => exact hx (List.cons.inj e).1
    | [a], _, e =>
      have e2 := (List.cons.inj e).2
      have : c = h1 := (List.cons.inj e2).1
      rw [this, hh1] at hhex
      exact absurd hhex (by simp)
    | [a, b], _, e =>
      have e2 := (List.cons.inj e).2
      have e3 := (List.cons.inj e2).2
      have : c = h2 := (List.cons.inj e3).1
      rw [this, hh2] at hhex
      exact absurd hhex (by simp)
    | a :: b :: d :: r1, h, e =>
      have ha := (List.cons.inj e).1
      have e2 := (List.cons.inj e).2
      have hb := (List.cons.inj e2).1
      have e3 := (List.cons.inj e2).2
      have hd := (List.cons.inj e3).1
      exact h (Or.inr ⟨h1, h2, r1, by rw [ha, hb, hd], hh1, hh2⟩)

/-- The normalizer works separately on the two sides of a barrier character. -/
theorem escapes_append_barrier (s t : List Char) (c : Char) (hc : Barrier c) :
    standardizeJsonEscapes (s ++ c :: t)
      = standardizeJsonEscapes s ++ c :: standardizeJsonEscapes t := by
  refine escapes_induction (motive := fun s => standardizeJsonEscapes (s ++ c :: t)
    = standardizeJsonEscapes s ++ c :: standardizeJsonEscapes t) ?_ ?_ ?_ ?_ ?_ s
  · exact escapes_cons_plain c t hc.1
  · intro d r hd ih
    rw [List.cons_append, escapes_cons_plain d _ hd, ih, escapes_cons_plain d r hd,
      List.cons_append]
  · intro q ih
    rw [List.cons_append, List.cons_append, escapes_vtab, ih, escapes_vtab, List.append_assoc]
  · intro h1 h2 q hh1 hh2 ih
    simp only [List.cons_append]
    rw [escapes_hex h1 h2 _ hh1 hh2, ih, escapes_hex h1 h2 q hh1 hh2, List.append_assoc]
  · intro r hn ih
    rw [List.cons_append, escapes_not_rewritable _ (not_rewritable_append_barrier r t c hc hn),
      ih, escapes_not_rewritable r hn, List.cons_append]

/-- Behind a record of the export and in front of a barrier character, the final pass
yields the record as exported and goes on with the rest. -/
theorem escapes_record_append (esc ids text u : List Char) (c : Char) (hc : Barrier c) :
    standardizeJsonEscapes ("\x7b\"fourCC\":\"".toList ++ esc ++ "\",\"id\":".toList ++ ids
        ++ ",\"data\":".toList ++ standardizeJsonEscapes text ++ "\x7d".toList ++ c :: u)
      = "\x7b\"fourCC\":\"".toList ++ standardizeJsonEscapes esc ++ "\",\"id\":".toList
          ++ standardizeJsonEscapes ids ++ ",\"data\":".toList ++ standardizeJsonEscapes text
          ++ "\x7d".toList ++ c :: standardizeJsonEscapes u := by
  have e2 : "\",\"id\":".toList = '"' :: ",\"id\":".toList := rfl
  have e3 : ",\"data\":".toList = ',' :: "\"data\":".toList := rfl
  have e4 : "\x7d".toList = ['}'] := rfl
  have hidem : standardizeJsonEscapes (standardizeJsonEscapes text)
      = standardizeJsonEscapes text :=
    escapes_fixed_of_clean _ (fun t ht => escapes_output_clean text t ht)
  rw [e2, e3, e4]
  simp only [List.append_assoc, List.cons_append, List.nil_append]
  rw [escapes_plain_append _ _ (by decide : '\\' ∉ "\x7b\"fourCC\":\"".toList),
    escapes_append_barrier esc _ '"' (by decide),
    escapes_plain_append _ _ (by decide : '\\' ∉ ",\"id\":".toList),
    escapes_append_barrier ids _ ',' (by decide),
    escapes_plain_append _ _ (by decide : '\\' ∉ "\"data\":".toList),
    escapes_append_barrier _ _ '}' (by decide), hidem,
    escapes_cons_plain c u hc.1]

theorem exported_of_structured (lib : CommonLib) (dir : DirectorFile) (e : Int × ChunkInfo) :
    (structuredRecord lib dir e = none ∧ exportedRecord lib dir e = none) ∨
    (∃ raw fin, structuredRecord lib dir e = some raw ∧ exportedRecord lib dir e = some fin ∧
      ∀ c u, Barrier c →
        standardizeJsonEscapes (raw ++ c :: u) = fin ++ c :: standardizeJsonEscapes u) := by
  unfold structuredRecord exportedRecord
  by_cases h0 : e.2.id = 0
  · left; simp [h0]
  · simp only [h0, if_false]
    cases hg : dir.getChunk e.2.fourCC e.2.id with
    | threw => left; exact ⟨rfl, rfl⟩
    | returned oc =>
      cases oc with
      | none => left; exact ⟨rfl, rfl⟩
      | some chunk =>
        simp only
        cases hw : chunk.writeJSON with
        | threw => left; exact ⟨rfl, rfl⟩
        | returned text =>
          simp only
          by_cases hempty : standardizeJsonEscapes text = []
          · left; simp [hempty]
          · right
            simp only [hempty, if_false]
            refine ⟨_, _, rfl, rfl, ?_⟩
            intro c u hc
            have := escapes_record_append (lib.escapeString (lib.fourCCToString e.2.fourCC))
              (to_string e.2.id) text u c hc
            simpa [List.append_assoc] using this

/-- The final pass over the records that follow the first one, each preceded by a comma,
and the closing bracket. -/
theorem escapes_tail_records (lib : CommonLib) (dir : DirectorFile)
    (m : List (Int × ChunkInfo)) :
    standardizeJsonEscapes (((m.filterMap (structuredRecord lib dir)).map
        (fun x => ",".toList ++ x)).flatten ++ "]".toList)
      = ((m.filterMap (exportedRecord lib dir)).map (fun x => ",".toList ++ x)).flatten
          ++ "]".toList ∧
    ∃ c u, Barrier c ∧ ((m.filterMap (structuredRecord lib dir)).map
        (fun x => ",".toList ++ x)).flatten ++ "]".toList = c :: u := by
  induction m with
  | nil =>
    refine ⟨?_, ']', [], by decide, rfl⟩
    show standardizeJsonEscapes "]".toList = "]".toList
    decide
  | cons e m ih =>
    obtain ⟨ih1, c, u, hc, hcu⟩ := ih
    rcases exported_of_structured lib dir e with ⟨h1, h2⟩ | ⟨raw, fin, h1, h2, hP⟩
    · simp only [List.filterMap_cons, h1, h2]
      exact ⟨ih1, c, u, hc, hcu⟩
    · simp only [List.filterMap_cons, h1, h2, List.map_cons, List.flatten_cons]
      refine ⟨?_, ',', _, by decide, by simp [List.append_assoc]; rfl⟩
      have e1 : ",".toList = [','] := rfl
      rw [e1] at ih1 hcu ⊢
      simp only [List.append_assoc, List.cons_append, List.nil_append] at ih1 hcu ⊢
      rw [escapes_cons_plain ',' _ (by decide), hcu, hP c u hc, ← escapes_cons_plain c u hc.1,
        ← hcu, ih1]

/-- The final pass over the whole export. -/
theorem structuredEnvelope_eq (lib : CommonLib) (dir : DirectorFile)
    (m : List (Int × ChunkInfo)) :
    structuredEnvelope (m.filterMap (structuredRecord lib dir))
      = "[".toList ++ List.intercalate ",".toList (m.filterMap (exportedRecord lib dir))
          ++ "]".toList := by
  unfold structuredEnvelope
  have e0 : "[".toList = ['['] := rfl
  rw [e0]
  simp only [List.cons_append, List.nil_append]
  rw [escapes_cons_plain '[' _ (by decide)]
  congr 1
  induction m with
  | nil =>
    show standardizeJsonEscapes "]".toList = "]".toList
    decide
  | cons e m ih =>
    rcases exported_of_structured lib dir e with ⟨h1, h2⟩ | ⟨raw, fin, h1, h2, hP⟩
    · simp only [List.filterMap_cons, h1, h2]
      exact ih
    · simp only [List.filterMap_cons, h1, h2, intercalate_cons_eq, List.append_assoc]
      obtain ⟨ht, c, u, hc, hcu⟩ := escapes_tail_records lib dir m
      rw [hcu, hP c u hc, ← escapes_cons_plain c u hc.1, ← hcu, ht]

/-! ## Structured export: claims -/

/-- C11: the structured export is partial-result.  For every chunk directory the export
succeeds, and its output is the output for the same directory with the entries whose
rendering faults (chunk lookup or writeJSON throws) removed: the records of the remaining
entries in directory order, comma-separated, inside the array envelope. -/
theorem C11_structured_export_partial_result (rt : Runtime) (lib : CommonLib)
    (dir : DirectorFile) (prior : Nat) (hmem : ∀ n, rt.malloc n = true) :
    projectorrays_implemented_dump_json rt lib (some ⟨some dir⟩) (some prior)
      = projectorrays_implemented_dump_json rt lib (some ⟨some (withoutFaulting dir)⟩)
          (some prior) ∧
    (projectorrays_implemented_dump_json rt lib (some ⟨some dir⟩) (some prior)).ret
      = some (bytesOf ("[".toList
          ++ List.intercalate ",".toList
            ((withoutFaulting dir).chunkInfo.filterMap (exportedRecord lib dir))
          ++ "]".toList)) ∧
    (∀ e ∈ (withoutFaulting dir).chunkInfo, e ∈ dir.chunkInfo ∧
      (e.2.id = 0 ∨ renderFaults dir e = false)) ∧
    (∀ e ∈ dir.chunkInfo, e.2.id = 0 ∨ renderFaults dir e = false →
      e ∈ (withoutFaulting dir).chunkInfo) := by
  have hrec : structuredRecord lib (withoutFaulting dir) = structuredRecord lib dir := rfl
  have hfm : (withoutFaulting dir).chunkInfo.filterMap (structuredRecord lib dir)
      = dir.chunkInfo.filterMap (structuredRecord lib dir) := by
    apply filterMap_filter_of_none
    intro e _ he
    simp only [Bool.not_eq_false', Bool.and_eq_true, decide_eq_true_eq] at he
    exact structuredRecord_none_of_faults lib dir e he.2
  refine ⟨?_, ?_, ?_, ?_⟩
  · rw [dump_json_eq rt lib dir prior hmem, dump_json_eq rt lib (withoutFaulting dir) prior hmem,
      hrec, hfm]
  · rw [dump_json_eq rt lib dir prior hmem, ← hfm, structuredEnvelope_eq]
  · intro e he
    have := List.mem_filter.1 he
    refine ⟨this.1, ?_⟩
    have h2 := this.2
    simp only [Bool.not_eq_true', Bool.and_eq_false_iff, decide_eq_false_iff_not, ne_eq,
      not_not] at h2
    exact h2
  · intro e he hok
    apply List.mem_filter.2
    refine ⟨he, ?_⟩
    simp only [Bool.not_eq_true', Bool.and_eq_false_iff, decide_eq_false_iff_not, ne_eq,
      not_not]
    exact hok

/-- Witness for C11: in the sample container the lookup of chunk -2 finds a chunk whose
writeJSON throws; the export equals the export without that entry and holds the single
record of chunk 1, whose vertical-tab escape has been rewritten. -/
theorem C11_structured_export_partial_result_witness :
    projectorrays_implemented_dump_json sampleRuntime sampleLib (some ⟨some sampleDir⟩) (some 77)
      = projectorrays_implemented_dump_json sampleRuntime sampleLib
          (some ⟨some (withoutFaulting sampleDir)⟩) (some 77) ∧
    (projectorrays_implemented_dump_json sampleRuntime sampleLib (some ⟨some sampleDir⟩)
        (some 77)).ret
      = some (bytesOf
          "[\x7b\"fourCC\":\"imap\",\"id\":1,\"data\":\x7b\"n\":\"a\\u000bb\"\x7d\x7d]".toList) ∧
    (withoutFaulting sampleDir).chunkInfo = [(0, ⟨0x52494658, 0⟩), (1, ⟨0x696d6170, 1⟩)] :=
  ⟨(C11_structured_export_partial_result sampleRuntime sampleLib sampleDir 77
      (fun _ => rfl)).1,
    (C11_structured_export_partial_result sampleRuntime sampleLib sampleDir 77
      (fun _ => rfl)).2.1, by decide⟩

/-- C13: on a valid container with no eligible chunk (empty directory, only id-0 entries,
or every eligible entry skipped) the structured export returns a non-null buffer of
length 2 holding the two characters of the empty array. -/
theorem C13_empty_export_is_empty_array (rt : Runtime) (lib : CommonLib) (dir : DirectorFile)
    (prior : Nat) (hmem : rt.malloc 2 = true) :
    ((∀ e ∈ dir.chunkInfo, exportedRecord lib dir e = none) →
      projectorrays_implemented_dump_json rt lib (some ⟨some dir⟩) (some prior)
        = ⟨some (bytesOf ['[', ']']), some 2⟩) ∧
    (dir.chunkInfo = [] →
      projectorrays_implemented_dump_json rt lib (some ⟨some dir⟩) (some prior)
        = ⟨some (bytesOf ['[', ']']), some 2⟩) ∧
    ((∀ e ∈ dir.chunkInfo, e.2.id = 0) →
      projectorrays_implemented_dump_json rt lib (some ⟨some dir⟩) (some prior)
        = ⟨some (bytesOf ['[', ']']), some 2⟩) ∧
    bytesOf ['[', ']'] = [91, 93] := by
  have key : (∀ e ∈ dir.chunkInfo, exportedRecord lib dir e = none) →
      projectorrays_implemented_dump_json rt lib (some ⟨some dir⟩) (some prior)
        = ⟨some (bytesOf ['[', ']']), some 2⟩ := by
    intro hall
    have hnil : dir.chunkInfo.filterMap (structuredRecord lib dir) = [] := by
      rw [List.filterMap_eq_nil_iff]
      intro e he
      rcases exported_of_structured lib dir e with ⟨h1, _⟩ | ⟨_, fin, _, h2, _⟩
      · exact h1
      · rw [hall e he] at h2
        exact absurd h2 (by simp)
    simp only [projectorrays_implemented_dump_json, dumpJsonLoop_eq, if_true, hnil,
      List.intercalate]
    have e : standardizeJsonEscapes ("[".toList ++ (List.intersperse ",".toList []).flatten
        ++ "]".toList) = ['[', ']'] := by decide
    rw [e]
    simp [hmem]
  refine ⟨key, ?_, ?_, by decide⟩
  · intro hnil
    apply key
    rw [hnil]
    intro e he
    exact absurd he (List.not_mem_nil _)
  · intro h0
    apply key
    intro e he
    simp [exportedRecord, h0 e he]

/-- Witness for C13: the directory holding only the id-0 sentinel exports the two bytes
of the empty array. -/
theorem C13_empty_export_is_empty_array_witness :
    projectorrays_implemented_dump_json sampleRuntime sampleLib (some ⟨some sentinelOnlyDir⟩)
      (some 77) = ⟨some [91, 93], some 2⟩ :=
  (C13_empty_export_is_empty_array sampleRuntime sampleLib sentinelOnlyDir 77 rfl).2.2.1
    (by decide)

/-! ## Batch exports without per-item recovery -/

/-- A throwing payload lookup of an eligible entry makes the record loop throw. -/
theorem dumpLoop_threw (dir : DirectorFile) (m : List (Int × ChunkInfo)) (out : List Nat)
    (h : ∃ e ∈ m, e.1 ≠ 0 ∧ dir.getChunkData e.2.fourCC e.1 = .threw) :
    dumpLoop dir m out = .threw := by
  induction m generalizing out with
  | nil =>
    obtain ⟨e, he, _⟩ := h
    exact absurd he (List.not_mem_nil _)
  | cons a m ih =>
    rw [dumpLoop]
    by_cases h0 : a.1 = 0
    · simp only [h0, if_true]
      apply ih
      obtain ⟨e, he, hne, hthrow⟩ := h
      rcases List.mem_cons.1 he with rfl | hm
      · exact absurd h0 hne
      · exact ⟨e, hm, hne, hthrow⟩
    · simp only [h0, if_false]
      cases hg : dir.getChunkData a.2.fourCC a.1 with
      | threw => rfl
      | returned view =>
        simp only
        apply ih
        obtain ⟨e, he, hne, hthrow⟩ := h
        rcases List.mem_cons.1 he with rfl | hm
        · rw [hg] at hthrow
          exact absurd hthrow (by simp)
        · exact ⟨e, hm, hne, hthrow⟩

/-- The compact export returns null as soon as one eligible payload lookup throws. -/
theorem dump_chunks_null_of_fetch_fault (rt : Runtime) (dir : DirectorFile) (prior : Nat)
    (h : ∃ e ∈ dir.chunkInfo, e.1 ≠ 0 ∧ dir.getChunkData e.2.fourCC e.1 = .threw) :
    projectorrays_implemented_dump_chunks rt (some ⟨some dir⟩) (some prior)
      = ⟨none, some 0⟩ := by
  simp only [projectorrays_implemented_dump_chunks, dumpLoop_threw dir _ _ h]

/-- C12 (code evaluated at the failing inputs): with two eligible chunks of which one
payload lookup throws, the compact export returns the null buffer with length 0; with two
scripts of which one source text fails to decompile, the script export returns the null
buffer with length 0.  Neither skips the faulting item. -/
theorem C12_one_fault_aborts_batch_export :
    projectorrays_implemented_dump_chunks sampleRuntime (some ⟨some oneBadChunkDir⟩) (some 77)
      = ⟨none, some 0⟩ ∧
    projectorrays_implemented_dump_scripts sampleRuntime sampleLib
      (some ⟨some oneBadScriptDir⟩) (some 77) = ⟨none, some 0⟩ := by
  decide

/-! ## Script entry points: lemmas -/

theorem getScriptType_eq (dir : DirectorFile) (member : CastMemberChunk) :
    getScriptType dir member = (classification (kindOf member) dir.version).toList := by
  unfold getScriptType kindOf
  cases member.type <;> cases member.scriptType <;> simp [classification]
  split <;> rfl

theorem dumpScriptsType_eq (dir : DirectorFile) (member : CastMemberChunk) :
    dumpScriptsType dir member = (classification (kindOf member) dir.version).toList := by
  unfold dumpScriptsType kindOf
  cases member.type <;> cases member.scriptType <;> simp [classification]
  split <;> rfl

theorem escapes_ne_nil (s : List Char) (h : s ≠ []) : standardizeJsonEscapes s ≠ [] := by
  cases s with
  | nil => exact absurd rfl h
  | cons c r =>
    by_cases hc : c = '\\'
    · subst hc
      rcases escapes_backslash_cases r with ⟨_, _, e⟩ | ⟨_, _, _, _, _, _, e⟩ | ⟨_, e⟩ <;>
        · rw [e]
          exact List.cons_ne_nil _ _
    · rw [escapes_cons_plain c r hc]
      exact List.cons_ne_nil _ _

theorem getScriptJson_eq (dir : DirectorFile) (id : Int) (cast : CastChunk) (script : Script)
    (member : CastMemberChunk) (lingo bytecode : List Char)
    (hl : script.scriptText ['\n'] dir.dotSyntax = .returned lingo)
    (hb : script.bytecodeText ['\n'] dir.dotSyntax = .returned bytecode) :
    getScriptJson dir id cast script member
      = .returned (scriptRecord id member dir.version cast.name lingo bytecode) := by
  simp only [getScriptJson, hl, hb, getScriptType_eq, scriptRecord]

/-- Casts whose table does not hold the id with an owning member are passed over. -/
theorem getScriptLoop_skip (rt : Runtime) (lib : CommonLib) (dir : DirectorFile) (id : Int)
    (pre rest : List CastChunk) (hpre : ∀ c ∈ pre, ownsScript c id = false) :
    getScriptLoop rt lib dir id (pre ++ rest) = getScriptLoop rt lib dir id rest := by
  induction pre with
  | nil => rfl
  | cons c pre ih =>
    have hc := hpre c (List.mem_cons_self _ _)
    have hrest : ∀ d ∈ pre, ownsScript d id = false :=
      fun d hd => hpre d (List.mem_cons_of_mem _ hd)
    rw [List.cons_append, getScriptLoop]
    unfold ownsScript at hc
    cases hl : c.lctx with
    | none => exact ih hrest
    | some scripts =>
      rw [hl] at hc
      simp only at hc ⊢
      cases hs : scripts.lookup id with
      | none => exact ih hrest
      | some script =>
        rw [hs] at hc
        simp only at hc ⊢
        cases hm : script.member with
        | none => exact ih hrest
        | some member => simp [hm] at hc

theorem ownsScript_false_of_absent (cast : CastChunk) (id : Int)
    (h : tableContains cast id = false) : ownsScript cast id = false := by
  unfold tableContains at h
  unfold ownsScript
  cases hl : cast.lctx with
  | none => rfl
  | some scripts =>
    rw [hl] at h
    simp only at h ⊢
    cases hs : scripts.lookup id with
    | none => rfl
    | some script => simp [hs] at h

/-! ## Script entry points: claims -/

/-- C14: for every owning member and container version, both script entry points compute
the classification of the table (score/behavior script: BehaviorScript from version 600
on, ScoreScript below; movie: MovieScript; parent: ParentScript; other script sub-kind:
UnknownScript; non-script member: CastScript), emit it as the scriptType field of the
record they write, and agree with each other. -/
theorem C14_script_classification (dir : DirectorFile) (member : CastMemberChunk) :
    getScriptType dir member = (classification (kindOf member) dir.version).toList ∧
    dumpScriptsType dir member = (classification (kindOf member) dir.version).toList ∧
    getScriptType dir member = dumpScriptsType dir member ∧
    (∀ id cast script json, getScriptJson dir id cast script member = .returned json →
      JsonOp.writeFieldStr "scriptType" (classification (kindOf member) dir.version).toList
        ∈ json) ∧
    (∀ entry json, dumpScriptsJson dir entry member = .returned json →
      JsonOp.writeFieldStr "scriptType" (classification (kindOf member) dir.version).toList
        ∈ json) ∧
    classification .scoreBehavior 599 = "ScoreScript" ∧
    classification .scoreBehavior 600 = "BehaviorScript" ∧
    (∀ v, classification .movie v = "MovieScript" ∧ classification .parent v = "ParentScript" ∧
      classification .otherScript v = "UnknownScript" ∧
      classification .nonScript v = "CastScript") := by
  refine ⟨getScriptType_eq dir member, dumpScriptsType_eq dir member, ?_, ?_, ?_, rfl, rfl,
    fun _ => ⟨rfl, rfl, rfl, rfl⟩⟩
  · rw [getScriptType_eq, dumpScriptsType_eq]
  · intro id cast script json h
    unfold getScriptJson at h
    simp only [getScriptType_eq] at h
    split at h
    · exact absurd h (by simp)
    · split at h
      · exact absurd h (by simp)
      · simp only [Call.returned.injEq] at h
        rw [← h]
        simp
  · intro entry json h
    unfold dumpScriptsJson at h
    simp only [dumpScriptsType_eq] at h
    split at h
    · exact absurd h (by simp)
    · split at h
      · exact absurd h (by simp)
      · simp only [Call.returned.injEq] at h
        rw [← h]
        simp

set_option maxRecDepth 100000 in
/-- C15 (counterexample): in the sample container the first cast whose script table
contains script 5 is `A`, where the script has no owning member; the lookup goes on to the
later cast `C` and returns the record with castName `C`, not one with castName `A`. -/
theorem C15_counterexample_first_table_entry_skipped :
    (sampleCasts.map (fun c => (c.name, tableContains c 5)))
      = [("A".toList, true), ("B".toList, false), ("C".toList, true)] ∧
    projectorrays_get_script sampleRuntime sampleLib (some ⟨some sampleDir⟩) 5 (some 77)
      = ⟨some (bytesOf (standardizeJsonEscapes (sampleLib.jsonStr
          (scriptRecord 5 sampleMember 600 "C".toList "on go".toList "ret".toList)))),
          some 123⟩ ∧
    projectorrays_get_script sampleRuntime sampleLib (some ⟨some sampleDir⟩) 5 (some 77)
      ≠ ⟨some (bytesOf (standardizeJsonEscapes (sampleLib.jsonStr
          (scriptRecord 5 sampleMember 600 "A".toList "on go".toList "ret".toList)))),
          some 123⟩ := by
  decide

/-- C15 (amended): when the casts are `pre`, `cast`, `post` in container order, no cast of
`pre` holds the id with an owning member, and the table of `cast` holds the id with a
script that has an owning member and decompiles, the lookup returns the record built from
`cast`, with the name of `cast` in the castName field, whatever the later casts `post`
are. -/
theorem C15_first_owned_match_wins (rt : Runtime) (lib : CommonLib) (dir : DirectorFile)
    (id : Int) (prior : Nat) (pre post : List CastChunk) (cast : CastChunk)
    (scripts : List (Int × Script)) (script : Script) (member : CastMemberChunk)
    (lingo bytecode : List Char)
    (hparse : dir.parseScripts = .returned (pre ++ cast :: post))
    (hpre : ∀ c ∈ pre, ownsScript c id = false)
    (hl : cast.lctx = some scripts) (hs : scripts.lookup id = some script)
    (hm : script.member = some member)
    (hlingo : script.scriptText ['\n'] dir.dotSyntax = .returned lingo)
    (hbyte : script.bytecodeText ['\n'] dir.dotSyntax = .returned bytecode)
    (hne : lib.jsonStr (scriptRecord id member dir.version cast.name lingo bytecode) ≠ [])
    (hmem : ∀ n, rt.malloc n = true) :
    projectorrays_get_script rt lib (some ⟨some dir⟩) id (some prior)
      = ⟨some (bytesOf (standardizeJsonEscapes (lib.jsonStr
            (scriptRecord id member dir.version cast.name lingo bytecode)))),
          some (standardizeJsonEscapes (lib.jsonStr
            (scriptRecord id member dir.version cast.name lingo bytecode))).length⟩ ∧
    JsonOp.writeFieldStr "castName" cast.name
      ∈ scriptRecord id member dir.version cast.name lingo bytecode := by
  refine ⟨?_, by simp [scriptRecord]⟩
  have hout := escapes_ne_nil _ hne
  have hemp : (standardizeJsonEscapes (lib.jsonStr
      (scriptRecord id member dir.version cast.name lingo bytecode))).isEmpty = false := by
    cases hx : standardizeJsonEscapes (lib.jsonStr
      (scriptRecord id member dir.version cast.name lingo bytecode)) with
    | nil => exact absurd hx hout
    | cons a l => rfl
  simp only [projectorrays_get_script, hparse]
  rw [getScriptLoop_skip rt lib dir id pre (cast :: post) hpre, getScriptLoop]
  simp only [hl, hs, hm, getScriptJson_eq dir id cast script member lingo bytecode hlingo hbyte,
    hemp, hmem, Bool.false_eq_true, if_false, Bool.not_true]

/-- Witness for C15 (amended): in the sample container the casts `A` and `B` are passed
over and the record of script 5 is built from cast `C`. -/
theorem C15_first_owned_match_wins_witness :
    projectorrays_get_script sampleRuntime sampleLib (some ⟨some sampleDir⟩) 5 (some 77)
      = ⟨some (bytesOf (standardizeJsonEscapes (sampleLib.jsonStr
            (scriptRecord 5 sampleMember sampleDir.version "C".toList "on go".toList
              "ret".toList)))),
          some (standardizeJsonEscapes (sampleLib.jsonStr
            (scriptRecord 5 sampleMember sampleDir.version "C".toList "on go".toList
              "ret".toList))).length⟩ :=
  (C15_first_owned_match_wins sampleRuntime sampleLib sampleDir 5 77
    [⟨"A".toList, some [(5, orphanScript)]⟩, ⟨"B".toList, none⟩] []
    ⟨"C".toList, some [(5, sampleScript)]⟩ [(5, sampleScript)] sampleScript sampleMember
    "on go".toList "ret".toList rfl (by decide) rfl rfl rfl rfl rfl (by decide)
    (fun _ => rfl)).1

/-- C16: on a valid container, a script id that is in no cast's script table (also when
there are no casts, or no cast has a script table) gives a null buffer with reported
length 0. -/
theorem C16_absent_script_is_null (rt : Runtime) (lib : CommonLib) (dir : DirectorFile)
    (id : Int) (prior : Nat)
    (habsent : ∀ casts, dir.parseScripts = .returned casts →
      ∀ c ∈ casts, tableContains c id = false) :
    projectorrays_get_script rt lib (some ⟨some dir⟩) id (some prior) = ⟨none, some 0⟩ := by
  simp only [projectorrays_get_script]
  cases hp : dir.parseScripts with
  | threw => rfl
  | returned casts =>
    simp only
    have h := getScriptLoop_skip rt lib dir id casts []
      (fun c hc => ownsScript_false_of_absent c id (habsent casts hp c hc))
    rw [List.append_nil] at h
    rw [h]
    rfl

/-- Witness for C16: script 6 is in no script table of the sample container. -/
theorem C16_absent_script_is_null_witness :
    projectorrays_get_script sampleRuntime sampleLib (some ⟨some sampleDir⟩) 6 (some 77)
      = ⟨none, some 0⟩ :=
  C16_absent_script_is_null sampleRuntime sampleLib sampleDir 6 77 (by
    intro casts h
    simp only [sampleDir, Call.returned.injEq] at h
    rw [← h]
    decide)

/-! ## Handle creation and queries: claims -/

/-- C17: create returns the zero handle when the input pointer is null, when the input
size is 0, when the parser rejects the bytes and when the parser faults; a non-zero handle
is returned only for a non-null input of non-zero size that the parser accepted, and the
container of that handle is non-null. -/
theorem C17_create_handle (read : List Nat → Call (Option DirectorFile)) :
    (∀ n, projectorrays_read read none n = none) ∧
    (∀ bytes, projectorrays_read read (some bytes) 0 = none) ∧
    (∀ bytes n, read (bytes.take n) = .returned none →
      projectorrays_read read (some bytes) n = none) ∧
    (∀ bytes n, read (bytes.take n) = .threw →
      projectorrays_read read (some bytes) n = none) ∧
    (∀ input n handle, projectorrays_read read input n = some handle →
      ∃ bytes dir, input = some bytes ∧ n ≠ 0 ∧
        read (bytes.take n) = .returned (some dir) ∧ handle.dir = some dir) := by
  refine ⟨fun _ => rfl, fun _ => rfl, ?_, ?_, ?_⟩
  · intro bytes n h
    by_cases hn : n = 0 <;> simp [projectorrays_read, hn, h]
  · intro bytes n h
    by_cases hn : n = 0 <;> simp [projectorrays_read, hn, h]
  · intro input n handle h
    cases input with
    | none => simp [projectorrays_read] at h
    | some bytes =>
      by_cases hn : n = 0
      · simp [projectorrays_read, hn] at h
      · simp only [projectorrays_read, hn, if_false] at h
        cases hr : read (bytes.take n) with
        | threw => simp [hr] at h
        | returned od =>
          cases od with
          | none => simp [hr] at h
          | some dir =>
            simp only [hr, Option.some.injEq] at h
            exact ⟨bytes, dir, rfl, hn, hr, by rw [← h]⟩

/-- C18: the three queries return 0 for the zero handle, for a handle whose container is
null, and when the collaborator query throws; otherwise exists and isContainerLibrary
return 1 or 0 according to the collaborator's boolean answer. -/
theorem C18_queries_return_sentinel :
    (∀ fourCC id, projectorrays_chunk_exists none fourCC id = 0) ∧
    projectorrays_is_cast none = 0 ∧ projectorrays_size none = 0 ∧
    (∀ fourCC id, projectorrays_chunk_exists (some ⟨none⟩) fourCC id = 0) ∧
    projectorrays_is_cast (some ⟨none⟩) = 0 ∧ projectorrays_size (some ⟨none⟩) = 0 ∧
    (∀ dir fourCC id, dir.chunkExists fourCC id = .threw →
      projectorrays_chunk_exists (some ⟨some dir⟩) fourCC id = 0) ∧
    (∀ dir, dir.isCast = .threw → projectorrays_is_cast (some ⟨some dir⟩) = 0) ∧
    (∀ dir, dir.sizeQuery = .threw → projectorrays_size (some ⟨some dir⟩) = 0) ∧
    (∀ dir fourCC id b, dir.chunkExists fourCC id = .returned b →
      projectorrays_chunk_exists (some ⟨some dir⟩) fourCC id = if b then 1 else 0) ∧
    (∀ dir b, dir.isCast = .returned b →
      projectorrays_is_cast (some ⟨some dir⟩) = if b then 1 else 0) := by
  refine ⟨fun _ _ => rfl, rfl, rfl, fun _ _ => rfl, rfl, rfl, ?_, ?_, ?_, ?_, ?_⟩
  · intro dir fourCC id h
    simp [projectorrays_chunk_exists, h]
  · intro dir h
    simp [projectorrays_is_cast, h]
  · intro dir h
    simp [projectorrays_size, h]
  · intro dir fourCC id b h
    simp [projectorrays_chunk_exists, h]
  · intro dir b h
    simp [projectorrays_is_cast, h]

/-! ## Byte-order shim: lemmas -/

theorem and_ff (x : Nat) : x &&& 0xff = x % 256 :=
  Nat.and_pow_two_sub_one_eq_mod x 8

theorem or_shift_eq_add (a b k : Nat) (ha : a < 2 ^ k) : a ||| (b <<< k) = a + b * 2 ^ k := by
  rw [Nat.shiftLeft_eq, Nat.or_comm, Nat.mul_comm, ← Nat.mul_add_lt_is_or ha, Nat.add_comm,
    Nat.mul_comm]

/-- Eight bytes combined with `|` and shifts, least significant first, add up. -/
theorem or_bytes8 (a0 a1 a2 a3 a4 a5 a6 a7 : Nat) (h0 : a0 < 256) (h1 : a1 < 256)
    (h2 : a2 < 256) (h3 : a3 < 256) (h4 : a4 < 256) (h5 : a5 < 256) (h6 : a6 < 256) :
    (a0 ||| (a1 <<< 8) ||| (a2 <<< 16) ||| (a3 <<< 24) ||| (a4 <<< 32) ||| (a5 <<< 40)
      ||| (a6 <<< 48) ||| (a7 <<< 56))
      = a0 + a1 * 2 ^ 8 + a2 * 2 ^ 16 + a3 * 2 ^ 24 + a4 * 2 ^ 32 + a5 * 2 ^ 40 + a6 * 2 ^ 48
        + a7 * 2 ^ 56 := by
  rw [or_shift_eq_add a0 a1 8 (by omega), or_shift_eq_add _ a2 16 (by omega),
    or_shift_eq_add _ a3 24 (by omega), or_shift_eq_add _ a4 32 (by omega),
    or_shift_eq_add _ a5 40 (by omega), or_shift_eq_add _ a6 48 (by omega),
    or_shift_eq_add _ a7 56 (by omega)]

theorem or_bytes2 (a0 a1 : Nat) (h0 : a0 < 256) : (a0 ||| (a1 <<< 8)) = a0 + a1 * 2 ^ 8 :=
  or_shift_eq_add a0 a1 8 (by omega)

theorem or_bytes4 (a0 a1 a2 a3 : Nat) (h0 : a0 < 256) (h1 : a1 < 256) (h2 : a2 < 256) :
    (a0 ||| (a1 <<< 8) ||| (a2 <<< 16) ||| (a3 <<< 24))
      = a0 + a1 * 2 ^ 8 + a2 * 2 ^ 16 + a3 * 2 ^ 24 := by
  rw [or_shift_eq_add a0 a1 8 (by omega), or_shift_eq_add _ a2 16 (by omega),
    or_shift_eq_add _ a3 24 (by omega)]

theorem or_reverse4 (a b c d : Nat) : (a ||| b ||| c ||| d) = (d ||| c ||| b ||| a) := by
  rw [Nat.or_comm (a ||| b ||| c) d, Nat.or_comm (a ||| b) c, Nat.or_comm a b,
    ← Nat.or_assoc, ← Nat.or_assoc]

theorem or_reverse8 (a0 a1 a2 a3 a4 a5 a6 a7 : Nat) :
    (a0 ||| a1 ||| a2 ||| a3 ||| a4 ||| a5 ||| a6 ||| a7)
      = (a7 ||| a6 ||| a5 ||| a4 ||| a3 ||| a2 ||| a1 ||| a0) := by
  rw [Nat.or_comm (a0 ||| a1 ||| a2 ||| a3 ||| a4 ||| a5 ||| a6) a7,
    Nat.or_comm (a0 ||| a1 ||| a2 ||| a3 ||| a4 ||| a5) a6,
    Nat.or_comm (a0 ||| a1 ||| a2 ||| a3 ||| a4) a5, Nat.or_comm (a0 ||| a1 ||| a2 ||| a3) a4,
    Nat.or_comm (a0 ||| a1 ||| a2) a3, Nat.or_comm (a0 ||| a1) a2, Nat.or_comm a0 a1,
    ← Nat.or_assoc, ← Nat.or_assoc, ← Nat.or_assoc, ← Nat.or_assoc, ← Nat.or_assoc,
    ← Nat.or_assoc]

theorem load_store_little_u16 (v : Nat) (h : v < 2 ^ 16) :
    load_little_u16 (store_little_u16 v) = v := by
  simp only [load_little_u16, store_little_u16, List.getD_cons_zero, List.getD_cons_succ, and_ff,
    Nat.shiftRight_eq_div_pow]
  have e1 : v % 256 % 2 ^ 16 = v % 256 := Nat.mod_eq_of_lt (by omega)
  have e2 : ((v / 2 ^ 8 % 256) <<< 8) % 2 ^ 16 = (v / 2 ^ 8 % 256) <<< 8 := by
    apply Nat.mod_eq_of_lt
    rw [Nat.shiftLeft_eq]
    omega
  rw [e1, e2, or_bytes2 _ _ (Nat.mod_lt _ (by norm_num))]
  omega

theorem load_store_big_u16 (v : Nat) (h : v < 2 ^ 16) :
    load_big_u16 (store_big_u16 v) = v := by
  simp only [load_big_u16, store_big_u16, List.getD_cons_zero, List.getD_cons_succ, and_ff,
    Nat.shiftRight_eq_div_pow]
  have e1 : v % 256 % 2 ^ 16 = v % 256 := Nat.mod_eq_of_lt (by omega)
  have e2 : ((v / 2 ^ 8 % 256) <<< 8) % 2 ^ 16 = (v / 2 ^ 8 % 256) <<< 8 := by
    apply Nat.mod_eq_of_lt
    rw [Nat.shiftLeft_eq]
    omega
  rw [e1, e2, Nat.or_comm, or_bytes2 _ _ (Nat.mod_lt _ (by norm_num))]
  omega

theorem load_store_little_u32 (v : Nat) (h : v < 2 ^ 32) :
    load_little_u32 (store_little_u32 v) = v := by
  simp only [load_little_u32, store_little_u32, List.getD_cons_zero, List.getD_cons_succ, and_ff,
    Nat.shiftRight_eq_div_pow]
  rw [or_bytes4 _ _ _ _ (Nat.mod_lt _ (by norm_num)) (Nat.mod_lt _ (by norm_num))
    (Nat.mod_lt _ (by norm_num))]
  omega

theorem load_store_big_u32 (v : Nat) (h : v < 2 ^ 32) :
    load_big_u32 (store_big_u32 v) = v := by
  simp only [load_big_u32, store_big_u32, List.getD_cons_zero, List.getD_cons_succ, and_ff,
    Nat.shiftRight_eq_div_pow]
  rw [or_reverse4, or_bytes4 _ _ _ _ (Nat.mod_lt _ (by norm_num)) (Nat.mod_lt _ (by norm_num))
    (Nat.mod_lt _ (by norm_num))]
  omega

theorem load_store_little_u64 (v : Nat) (h : v < 2 ^ 64) :
    load_little_u64 (store_little_u64 v) = v := by
  simp only [load_little_u64, store_little_u64, List.getD_cons_zero, List.getD_cons_succ, and_ff,
    Nat.shiftRight_eq_div_pow]
  rw [or_bytes8 _ _ _ _ _ _ _ _ (Nat.mod_lt _ (by norm_num)) (Nat.mod_lt _ (by norm_num))
    (Nat.mod_lt _ (by norm_num)) (Nat.mod_lt _ (by norm_num)) (Nat.mod_lt _ (by norm_num))
    (Nat.mod_lt _ (by norm_num)) (Nat.mod_lt _ (by norm_num))]
  omega

theorem load_store_big_u64 (v : Nat) (h : v < 2 ^ 64) :
    load_big_u64 (store_big_u64 v) = v := by
  simp only [load_big_u64, store_big_u64, List.getD_cons_zero, List.getD_cons_succ, and_ff,
    Nat.shiftRight_eq_div_pow]
  rw [or_reverse8, or_bytes8 _ _ _ _ _ _ _ _ (Nat.mod_lt _ (by norm_num)) (Nat.mod_lt _ (by norm_num))
    (Nat.mod_lt _ (by norm_num)) (Nat.mod_lt _ (by norm_num)) (Nat.mod_lt _ (by norm_num))
    (Nat.mod_lt _ (by norm_num)) (Nat.mod_lt _ (by norm_num))]
  omega

/-! ## Byte-order shim: claim -/

/-- C21: for the widths 16, 32 and 64 and both byte orders, loading the bytes a store
wrote gives back the stored value, for every unsigned value of that width, and the bytes
written by the big-endian store are the bytes of the little-endian store in reverse
order. -/
theorem C21_byte_order_round_trip (a b c : Nat) (ha : a < 2 ^ 16) (hb : b < 2 ^ 32)
    (hc : c < 2 ^ 64) :
    load_little_u16 (store_little_u16 a) = a ∧ load_big_u16 (store_big_u16 a) = a ∧
    load_little_u32 (store_little_u32 b) = b ∧ load_big_u32 (store_big_u32 b) = b ∧
    load_little_u64 (store_little_u64 c) = c ∧ load_big_u64 (store_big_u64 c) = c ∧
    store_big_u16 a = (store_little_u16 a).reverse ∧
    store_big_u32 b = (store_little_u32 b).reverse ∧
    store_big_u64 c = (store_little_u64 c).reverse :=
  ⟨load_store_little_u16 a ha, load_store_big_u16 a ha, load_store_little_u32 b hb,
    load_store_big_u32 b hb, load_store_little_u64 c hc, load_store_big_u64 c hc, rfl, rfl, rfl⟩

/-- Witness for C21: the values BEEF, DEADBEEF and 0123456789ABCDEF (hexadecimal). -/
theorem C21_byte_order_round_trip_witness :
    store_little_u16 0xBEEF = [0xEF, 0xBE] ∧
    store_big_u32 0xDEADBEEF = [0xDE, 0xAD, 0xBE, 0xEF] ∧
    load_little_u16 (store_little_u16 0xBEEF) = 0xBEEF ∧
    load_big_u32 (store_big_u32 0xDEADBEEF) = 0xDEADBEEF ∧
    load_big_u64 (store_big_u64 0x0123456789ABCDEF) = 0x0123456789ABCDEF ∧
    store_big_u64 0x0123456789ABCDEF = (store_little_u64 0x0123456789ABCDEF).reverse :=
  have h := C21_byte_order_round_trip 0xBEEF 0xDEADBEEF 0x0123456789ABCDEF (by norm_num)
    (by norm_num) (by norm_num)
  ⟨by decide, by decide, h.1, h.2.2.2.1, h.2.2.2.2.2.1, h.2.2.2.2.2.2.2.2⟩

/-! ## Format shim: lemmas -/

theorem formatLoop_skip (args : List (List Char)) (k : Nat) (l : List Char) (argIndex : Nat) :
    formatLoop args l k argIndex = formatLoop args (l.drop k) 0 argIndex := by
  induction k generalizing l with
  | zero => rfl
  | succ k ih =>
    cases l with
    | nil => rfl
    | cons c l => rw [formatLoop, ih]; rfl

theorem takeArg_fst (args : List (List Char)) (argIndex : Nat) :
    (takeArg args argIndex).1 = (args.drop argIndex).headD [] := by
  induction args generalizing argIndex with
  | nil => simp [takeArg]
  | cons a args ih =>
    cases argIndex with
    | zero => simp [takeArg]
    | succ n =>
      have hn := ih n
      unfold takeArg at hn ⊢
      simp only [List.length_cons, Nat.add_lt_add_iff_right, List.getD_cons_succ,
        List.drop_succ_cons]
      by_cases h : n < args.length
      · simp only [h, if_true] at hn ⊢
        exact hn
      · simp only [h, if_false] at hn ⊢
        exact hn

theorem takeArg_snd (args : List (List Char)) (argIndex : Nat) :
    args.drop (takeArg args argIndex).2 = (args.drop argIndex).tail := by
  unfold takeArg
  by_cases h : argIndex < args.length
  · simp only [h, if_true]
    rw [List.tail_drop]
  · simp only [h, if_false]
    rw [List.drop_eq_nil_of_le (by omega)]
    rfl

theorem drop_skipDigits (rest : List Char) :
    rest.drop (skipDigits rest) = rest.dropWhile isDigitChar := by
  induction rest with
  | nil => rfl
  | cons c r ih =>
    by_cases h : isDigitChar c = true
    · simp [skipDigits, h, List.dropWhile_cons, ih]
    · simp [skipDigits, h, List.dropWhile_cons]

theorem drop_skipToLetter (rest : List Char) :
    rest.drop (skipToLetter rest) = rest.dropWhile (fun c => !isLetterChar c) := by
  induction rest with
  | nil => rfl
  | cons c r ih =>
    by_cases h : isLetterChar c = true
    · simp [skipToLetter, h, List.dropWhile_cons]
    · simp [skipToLetter, h, List.dropWhile_cons, ih]

theorem get?_eq_head?_drop (l : List Char) (n : Nat) : l.get? n = (l.drop n).head? := by
  induction l generalizing n with
  | nil => simp
  | cons a l ih =>
    cases n with
    | zero => rfl
    | succ n => simp [ih n]

theorem drop_succ_eq_tail_drop (l : List Char) (n : Nat) : l.drop (n + 1) = (l.drop n).tail := by
  rw [List.tail_drop]

theorem isLetterChar_of_digit (c : Char) (h : isDigitChar c = true) : isLetterChar c = false := by
  have hc : 48 ≤ c.toNat ∧ c.toNat ≤ 57 := by
    simp only [isDigitChar, Bool.and_eq_true, decide_eq_true_eq] at h
    simp only [Char.le_def, UInt32.le_def, Fin.le_def] at h
    exact h
  cases hl : isLetterChar c with
  | false => rfl
  | true =>
    exfalso
    simp only [isLetterChar, Bool.or_eq_true, Bool.and_eq_true, decide_eq_true_eq] at hl
    simp only [Char.le_def, UInt32.le_def, Fin.le_def] at hl
    have hl2 : (65 ≤ c.toNat ∧ c.toNat ≤ 90) ∨ (97 ≤ c.toNat ∧ c.toNat ≤ 122) := hl
    omega

theorem dropWhile_letter_dropWhile_digit (rest : List Char) :
    (rest.dropWhile isDigitChar).dropWhile (fun c => !isLetterChar c)
      = rest.dropWhile (fun c => !isLetterChar c) := by
  induction rest with
  | nil => rfl
  | cons c r ih =>
    by_cases h : isDigitChar c = true
    · simp [List.dropWhile_cons, h, isLetterChar_of_digit c h, ih]
    · simp [List.dropWhile_cons, h]

theorem length_printfRest_le (rest : List Char) : (printfRest rest).length ≤ rest.length := by
  unfold printfRest
  have h1 : (rest.dropWhile (fun c => !isLetterChar c)).length ≤ rest.length :=
    List.Sublist.length_le (List.dropWhile_sublist _)
  rw [List.length_tail]
  omega

theorem length_dropWhile_digit_tail_le (rest : List Char) :
    ((rest.dropWhile isDigitChar).tail).length ≤ rest.length := by
  have h1 : (rest.dropWhile isDigitChar).length ≤ rest.length :=
    List.Sublist.length_le (List.dropWhile_sublist _)
  rw [List.length_tail]
  omega

theorem takeWhile_ne_nil_iff_head (rest : List Char) :
    rest.takeWhile isDigitChar ≠ [] ↔ (rest.head?.map isDigitChar) = some true := by
  cases rest with
  | nil => simp
  | cons c r =>
    by_cases h : isDigitChar c = true <;> simp [List.takeWhile_cons, h]

theorem substitute_nil (n : Nat) (args : List (List Char)) : substitute n [] args = [] := by
  cases n <;> rfl

theorem formatStep_plain (c : Char) (rest : List Char) (args : List (List Char)) (ai : Nat)
    (hc : c ≠ '%') : formatStep c rest args ai = ([c], 0, ai) := by
  simp [formatStep, hc]

theorem formatStep_percent (rest : List Char) (args : List (List Char)) (ai : Nat)
    (h : rest.head? = some '%') : formatStep '%' rest args ai = (['%'], 1, ai) := by
  simp [formatStep, h]

/-- At a percent sign that starts a positional directive the step appends the next
argument and moves behind the closing percent sign. -/
theorem formatStep_positional (rest rest1 : List Char) (args : List (List Char)) (ai : Nat)
    (h : rest.head? ≠ some '%') (hp : positionalRest rest = some rest1) :
    (formatStep '%' rest args ai).1 = (takeArg args ai).1 ∧
    (formatStep '%' rest args ai).2.2 = (takeArg args ai).2 ∧
    rest.drop (formatStep '%' rest args ai).2.1 = rest1 := by
  unfold positionalRest at hp
  split at hp
  · rename_i hcond
    simp only [Option.some.injEq] at hp
    have hdig := (takeWhile_ne_nil_iff_head rest).1 hcond.1
    have hget : rest.get? (0 + skipDigits rest) = some '%' := by
      rw [Nat.zero_add, get?_eq_head?_drop, drop_skipDigits]
      exact hcond.2
    simp only [formatStep, ne_eq, not_true_eq_false, if_false, h, hdig, if_true, hget]
    refine ⟨trivial, trivial, ?_⟩
    rw [Nat.zero_add, drop_succ_eq_tail_drop, drop_skipDigits]
    exact hp
  · exact absurd hp (by simp)

/-- At a percent sign that starts no positional directive the step appends the next
argument and moves behind the first letter, or to the end when no letter follows. -/
theorem formatStep_printf (rest : List Char) (args : List (List Char)) (ai : Nat)
    (h : rest.head? ≠ some '%') (hp : positionalRest rest = none) :
    (formatStep '%' rest args ai).1 = (takeArg args ai).1 ∧
    (formatStep '%' rest args ai).2.2 = (takeArg args ai).2 ∧
    rest.drop (formatStep '%' rest args ai).2.1 = printfRest rest := by
  unfold positionalRest at hp
  split at hp
  · exact absurd hp (by simp)
  · rename_i hcond
    by_cases hdig : (rest.head?.map isDigitChar) = some true
    · have hne := (takeWhile_ne_nil_iff_head rest).2 hdig
      have hget : ¬ rest.get? (0 + skipDigits rest) = some '%' := by
        rw [Nat.zero_add, get?_eq_head?_drop, drop_skipDigits]
        exact fun hx => hcond ⟨hne, hx⟩
      simp only [formatStep, ne_eq, not_true_eq_false, if_false, h, hdig, if_true, hget]
      refine ⟨trivial, trivial, ?_⟩
      rw [Nat.zero_add, drop_succ_eq_tail_drop, ← List.drop_drop, drop_skipDigits,
        drop_skipToLetter, dropWhile_letter_dropWhile_digit]
      rfl
    · simp only [formatStep, ne_eq, not_true_eq_false, if_false, h, hdig]
      refine ⟨trivial, trivial, ?_⟩
      rw [Nat.zero_add, List.drop_zero, drop_succ_eq_tail_drop, drop_skipToLetter]
      rfl

/-- The loop of `str` started at any argument index computes the described substitution on
the arguments not yet used. -/
theorem formatLoop_eq_substitute (args : List (List Char)) (n : Nat) :
    ∀ (fmt : List Char) (ai : Nat), fmt.length ≤ n →
      formatLoop args fmt 0 ai = substitute n fmt (args.drop ai) := by
  induction n with
  | zero =>
    intro fmt ai h
    have : fmt = [] := List.length_eq_zero.1 (by omega)
    rw [this]
    rfl
  | succ m ih =>
    intro fmt ai h
    cases fmt with
    | nil => rfl
    | cons c rest =>
      have hlen : rest.length ≤ m := by simp at h; omega
      rw [formatLoop, formatLoop_skip, substitute]
      by_cases hc : c = '%'
      · subst hc
        simp only [ne_eq, not_true_eq_false, if_false]
        by_cases hh : rest.head? = some '%'
        · simp only [hh, if_true, formatStep_percent rest args ai hh]
          rw [ih _ _ (by rw [List.drop_one, List.length_tail]; omega), List.drop_one]
          rfl
        · simp only [hh, if_false]
          cases hp : positionalRest rest with
          | some rest1 =>
            obtain ⟨e1, e2, e3⟩ := formatStep_positional rest rest1 args ai hh hp
            have hl1 : rest1.length ≤ m := by
              unfold positionalRest at hp
              split at hp
              · simp only [Option.some.injEq] at hp
                rw [← hp]
                exact Nat.le_trans (length_dropWhile_digit_tail_le rest) hlen
              · exact absurd hp (by simp)
            simp only
            rw [e1, e2, e3, ih rest1 _ hl1, takeArg_fst, takeArg_snd]
          | none =>
            obtain ⟨e1, e2, e3⟩ := formatStep_printf rest args ai hh hp
            have hl1 : (printfRest rest).length ≤ m :=
              Nat.le_trans (length_printfRest_le rest) hlen
            simp only
            rw [e1, e2, e3, ih _ _ hl1, takeArg_fst, takeArg_snd]
      · simp only [formatStep_plain c rest args ai hc, ne_eq, hc, not_false_eq_true, if_true,
          List.drop_zero]
        rw [ih rest ai hlen]
        rfl

theorem format_str_eq_substituted (fmt : List Char) (args : List (List Char)) :
    format_str fmt args = substituted fmt args := by
  unfold format_str substituted
  rw [formatLoop_eq_substitute args fmt.length fmt 0 (Nat.le_refl _)]
  rfl

theorem substitute_plain (n : Nat) (fmt : List Char) (args : List (List Char))
    (h : '%' ∉ fmt) (hn : fmt.length ≤ n) : substitute n fmt args = fmt := by
  induction n generalizing fmt with
  | zero =>
    have : fmt = [] := List.length_eq_zero.1 (by omega)
    rw [this]; rfl
  | succ m ih =>
    cases fmt with
    | nil => rfl
    | cons c rest =>
      have hc : c ≠ '%' := fun e => h (by simp [e])
      have hr : '%' ∉ rest := fun e => h (by simp [e])
      rw [substitute]
      simp only [ne_eq, hc, not_false_eq_true, if_true]
      rw [ih rest hr (by simp at hn; omega)]

/-- The loop started at argument index `ai` behaves as `str` on the arguments from `ai`
on. -/
theorem formatLoop_eq_format_str (args : List (List Char)) (fmt : List Char) (ai : Nat) :
    formatLoop args fmt 0 ai = format_str fmt (args.drop ai) := by
  unfold format_str
  rw [formatLoop_eq_substitute args fmt.length fmt ai (Nat.le_refl _),
    formatLoop_eq_substitute (args.drop ai) fmt.length fmt 0 (Nat.le_refl _), List.drop_zero]

theorem substitute_eq_format_str (n : Nat) (fmt : List Char) (args : List (List Char))
    (h : fmt.length ≤ n) : substitute n fmt args = format_str fmt args := by
  unfold format_str
  rw [formatLoop_eq_substitute args n fmt 0 h, List.drop_zero]

/-- One step of `str` at the head of the format. -/
theorem format_str_cons (c : Char) (rest : List Char) (args : List (List Char)) :
    format_str (c :: rest) args =
      if c ≠ '%' then c :: format_str rest args
      else if rest.head? = some '%' then '%' :: format_str rest.tail args
      else
        match positionalRest rest with
        | some rest1 => args.headD [] ++ format_str rest1 args.tail
        | none => args.headD [] ++ format_str (printfRest rest) args.tail := by
  rw [← substitute_eq_format_str (rest.length + 1) (c :: rest) args (by simp), substitute]
  by_cases hc : c = '%'
  · subst hc
    simp only [ne_eq, not_true_eq_false, if_false]
    by_cases hh : rest.head? = some '%'
    · simp only [hh, if_true]
      rw [substitute_eq_format_str _ _ _ (by rw [List.length_tail]; omega)]
    · simp only [hh, if_false]
      cases hp : positionalRest rest with
      | some rest1 =>
        simp only
        have hl1 : rest1.length ≤ rest.length := by
          unfold positionalRest at hp
          split at hp
          · simp only [Option.some.injEq] at hp
            rw [← hp]
            exact length_dropWhile_digit_tail_le rest
          · exact absurd hp (by simp)
        rw [substitute_eq_format_str _ _ _ hl1]
      | none =>
        simp only
        rw [substitute_eq_format_str _ _ _ (length_printfRest_le rest)]
  · simp only [ne_eq, hc, not_false_eq_true, if_true]
    rw [substitute_eq_format_str _ _ _ (Nat.le_refl _)]

theorem isDigitChar_ne_percent (c : Char) (h : isDigitChar c = true) : c ≠ '%' := by
  intro hc
  subst hc
  exact absurd h (by decide)

theorem isLetterChar_ne_percent (c : Char) (h : isLetterChar c = true) : c ≠ '%' := by
  intro hc
  subst hc
  exact absurd h (by decide)

theorem dropWhile_digit_append (ds rest : List Char) (hds : ∀ d ∈ ds, isDigitChar d = true)
    (hr : (rest.head?.map isDigitChar) ≠ some true) :
    (ds ++ rest).dropWhile isDigitChar = rest ∧
    ((ds ++ rest).takeWhile isDigitChar ≠ [] ↔ ds ≠ []) := by
  induction ds with
  | nil =>
    cases rest with
    | nil => simp
    | cons c r =>
      have hc : isDigitChar c = false := by
        cases h : isDigitChar c with
        | false => rfl
        | true => simp [h] at hr
      simp [List.dropWhile_cons, List.takeWhile_cons, hc]
  | cons d ds ih =>
    have hd := hds d (List.mem_cons_self _ _)
    have ih2 := ih (fun x hx => hds x (List.mem_cons_of_mem _ hx))
    simp [List.dropWhile_cons, List.takeWhile_cons, hd, ih2.1]

theorem dropWhile_letter_append (p rest : List Char) (l : Char)
    (hp : ∀ c ∈ p, isLetterChar c = false) (hl : isLetterChar l = true) :
    (p ++ l :: rest).dropWhile (fun c => !isLetterChar c) = l :: rest := by
  induction p with
  | nil => simp [List.dropWhile_cons, hl]
  | cons c p ih =>
    have hc := hp c (List.mem_cons_self _ _)
    simp [List.dropWhile_cons, hc, ih (fun x hx => hp x (List.mem_cons_of_mem _ hx))]

theorem dropWhile_letter_none (p : List Char) (hp : ∀ c ∈ p, isLetterChar c = false) :
    p.dropWhile (fun c => !isLetterChar c) = [] := by
  induction p with
  | nil => rfl
  | cons c p ih =>
    have hc := hp c (List.mem_cons_self _ _)
    simp [List.dropWhile_cons, hc, ih (fun x hx => hp x (List.mem_cons_of_mem _ hx))]

theorem head?_append_ne_percent (ds more : List Char)
    (hds : ∀ d ∈ ds, isDigitChar d = true) (hm : more.head? ≠ some '%') :
    (ds ++ more).head? ≠ some '%' := by
  cases ds with
  | nil => simpa using hm
  | cons d ds =>
    have hd := isDigitChar_ne_percent d (hds d (List.mem_cons_self _ _))
    simpa using hd

/-- A positional directive: one or more digits between two percent signs. -/
theorem format_str_positional (ds rest : List Char) (args : List (List Char))
    (hne : ds ≠ []) (hds : ∀ d ∈ ds, isDigitChar d = true) :
    format_str ('%' :: (ds ++ '%' :: rest)) args
      = args.headD [] ++ format_str rest args.tail := by
  have hdw := dropWhile_digit_append ds ('%' :: rest) hds (by
    intro hx
    simp only [List.head?_cons, Option.map_some', Option.some.injEq] at hx
    exact absurd hx (by decide))
  have hhead : (ds ++ '%' :: rest).head? ≠ some '%' := by
    cases ds with
    | nil => exact absurd rfl hne
    | cons d ds =>
      have hd := isDigitChar_ne_percent d (hds d (List.mem_cons_self _ _))
      simpa using hd
  have hpos : positionalRest (ds ++ '%' :: rest) = some rest := by
    unfold positionalRest
    rw [hdw.1]
    simp [hdw.2.2 hne]
  rw [format_str_cons]
  simp only [ne_eq, not_true_eq_false, if_false, hhead, hpos]

theorem positionalRest_none_of_flags (ds more : List Char)
    (hm1 : more.head? ≠ some '%') (hm2 : (more.head?.map isDigitChar) ≠ some true)
    (hds : ∀ d ∈ ds, isDigitChar d = true) : positionalRest (ds ++ more) = none := by
  have hdw := dropWhile_digit_append ds more hds hm2
  unfold positionalRest
  rw [hdw.1]
  simp [hm1]

/-- A printf-style directive: after the percent sign come digits `ds`, further characters
`more` that are no letters and do not start with a digit or a percent sign, and the first
letter `l`. -/
theorem format_str_printf (ds more rest : List Char) (l : Char) (args : List (List Char))
    (hds : ∀ d ∈ ds, isDigitChar d = true) (hm : ∀ c ∈ more, isLetterChar c = false)
    (hm1 : more.head? ≠ some '%') (hm2 : (more.head?.map isDigitChar) ≠ some true)
    (hl : isLetterChar l = true) :
    format_str ('%' :: (ds ++ (more ++ l :: rest))) args
      = args.headD [] ++ format_str rest args.tail := by
  have hl1 : (more ++ l :: rest).head? ≠ some '%' := by
    cases more with
    | nil => simpa using isLetterChar_ne_percent l hl
    | cons c more => simpa using hm1
  have hl2 : ((more ++ l :: rest).head?.map isDigitChar) ≠ some true := by
    cases more with
    | nil =>
      intro hx
      simp only [List.nil_append, List.head?_cons, Option.map_some', Option.some.injEq] at hx
      rw [isLetterChar_of_digit l hx] at hl
      exact absurd hl (by simp)
    | cons c more => simpa using hm2
  have hhead := head?_append_ne_percent ds (more ++ l :: rest) hds hl1
  have hpos := positionalRest_none_of_flags ds (more ++ l :: rest) hl1 hl2 hds
  have hnl : ∀ c ∈ ds ++ more, isLetterChar c = false := by
    intro c hc
    rcases List.mem_append.1 hc with h | h
    · exact isLetterChar_of_digit c (hds c h)
    · exact hm c h
  have hpr : printfRest (ds ++ (more ++ l :: rest)) = rest := by
    unfold printfRest
    rw [← List.append_assoc, dropWhile_letter_append (ds ++ more) rest l hnl hl]
    rfl
  rw [format_str_cons]
  simp only [ne_eq, not_true_eq_false, if_false, hhead, hpos, hpr]

/-- A percent sign after which no letter follows: the directive takes the rest of the
format. -/
theorem format_str_unterminated (ds more : List Char) (args : List (List Char))
    (hds : ∀ d ∈ ds, isDigitChar d = true) (hm : ∀ c ∈ more, isLetterChar c = false)
    (hm1 : more.head? ≠ some '%') (hm2 : (more.head?.map isDigitChar) ≠ some true) :
    format_str ('%' :: (ds ++ more)) args = args.headD [] := by
  have hhead := head?_append_ne_percent ds more hds hm1
  have hpos := positionalRest_none_of_flags ds more hm1 hm2 hds
  have hnl : ∀ c ∈ ds ++ more, isLetterChar c = false := by
    intro c hc
    rcases List.mem_append.1 hc with h | h
    · exact isLetterChar_of_digit c (hds c h)
    · exact hm c h
  have hpr : printfRest (ds ++ more) = [] := by
    unfold printfRest
    rw [dropWhile_letter_none _ hnl]
    rfl
  rw [format_str_cons]
  simp only [ne_eq, not_true_eq_false, if_false, hhead, hpos, hpr]
  simp [format_str, formatLoop]

/-! ## Format shim: claim -/

/-- C22 (counterexample): in the format percent sign, exclamation mark no letter follows
the percent sign; `str` replaces the percent sign together with the exclamation mark by
the argument, so a character other than the percent sign, outside any positional or
printf-style directive, is not copied. -/
theorem C22_counterexample_no_letter_swallows_rest :
    format_str "%!".toList ["A".toList] = "A".toList ∧
    '!' ∈ "%!".toList ∧ '!' ≠ '%' ∧
    (∀ c ∈ "%!".toList, isLetterChar c = false ∧ isDigitChar c = false) ∧
    '!' ∉ format_str "%!".toList ["A".toList] := by
  decide

/-- C22 (amended): for every format and argument list, `str` reads the format from left to
right: a character other than the percent sign is copied; two percent signs give one
percent sign and use no argument; any other percent sign starts a directive, which is
positional (digits and a closing percent sign), or runs up to and including the first
letter, or, when no letter follows, takes the whole rest of the format; a directive is
replaced by the next unused argument in supply order, whatever its index, width or flags,
and by nothing once the arguments are used up; a format without percent sign is returned
unchanged. -/
theorem C22_format_substitution (fmt : List Char) (args : List (List Char)) :
    format_str fmt args = substituted fmt args ∧
    ('%' ∉ fmt → format_str fmt args = fmt) ∧
    (∀ c rest, c ≠ '%' → format_str (c :: rest) args = c :: format_str rest args) ∧
    (∀ rest, format_str ('%' :: '%' :: rest) args = '%' :: format_str rest args) ∧
    (∀ ds rest, ds ≠ [] → (∀ d ∈ ds, isDigitChar d = true) →
      format_str ('%' :: (ds ++ '%' :: rest)) args
        = args.headD [] ++ format_str rest args.tail) ∧
    (∀ ds more l rest, (∀ d ∈ ds, isDigitChar d = true) →
      (∀ c ∈ more, isLetterChar c = false) → more.head? ≠ some '%' →
      (more.head?.map isDigitChar) ≠ some true → isLetterChar l = true →
      format_str ('%' :: (ds ++ (more ++ l :: rest))) args
        = args.headD [] ++ format_str rest args.tail) ∧
    (∀ ds more, (∀ d ∈ ds, isDigitChar d = true) →
      (∀ c ∈ more, isLetterChar c = false) → more.head? ≠ some '%' →
      (more.head?.map isDigitChar) ≠ some true →
      format_str ('%' :: (ds ++ more)) args = args.headD []) ∧
    format_str "%2% and %1%, %05.2f%% of %s%d".toList ["x".toList, "y".toList, "7".toList]
      = "x and y, 7% of ".toList := by
  refine ⟨format_str_eq_substituted fmt args, ?_, ?_, ?_, ?_, ?_, ?_, by decide⟩
  · intro h
    rw [format_str_eq_substituted]
    exact substitute_plain _ fmt args h (Nat.le_refl _)
  · intro c rest hc
    rw [format_str_cons]
    simp only [ne_eq, hc, not_false_eq_true, if_true]
  · intro rest
    rw [format_str_cons]
    simp
  · intro ds rest hne hds
    exact format_str_positional ds rest args hne hds
  · intro ds more l rest hds hm hm1 hm2 hl
    exact format_str_printf ds more rest l args hds hm hm1 hm2 hl
  · intro ds more hds hm hm1 hm2
    exact format_str_unterminated ds more args hds hm hm1 hm2

end ProjectorRays
